import Mathlib

/-!
AES-128 study programs: encryption, decryption and the avalanche harness.

A shallow embedding of the three C++ programs of the repository

* `AES C++ Impelementation/encrypt.cpp`  (namespace `Encrypt`),
* `AES C++ Impelementation/decrypt.cpp`  (namespace `Decrypt`),
* `AES C++ Impelementation with Avalanche effect/encrypt.cpp` (namespace `Avalanche`),

a second embedding of the two pipelines in which every array access is checked
(namespaces `EncryptChecked` and `DecryptChecked`), and theorems about them.

Conventions of the embedding.

* An `unsigned char` is a `Nat` below 256; a buffer reached through an
  `unsigned char *` is a `List Nat`; `p + k` on such a pointer is `List.drop k`.
* A `for` loop that updates an array in place is a `List.foldl` over the loop
  indices whose step performs the assignment with `List.set`.
* The header `structures.h` (lookup tables `s`, `inv_s`, `mul2`, `mul3`, `mul9`,
  `mul11`, `mul13`, `mul14` and the function `KeyExpansion`) is not among the
  source files.  The tables are a parameter `T : Tables` of every function that
  reads them; `KeyExpansion` is given as the expansion of section 4.2 and, for
  the call sites, in memory-passing form on the output array (`KeyExpansionMem`).
-/

/-! ## Arithmetic of GF(2^8) and the contents of `structures.h` -/

/-- Modelled from the spec: doubling in GF(2^8) ("doubling + conditional XOR with
0x1B on overflow"), the multiplication by `x` modulo `x^8+x^4+x^3+x+1`.  The
header `structures.h`, which holds the precomputed tables, is missing. -/
def xtime (x : Nat) : Nat :=
  if x < 128 then 2 * x else (2 * x) % 256 ^^^ 0x1B

/-- Modelled from the spec: "repeated field multiplication" of the byte `x` by
the constant `c` (below 256) in GF(2^8): the XOR of the `i`-fold doublings of `x`
over the bits `i` set in `c`.  This is what the missing tables `mul2`, ..., `mul14`
of `structures.h` have to tabulate. -/
def gfMul (c x : Nat) : Nat :=
  (List.range 8).foldl (fun acc i => if c.testBit i then acc ^^^ (xtime^[i] x) else acc) 0

/-- The lookup tables declared in `structures.h`: eight arrays
`unsigned char[256]`. -/
structure Tables where
  /-- Forward S-box `s`. -/
  s : List Nat
  /-- Inverse S-box `inv_s`. -/
  inv_s : List Nat
  /-- Multiplication by 2. -/
  mul2 : List Nat
  /-- Multiplication by 3. -/
  mul3 : List Nat
  /-- Multiplication by 9. -/
  mul9 : List Nat
  /-- Multiplication by 11. -/
  mul11 : List Nat
  /-- Multiplication by 13. -/
  mul13 : List Nat
  /-- Multiplication by 14. -/
  mul14 : List Nat

/-- A table is an `unsigned char[256]`: 256 entries, each a byte. -/
def isTable (t : List Nat) : Prop :=
  t.length = 256 ∧ ∀ x ∈ t, x < 256

instance (t : List Nat) : Decidable (isTable t) := by
  unfold isTable; infer_instance

/-- Modelled from the spec: what section 4.1 requires of the tables of the missing
header `structures.h`.  Every table is a byte table; `inv_s` is the exact
functional inverse of `s` (in both directions); `mulN` is multiplication by `N`
in GF(2^8) modulo `x^8+x^4+x^3+x+1`. -/
structure Tables.Valid (T : Tables) : Prop where
  s_table : isTable T.s
  inv_s_table : isTable T.inv_s
  inv_s_s : ∀ x, x < 256 → T.inv_s.getD (T.s.getD x 0) 0 = x
  s_inv_s : ∀ x, x < 256 → T.s.getD (T.inv_s.getD x 0) 0 = x
  mul2_table : isTable T.mul2
  mul3_table : isTable T.mul3
  mul9_table : isTable T.mul9
  mul11_table : isTable T.mul11
  mul13_table : isTable T.mul13
  mul14_table : isTable T.mul14
  mul2_eq : ∀ x, x < 256 → T.mul2.getD x 0 = gfMul 2 x
  mul3_eq : ∀ x, x < 256 → T.mul3.getD x 0 = gfMul 3 x
  mul9_eq : ∀ x, x < 256 → T.mul9.getD x 0 = gfMul 9 x
  mul11_eq : ∀ x, x < 256 → T.mul11.getD x 0 = gfMul 11 x
  mul13_eq : ∀ x, x < 256 → T.mul13.getD x 0 = gfMul 13 x
  mul14_eq : ∀ x, x < 256 → T.mul14.getD x 0 = gfMul 14 x

/-- Modelled from the spec: the forward S-box of the published AES standard
(FIPS-197, figure 7), the table `s` of the missing header `structures.h`. -/
def sbox : List Nat :=
  [0x63, 0x7c, 0x77, 0x7b, 0xf2, 0x6b, 0x6f, 0xc5, 0x30, 0x01, 0x67, 0x2b, 0xfe, 0xd7, 0xab, 0x76,
   0xca, 0x82, 0xc9, 0x7d, 0xfa, 0x59, 0x47, 0xf0, 0xad, 0xd4, 0xa2, 0xaf, 0x9c, 0xa4, 0x72, 0xc0,
   0xb7, 0xfd, 0x93, 0x26, 0x36, 0x3f, 0xf7, 0xcc, 0x34, 0xa5, 0xe5, 0xf1, 0x71, 0xd8, 0x31, 0x15,
   0x04, 0xc7, 0x23, 0xc3, 0x18, 0x96, 0x05, 0x9a, 0x07, 0x12, 0x80, 0xe2, 0xeb, 0x27, 0xb2, 0x75,
   0x09, 0x83, 0x2c, 0x1a, 0x1b, 0x6e, 0x5a, 0xa0, 0x52, 0x3b, 0xd6, 0xb3, 0x29, 0xe3, 0x2f, 0x84,
   0x53, 0xd1, 0x00, 0xed, 0x20, 0xfc, 0xb1, 0x5b, 0x6a, 0xcb, 0xbe, 0x39, 0x4a, 0x4c, 0x58, 0xcf,
   0xd0, 0xef, 0xaa, 0xfb, 0x43, 0x4d, 0x33, 0x85, 0x45, 0xf9, 0x02, 0x7f, 0x50, 0x3c, 0x9f, 0xa8,
   0x51, 0xa3, 0x40, 0x8f, 0x92, 0x9d, 0x38, 0xf5, 0xbc, 0xb6, 0xda, 0x21, 0x10, 0xff, 0xf3, 0xd2,
   0xcd, 0x0c, 0x13, 0xec, 0x5f, 0x97, 0x44, 0x17, 0xc4, 0xa7, 0x7e, 0x3d, 0x64, 0x5d, 0x19, 0x73,
   0x60, 0x81, 0x4f, 0xdc, 0x22, 0x2a, 0x90, 0x88, 0x46, 0xee, 0xb8, 0x14, 0xde, 0x5e, 0x0b, 0xdb,
   0xe0, 0x32, 0x3a, 0x0a, 0x49, 0x06, 0x24, 0x5c, 0xc2, 0xd3, 0xac, 0x62, 0x91, 0x95, 0xe4, 0x79,
   0xe7, 0xc8, 0x37, 0x6d, 0x8d, 0xd5, 0x4e, 0xa9, 0x6c, 0x56, 0xf4, 0xea, 0x65, 0x7a, 0xae, 0x08,
   0xba, 0x78, 0x25, 0x2e, 0x1c, 0xa6, 0xb4, 0xc6, 0xe8, 0xdd, 0x74, 0x1f, 0x4b, 0xbd, 0x8b, 0x8a,
   0x70, 0x3e, 0xb5, 0x66, 0x48, 0x03, 0xf6, 0x0e, 0x61, 0x35, 0x57, 0xb9, 0x86, 0xc1, 0x1d, 0x9e,
   0xe1, 0xf8, 0x98, 0x11, 0x69, 0xd9, 0x8e, 0x94, 0x9b, 0x1e, 0x87, 0xe9, 0xce, 0x55, 0x28, 0xdf,
   0x8c, 0xa1, 0x89, 0x0d, 0xbf, 0xe6, 0x42, 0x68, 0x41, 0x99, 0x2d, 0x0f, 0xb0, 0x54, 0xbb, 0x16]

/-- Modelled from the spec: the inverse S-box of the published AES standard
(FIPS-197, figure 14), the table `inv_s` of the missing header `structures.h`. -/
def inv_sbox : List Nat :=
  [0x52, 0x09, 0x6a, 0xd5, 0x30, 0x36, 0xa5, 0x38, 0xbf, 0x40, 0xa3, 0x9e, 0x81, 0xf3, 0xd7, 0xfb,
   0x7c, 0xe3, 0x39, 0x82, 0x9b, 0x2f, 0xff, 0x87, 0x34, 0x8e, 0x43, 0x44, 0xc4, 0xde, 0xe9, 0xcb,
   0x54, 0x7b, 0x94, 0x32, 0xa6, 0xc2, 0x23, 0x3d, 0xee, 0x4c, 0x95, 0x0b, 0x42, 0xfa, 0xc3, 0x4e,
   0x08, 0x2e, 0xa1, 0x66, 0x28, 0xd9, 0x24, 0xb2, 0x76, 0x5b, 0xa2, 0x49, 0x6d, 0x8b, 0xd1, 0x25,
   0x72, 0xf8, 0xf6, 0x64, 0x86, 0x68, 0x98, 0x16, 0xd4, 0xa4, 0x5c, 0xcc, 0x5d, 0x65, 0xb6, 0x92,
   0x6c, 0x70, 0x48, 0x50, 0xfd, 0xed, 0xb9, 0xda, 0x5e, 0x15, 0x46, 0x57, 0xa7, 0x8d, 0x9d, 0x84,
   0x90, 0xd8, 0xab, 0x00, 0x8c, 0xbc, 0xd3, 0x0a, 0xf7, 0xe4, 0x58, 0x05, 0xb8, 0xb3, 0x45, 0x06,
   0xd0, 0x2c, 0x1e, 0x8f, 0xca, 0x3f, 0x0f, 0x02, 0xc1, 0xaf, 0xbd, 0x03, 0x01, 0x13, 0x8a, 0x6b,
   0x3a, 0x91, 0x11, 0x41, 0x4f, 0x67, 0xdc, 0xea, 0x97, 0xf2, 0xcf, 0xce, 0xf0, 0xb4, 0xe6, 0x73,
   0x96, 0xac, 0x74, 0x22, 0xe7, 0xad, 0x35, 0x85, 0xe2, 0xf9, 0x37, 0xe8, 0x1c, 0x75, 0xdf, 0x6e,
   0x47, 0xf1, 0x1a, 0x71, 0x1d, 0x29, 0xc5, 0x89, 0x6f, 0xb7, 0x62, 0x0e, 0xaa, 0x18, 0xbe, 0x1b,
   0xfc, 0x56, 0x3e, 0x4b, 0xc6, 0xd2, 0x79, 0x20, 0x9a, 0xdb, 0xc0, 0xfe, 0x78, 0xcd, 0x5a, 0xf4,
   0x1f, 0xdd, 0xa8, 0x33, 0x88, 0x07, 0xc7, 0x31, 0xb1, 0x12, 0x10, 0x59, 0x27, 0x80, 0xec, 0x5f,
   0x60, 0x51, 0x7f, 0xa9, 0x19, 0xb5, 0x4a, 0x0d, 0x2d, 0xe5, 0x7a, 0x9f, 0x93, 0xc9, 0x9c, 0xef,
   0xa0, 0xe0, 0x3b, 0x4d, 0xae, 0x2a, 0xf5, 0xb0, 0xc8, 0xeb, 0xbb, 0x3c, 0x83, 0x53, 0x99, 0x61,
   0x17, 0x2b, 0x04, 0x7e, 0xba, 0x77, 0xd6, 0x26, 0xe1, 0x69, 0x14, 0x63, 0x55, 0x21, 0x0c, 0x7d]

/-- Modelled from the spec: the tables of the missing header `structures.h` as
section 4.1 describes them: the standard S-box pair and, for each constant, the
256-entry table of the field multiplication by it. -/
def stdTables : Tables where
  s := sbox
  inv_s := inv_sbox
  mul2 := (List.range 256).map (gfMul 2)
  mul3 := (List.range 256).map (gfMul 3)
  mul9 := (List.range 256).map (gfMul 9)
  mul11 := (List.range 256).map (gfMul 11)
  mul13 := (List.range 256).map (gfMul 13)
  mul14 := (List.range 256).map (gfMul 14)

/-- Modelled from the spec: round constant number `i` (from 1) of the key
schedule, the `(i-1)`-fold doubling of 1 in GF(2^8): 01, 02, 04, ..., 80, 1b, 36. -/
def rcon (i : Nat) : Nat :=
  xtime^[i - 1] 1

/-- Modelled from the spec: the core of the key schedule, applied to the last
4-byte word before every fourth word: "word rotation, S-box substitution of the
rotated word, XOR with a round constant" (section 4.2).  `KeyExpansion` lives in
the missing header `structures.h`. -/
def KeyExpansionCore (T : Tables) (w : List Nat) (i : Nat) : List Nat :=
  [T.s.getD (w.getD 1 0) 0 ^^^ rcon i, T.s.getD (w.getD 2 0) 0,
   T.s.getD (w.getD 3 0) 0, T.s.getD (w.getD 0 0) 0]

/-- Modelled from the spec: one step of the key schedule: append the next 4-byte
word, the XOR of the word 16 bytes back with the last word (passed through the
core at the start of each round key): "successive XOR-chaining across 4-byte
words". -/
def KeyExpansionStep (T : Tables) (ek : List Nat) : List Nat :=
  let n := ek.length
  let last := ek.drop (n - 4)
  let tmp := if n % 16 = 0 then KeyExpansionCore T last (n / 16) else last
  ek ++ (List.range 4).map (fun a => ek.getD (n - 16 + a) 0 ^^^ tmp.getD a 0)

/-- Modelled from the spec: `KeyExpansion` of the missing header `structures.h`,
the standard AES-128 key expansion of section 4.2: the 16 key bytes are round
key 0, and 40 further words are chained on, 176 bytes in all. -/
def KeyExpansion (T : Tables) (key : List Nat) : List Nat :=
  (KeyExpansionStep T)^[40] ((List.range 16).map (fun i => key.getD i 0))

/-- Modelled from the spec: one pass of the key schedule of the missing
`structures.h` on the output array itself, in place.  With `bytesGenerated` bytes
of `expandedKeys` already written, the last 4-byte word is read into `tmpCore`,
passed through the core at the start of each round key, and the next four bytes
are stored as the XOR of the byte 16 places back in the array with `tmpCore`. -/
def KeyExpansionWordMem (T : Tables) (expandedKeys : List Nat) (bytesGenerated : Nat) :
    List Nat :=
  let tmpCore := (List.range 4).map (fun i => expandedKeys.getD (i + bytesGenerated - 4) 0)
  let tmpCore :=
    if bytesGenerated % 16 = 0 then KeyExpansionCore T tmpCore (bytesGenerated / 16)
    else tmpCore
  (List.range 4).foldl
    (fun ek a =>
      ek.set (bytesGenerated + a) (ek.getD (bytesGenerated + a - 16) 0 ^^^ tmpCore.getD a 0))
    expandedKeys

/-- Modelled from the spec: the call `KeyExpansion(key, expandedKey)` that the
three `main` functions make, in memory-passing form; the function itself is in
the missing `structures.h`.  Both arrays go in and both come out: `expandedKeys`
holds whatever the caller left in it (nothing yet, or an earlier expansion, as in
the key branch of the avalanche program).  The 16 key bytes are stored to
`expandedKeys[0..15]`, then 40 words are stored to `expandedKeys[16..175]`, each
computed from bytes of the array stored before it. -/
def KeyExpansionMem (T : Tables) (inputKey expandedKeys : List Nat) : List Nat × List Nat :=
  let mem := (List.range 16).foldl
    (fun (mem : List Nat × List Nat) i => (mem.1, mem.2.set i (mem.1.getD i 0)))
    (inputKey, expandedKeys)
  (List.range 40).foldl
    (fun (mem : List Nat × List Nat) w => (mem.1, KeyExpansionWordMem T mem.2 (16 + 4 * w)))
    mem

/-! ## Blocks and keys -/

/-- A 16-byte block (a state, a plaintext or ciphertext block, a key). -/
def isBlock (b : List Nat) : Prop :=
  b.length = 16 ∧ ∀ x ∈ b, x < 256

instance (b : List Nat) : Decidable (isBlock b) := by
  unfold isBlock; infer_instance

/-- A 176-byte expanded key: 11 round keys of 16 bytes. -/
def isExpandedKey (ek : List Nat) : Prop :=
  ek.length = 176 ∧ ∀ x ∈ ek, x < 256

instance (ek : List Nat) : Decidable (isExpandedKey ek) := by
  unfold isExpandedKey; infer_instance

/-- The loop `for (i = 0; i < 16; i++) dst[i] = src[i];` that the programs use to
copy a block. -/
def copy16 (dst src : List Nat) : List Nat :=
  (List.range 16).foldl (fun d i => d.set i (src.getD i 0)) dst

/-- An `unsigned char x[16];` before anything is stored in it. -/
def fresh16 : List Nat :=
  List.replicate 16 0

/-! ## `AES C++ Impelementation/encrypt.cpp` -/

namespace Encrypt

/-- Memory-passing form of `AddRoundKey(state, roundKey)`: both buffers go in,
both come out; the loop body `state[i] ^= roundKey[i]` stores only into `state`. -/
def AddRoundKeyMem (state roundKey : List Nat) : List Nat × List Nat :=
  (List.range 16).foldl
    (fun mem i => (mem.1.set i (mem.1.getD i 0 ^^^ mem.2.getD i 0), mem.2))
    (state, roundKey)

/-- The state left by `AddRoundKey(state, roundKey)`. -/
def AddRoundKey (state roundKey : List Nat) : List Nat :=
  (AddRoundKeyMem state roundKey).1

/-- Source `subBytes`: `state[i] = s[state[i]]` for `i = 0..15`. -/
def subBytes (T : Tables) (state : List Nat) : List Nat :=
  (List.range 16).foldl (fun st i => st.set i (T.s.getD (st.getD i 0) 0)) state

/-- Source `ShiftRows`: fills `temp` with the permuted bytes and copies it back. -/
def ShiftRows (state : List Nat) : List Nat :=
  let st := fun i => state.getD i 0
  let temp := [st 0, st 5, st 10, st 15,
               st 4, st 9, st 14, st 3,
               st 8, st 13, st 2, st 7,
               st 12, st 1, st 6, st 11]
  copy16 state temp

/-- Source `MixColumns`: fills `tmp` through the tables `mul2` and `mul3` and
copies it back. -/
def MixColumns (T : Tables) (state : List Nat) : List Nat :=
  let st := fun i => state.getD i 0
  let mul2 := fun x => T.mul2.getD x 0
  let mul3 := fun x => T.mul3.getD x 0
  let tmp :=
    [mul2 (st 0) ^^^ mul3 (st 1) ^^^ st 2 ^^^ st 3,
     st 0 ^^^ mul2 (st 1) ^^^ mul3 (st 2) ^^^ st 3,
     st 0 ^^^ st 1 ^^^ mul2 (st 2) ^^^ mul3 (st 3),
     mul3 (st 0) ^^^ st 1 ^^^ st 2 ^^^ mul2 (st 3),
     mul2 (st 4) ^^^ mul3 (st 5) ^^^ st 6 ^^^ st 7,
     st 4 ^^^ mul2 (st 5) ^^^ mul3 (st 6) ^^^ st 7,
     st 4 ^^^ st 5 ^^^ mul2 (st 6) ^^^ mul3 (st 7),
     mul3 (st 4) ^^^ st 5 ^^^ st 6 ^^^ mul2 (st 7),
     mul2 (st 8) ^^^ mul3 (st 9) ^^^ st 10 ^^^ st 11,
     st 8 ^^^ mul2 (st 9) ^^^ mul3 (st 10) ^^^ st 11,
     st 8 ^^^ st 9 ^^^ mul2 (st 10) ^^^ mul3 (st 11),
     mul3 (st 8) ^^^ st 9 ^^^ st 10 ^^^ mul2 (st 11),
     mul2 (st 12) ^^^ mul3 (st 13) ^^^ st 14 ^^^ st 15,
     st 12 ^^^ mul2 (st 13) ^^^ mul3 (st 14) ^^^ st 15,
     st 12 ^^^ st 13 ^^^ mul2 (st 14) ^^^ mul3 (st 15),
     mul3 (st 12) ^^^ st 13 ^^^ st 14 ^^^ mul2 (st 15)]
  copy16 state tmp

/-- Source `Round`: `subBytes`, `ShiftRows`, `MixColumns`, `AddRoundKey`. -/
def Round (T : Tables) (state key : List Nat) : List Nat :=
  AddRoundKey (MixColumns T (ShiftRows (subBytes T state))) key

/-- Source `FinalRound`: as `Round` without `MixColumns`. -/
def FinalRound (T : Tables) (state key : List Nat) : List Nat :=
  AddRoundKey (ShiftRows (subBytes T state)) key

/-- Source `AESEncrypt(message, expandedKey, enctypedMessage)`; the result is the
16 bytes stored through `enctypedMessage`. -/
def AESEncrypt (T : Tables) (message expandedKey : List Nat) : List Nat :=
  let state := copy16 fresh16 message
  let numberOfRounds := 9
  let state := AddRoundKey state expandedKey
  let state := (List.range numberOfRounds).foldl
    (fun st i => Round T st (expandedKey.drop (16 * (i + 1)))) state
  let state := FinalRound T state (expandedKey.drop 160)
  copy16 fresh16 state

end Encrypt

/-! ## `AES C++ Impelementation/decrypt.cpp` -/

namespace Decrypt

/-- Memory-passing form of `AddRoundKey(state, roundKey)` of `decrypt.cpp` (the
same text as in `encrypt.cpp`): the loop body `state[i] ^= roundKey[i]` stores
only into `state`. -/
def AddRoundKeyMem (state roundKey : List Nat) : List Nat × List Nat :=
  (List.range 16).foldl
    (fun mem i => (mem.1.set i (mem.1.getD i 0 ^^^ mem.2.getD i 0), mem.2))
    (state, roundKey)

/-- The state left by `AddRoundKey(state, roundKey)`. -/
def AddRoundKey (state roundKey : List Nat) : List Nat :=
  (AddRoundKeyMem state roundKey).1

/-- Source `InverseMixColumns`: fills `tmp` through the tables `mul14`, `mul11`,
`mul13`, `mul9` and copies it back. -/
def InverseMixColumns (T : Tables) (state : List Nat) : List Nat :=
  let st := fun i => state.getD i 0
  let mul9 := fun x => T.mul9.getD x 0
  let mul11 := fun x => T.mul11.getD x 0
  let mul13 := fun x => T.mul13.getD x 0
  let mul14 := fun x => T.mul14.getD x 0
  let tmp :=
    [mul14 (st 0) ^^^ mul11 (st 1) ^^^ mul13 (st 2) ^^^ mul9 (st 3),
     mul9 (st 0) ^^^ mul14 (st 1) ^^^ mul11 (st 2) ^^^ mul13 (st 3),
     mul13 (st 0) ^^^ mul9 (st 1) ^^^ mul14 (st 2) ^^^ mul11 (st 3),
     mul11 (st 0) ^^^ mul13 (st 1) ^^^ mul9 (st 2) ^^^ mul14 (st 3),
     mul14 (st 4) ^^^ mul11 (st 5) ^^^ mul13 (st 6) ^^^ mul9 (st 7),
     mul9 (st 4) ^^^ mul14 (st 5) ^^^ mul11 (st 6) ^^^ mul13 (st 7),
     mul13 (st 4) ^^^ mul9 (st 5) ^^^ mul14 (st 6) ^^^ mul11 (st 7),
     mul11 (st 4) ^^^ mul13 (st 5) ^^^ mul9 (st 6) ^^^ mul14 (st 7),
     mul14 (st 8) ^^^ mul11 (st 9) ^^^ mul13 (st 10) ^^^ mul9 (st 11),
     mul9 (st 8) ^^^ mul14 (st 9) ^^^ mul11 (st 10) ^^^ mul13 (st 11),
     mul13 (st 8) ^^^ mul9 (st 9) ^^^ mul14 (st 10) ^^^ mul11 (st 11),
     mul11 (st 8) ^^^ mul13 (st 9) ^^^ mul9 (st 10) ^^^ mul14 (st 11),
     mul14 (st 12) ^^^ mul11 (st 13) ^^^ mul13 (st 14) ^^^ mul9 (st 15),
     mul9 (st 12) ^^^ mul14 (st 13) ^^^ mul11 (st 14) ^^^ mul13 (st 15),
     mul13 (st 12) ^^^ mul9 (st 13) ^^^ mul14 (st 14) ^^^ mul11 (st 15),
     mul11 (st 12) ^^^ mul13 (st 13) ^^^ mul9 (st 14) ^^^ mul14 (st 15)]
  copy16 state tmp

/-- Source `ShiftRows` of `decrypt.cpp` (the inverse shift): fills `tmp` with the
permuted bytes and copies it back. -/
def ShiftRows (state : List Nat) : List Nat :=
  let st := fun i => state.getD i 0
  let tmp := [st 0, st 13, st 10, st 7,
              st 4, st 1, st 14, st 11,
              st 8, st 5, st 2, st 15,
              st 12, st 9, st 6, st 3]
  copy16 state tmp

/-- Source `SubBytes` of `decrypt.cpp`: `state[i] = inv_s[state[i]]` for
`i = 0..15`. -/
def SubBytes (T : Tables) (state : List Nat) : List Nat :=
  (List.range 16).foldl (fun st i => st.set i (T.inv_s.getD (st.getD i 0) 0)) state

/-- Source `Round` of `decrypt.cpp`: `AddRoundKey`, `InverseMixColumns`,
`ShiftRows`, `SubBytes`. -/
def Round (T : Tables) (state key : List Nat) : List Nat :=
  SubBytes T (ShiftRows (InverseMixColumns T (AddRoundKey state key)))

/-- Source `InitialRound`: `AddRoundKey`, `ShiftRows`, `SubBytes`. -/
def InitialRound (T : Tables) (state key : List Nat) : List Nat :=
  SubBytes T (ShiftRows (AddRoundKey state key))

/-- Source `AESDecrypt(encryptedMessage, expandedKey, decryptedMessage)`; the
result is the 16 bytes stored through `decryptedMessage`.  The loop
`for (i = 8; i >= 0; i--)` visits 8, 7, ..., 0. -/
def AESDecrypt (T : Tables) (encryptedMessage expandedKey : List Nat) : List Nat :=
  let state := copy16 fresh16 encryptedMessage
  let state := InitialRound T state (expandedKey.drop 160)
  let state := (List.range 9).reverse.foldl
    (fun st i => Round T st (expandedKey.drop (16 * (i + 1)))) state
  let state := AddRoundKey state expandedKey
  copy16 fresh16 state

end Decrypt

/-! ## `AES C++ Impelementation with Avalanche effect/encrypt.cpp`

Lines 24 to 160 of this file (`AddRoundKey` ... `AESEncrypt`) are the text of
`AES C++ Impelementation/encrypt.cpp`; the embedding of namespace `Encrypt` is
used for them. -/

namespace Avalanche

/-- The inner loop `while (diff) { count += diff & 1; diff >>= 1; }` of
`countChangedBits`.  `diff` is an `unsigned char`, so the body runs at most 8
times; the first argument bounds the number of iterations. -/
def countLoop : Nat → Nat → Nat → Nat
  | 0, _, count => count
  | fuel + 1, diff, count =>
    if diff ≠ 0 then countLoop fuel (diff >>> 1) (count + (diff &&& 1)) else count

/-- Source `countChangedBits(original, modified, length)`.  The declaration
`unsigned char diff = original[i] ^ modified[i]` narrows to 8 bits. -/
def countChangedBits (original modified : List Nat) (length : Nat) : Nat :=
  (List.range length).foldl
    (fun count i =>
      let diff := (original.getD i 0 ^^^ modified.getD i 0) % 256
      countLoop 8 diff count)
    0

/-- Source `flipBit(data, bitPos)`.  `bitPos` is an `int`; `/` and `%` truncate
towards zero.  The source makes no check of `bitPos`.  The result is `none`
exactly where C leaves the behaviour undefined: a shift by a negative count, or
an access outside the buffer `data`; no error is raised there. -/
def flipBit (data : List Nat) (bitPos : Int) : Option (List Nat) :=
  let byteIndex := Int.tdiv bitPos 8
  let bitIndex := Int.tmod bitPos 8
  if 0 ≤ bitIndex ∧ 0 ≤ byteIndex ∧ byteIndex.toNat < data.length then
    some (data.set byteIndex.toNat
      (data.getD byteIndex.toNat 0 ^^^ (1 <<< bitIndex.toNat)))
  else
    none

/-- The first two statements of source `flipBit`: `byteIndex = bitPos / 8` and
`bitIndex = bitPos % 8` on `int`, truncating towards zero.  The third statement
stores to `data[byteIndex]` with the mask `1 << bitIndex`; no test stands between
them. -/
def flipBitIndices (bitPos : Int) : Int × Int :=
  (Int.tdiv bitPos 8, Int.tmod bitPos 8)

/-- Source `AESEncryptWithAvalanche(message, expandedKey, encryptedMessage,
dataFile)`.  The stream `dataFile` is the list of the records written so far; a
line `r,count` is the pair `(r, count)`.  The result is the 16 bytes stored
through `encryptedMessage` and the stream afterwards. -/
def AESEncryptWithAvalanche (T : Tables) (message expandedKey : List Nat)
    (dataFile : List (Nat × Nat)) : List Nat × List (Nat × Nat) :=
  let mem := (List.range 16).foldl
    (fun (m : List Nat × List Nat) i =>
      (m.1.set i (message.getD i 0), m.2.set i (message.getD i 0)))
    (fresh16, fresh16)
  let state := mem.1
  let originalState := mem.2
  let numberOfRounds := 9
  let state := Encrypt.AddRoundKey state expandedKey
  let dataFile := dataFile ++ [(0, countChangedBits originalState state 16)]
  let loop := (List.range numberOfRounds).foldl
    (fun (sd : List Nat × List (Nat × Nat)) i =>
      let st := Encrypt.Round T sd.1 (expandedKey.drop (16 * (i + 1)))
      (st, sd.2 ++ [(i + 1, countChangedBits originalState st 16)]))
    (state, dataFile)
  let state := Encrypt.FinalRound T loop.1 (expandedKey.drop 160)
  let dataFile := loop.2 ++ [(10, countChangedBits originalState state 16)]
  (copy16 fresh16 state, dataFile)

/-- The block loop of `main`:
`for (i = 0; i < paddedMessageLen; i += 16) AESEncryptWithAvalanche(paddedMessage + i,
expandedKey, encryptedMessage + i, dataFile);`.  The result is the ciphertext
buffer and the records written. -/
def encryptBlocks (T : Tables) (paddedMessage expandedKey : List Nat)
    (paddedMessageLen : Nat) : List Nat × List (Nat × Nat) :=
  (List.range ((paddedMessageLen + 15) / 16)).foldl
    (fun (acc : List Nat × List (Nat × Nat)) k =>
      let r := AESEncryptWithAvalanche T (paddedMessage.drop (16 * k)) expandedKey acc.2
      (acc.1 ++ r.1, r.2))
    ([], [])

/-- The branch `choice == 'p'` of `main`: the key is expanded, the bit is flipped
in the padded message, and every block is encrypted with instrumentation.  The
CSV header line is left out of the records. -/
def mainPlaintextBranch (T : Tables) (paddedMessage key : List Nat) (bitToFlip : Int) :
    Option (List Nat × List (Nat × Nat)) :=
  let expandedKey := KeyExpansion T key
  match flipBit paddedMessage bitToFlip with
  | none => none
  | some flipped => some (encryptBlocks T flipped expandedKey flipped.length)

/-- The branch `choice == 'k'` of `main`: the bit is flipped in the key, the key
is expanded again, and every block is encrypted with instrumentation. -/
def mainKeyBranch (T : Tables) (paddedMessage key : List Nat) (bitToFlip : Int) :
    Option (List Nat × List (Nat × Nat)) :=
  match flipBit key bitToFlip with
  | none => none
  | some flippedKey =>
    let expandedKey := KeyExpansion T flippedKey
    some (encryptBlocks T paddedMessage expandedKey paddedMessage.length)

end Avalanche

/-! ## The two pipelines with every array access checked

The functions of `encrypt.cpp` and `decrypt.cpp` once more, now with every
subscript checked against the extent of the array it indexes: a read or a store
outside the array makes the whole run fail (`none`).  The state and the
temporaries are `unsigned char[16]`, the tables `unsigned char[256]`, the
expanded key `unsigned char[176]`.  A round key is passed as the expanded key
together with the offset of the round key in it, and the offsets of the expanded
key that are read are collected in call order. -/

/-- What the type `unsigned char[256]` says of the tables of `structures.h`:
each has 256 entries, each entry a byte. -/
structure Tables.Sized (T : Tables) : Prop where
  s_table : isTable T.s
  inv_s_table : isTable T.inv_s
  mul2_table : isTable T.mul2
  mul3_table : isTable T.mul3
  mul9_table : isTable T.mul9
  mul11_table : isTable T.mul11
  mul13_table : isTable T.mul13
  mul14_table : isTable T.mul14

/-- A read `a[i]` that fails when `i` is outside the array. -/
def checkedRead (a : List Nat) (i : Nat) : Option Nat :=
  a[i]?

/-- A store `a[i] = v` that fails when `i` is outside the array. -/
def checkedWrite (a : List Nat) (i v : Nat) : Option (List Nat) :=
  if i < a.length then some (a.set i v) else none

/-- The loop `for (i = 0; i < 16; i++) dst[i] = src[i];` with checked accesses. -/
def checkedCopy16 (dst src : List Nat) : Option (List Nat) :=
  (List.range 16).foldlM
    (fun d i => do
      let v ← checkedRead src i
      checkedWrite d i v)
    dst

/-- A table lookup `t[state[i]]` with both subscripts checked. -/
def checkedLookup (t state : List Nat) (i : Nat) : Option Nat := do
  let x ← checkedRead state i
  checkedRead t x

/-- The expression `a ^ b ^ c ^ d` over four checked operands, evaluated left to
right. -/
def checkedXor4 (a b c d : Option Nat) : Option Nat := do
  let x ← a
  let y ← b
  let z ← c
  let w ← d
  pure (x ^^^ y ^^^ z ^^^ w)

/-- The 16 checked right-hand sides that fill a temporary `unsigned char[16]`,
evaluated in order. -/
def sequence16 : List (Option Nat) → Option (List Nat)
  | [] => some []
  | none :: _ => none
  | some v :: rest => (sequence16 rest).map (fun vs => v :: vs)

namespace EncryptChecked

/-- Source `AddRoundKey(state, expandedKey + base)` with checked accesses;
`roundKey[i]` is `expandedKey[base + i]`, and `reads` collects these offsets. -/
def AddRoundKey (state expandedKey : List Nat) (base : Nat) (reads : List Nat) :
    Option (List Nat × List Nat) :=
  (List.range 16).foldlM
    (fun (sr : List Nat × List Nat) i => do
      let x ← checkedRead sr.1 i
      let k ← checkedRead expandedKey (base + i)
      let st ← checkedWrite sr.1 i (x ^^^ k)
      pure (st, sr.2 ++ [base + i]))
    (state, reads)

/-- Source `subBytes` with checked accesses to the state and to the table `s`. -/
def subBytes (T : Tables) (state : List Nat) : Option (List Nat) :=
  (List.range 16).foldlM
    (fun st i => do
      let x ← checkedRead st i
      let y ← checkedRead T.s x
      checkedWrite st i y)
    state

/-- Source `ShiftRows` with checked accesses: `temp[k] = state[j]` for the 16
index pairs of the source in order, then the copy back. -/
def ShiftRows (state : List Nat) : Option (List Nat) := do
  let temp ← [0, 5, 10, 15, 4, 9, 14, 3, 8, 13, 2, 7, 12, 1, 6, 11].mapM (checkedRead state)
  checkedCopy16 state temp

/-- Source `MixColumns` with checked accesses to the state and to the tables
`mul2` and `mul3`. -/
def MixColumns (T : Tables) (state : List Nat) : Option (List Nat) := do
  let st := fun i => checkedRead state i
  let mul2 := fun i => checkedLookup T.mul2 state i
  let mul3 := fun i => checkedLookup T.mul3 state i
  let tmp ← sequence16
    [checkedXor4 (mul2 0) (mul3 1) (st 2) (st 3),
     checkedXor4 (st 0) (mul2 1) (mul3 2) (st 3),
     checkedXor4 (st 0) (st 1) (mul2 2) (mul3 3),
     checkedXor4 (mul3 0) (st 1) (st 2) (mul2 3),
     checkedXor4 (mul2 4) (mul3 5) (st 6) (st 7),
     checkedXor4 (st 4) (mul2 5) (mul3 6) (st 7),
     checkedXor4 (st 4) (st 5) (mul2 6) (mul3 7),
     checkedXor4 (mul3 4) (st 5) (st 6) (mul2 7),
     checkedXor4 (mul2 8) (mul3 9) (st 10) (st 11),
     checkedXor4 (st 8) (mul2 9) (mul3 10) (st 11),
     checkedXor4 (st 8) (st 9) (mul2 10) (mul3 11),
     checkedXor4 (mul3 8) (st 9) (st 10) (mul2 11),
     checkedXor4 (mul2 12) (mul3 13) (st 14) (st 15),
     checkedXor4 (st 12) (mul2 13) (mul3 14) (st 15),
     checkedXor4 (st 12) (st 13) (mul2 14) (mul3 15),
     checkedXor4 (mul3 12) (st 13) (st 14) (mul2 15)]
  checkedCopy16 state tmp

/-- Source `Round` on the round key at offset `base`. -/
def Round (T : Tables) (state expandedKey : List Nat) (base : Nat) (reads : List Nat) :
    Option (List Nat × List Nat) := do
  let state ← subBytes T state
  let state ← ShiftRows state
  let state ← MixColumns T state
  AddRoundKey state expandedKey base reads

/-- Source `FinalRound` on the round key at offset `base`. -/
def FinalRound (T : Tables) (state expandedKey : List Nat) (base : Nat) (reads : List Nat) :
    Option (List Nat × List Nat) := do
  let state ← subBytes T state
  let state ← ShiftRows state
  AddRoundKey state expandedKey base reads

/-- Source `AESEncrypt` with checked accesses: the ciphertext and the offsets of
the expanded key that were read, or `none` when some access is out of range. -/
def AESEncrypt (T : Tables) (message expandedKey : List Nat) :
    Option (List Nat × List Nat) := do
  let state ← checkedCopy16 fresh16 message
  let numberOfRounds := 9
  let run ← AddRoundKey state expandedKey 0 []
  let run ← (List.range numberOfRounds).foldlM
    (fun (sr : List Nat × List Nat) i => Round T sr.1 expandedKey (16 * (i + 1)) sr.2)
    run
  let run ← FinalRound T run.1 expandedKey 160 run.2
  let enctypedMessage ← checkedCopy16 fresh16 run.1
  pure (enctypedMessage, run.2)

end EncryptChecked

namespace DecryptChecked

/-- Source `AddRoundKey(state, expandedKey + base)` of `decrypt.cpp` with checked
accesses; `roundKey[i]` is `expandedKey[base + i]`, and `reads` collects these
offsets. -/
def AddRoundKey (state expandedKey : List Nat) (base : Nat) (reads : List Nat) :
    Option (List Nat × List Nat) :=
  (List.range 16).foldlM
    (fun (sr : List Nat × List Nat) i => do
      let x ← checkedRead sr.1 i
      let k ← checkedRead expandedKey (base + i)
      let st ← checkedWrite sr.1 i (x ^^^ k)
      pure (st, sr.2 ++ [base + i]))
    (state, reads)

/-- Source `InverseMixColumns` with checked accesses to the state and to the
tables `mul14`, `mul11`, `mul13` and `mul9`. -/
def InverseMixColumns (T : Tables) (state : List Nat) : Option (List Nat) := do
  let mul9 := fun i => checkedLookup T.mul9 state i
  let mul11 := fun i => checkedLookup T.mul11 state i
  let mul13 := fun i => checkedLookup T.mul13 state i
  let mul14 := fun i => checkedLookup T.mul14 state i
  let tmp ← sequence16
    [checkedXor4 (mul14 0) (mul11 1) (mul13 2) (mul9 3),
     checkedXor4 (mul9 0) (mul14 1) (mul11 2) (mul13 3),
     checkedXor4 (mul13 0) (mul9 1) (mul14 2) (mul11 3),
     checkedXor4 (mul11 0) (mul13 1) (mul9 2) (mul14 3),
     checkedXor4 (mul14 4) (mul11 5) (mul13 6) (mul9 7),
     checkedXor4 (mul9 4) (mul14 5) (mul11 6) (mul13 7),
     checkedXor4 (mul13 4) (mul9 5) (mul14 6) (mul11 7),
     checkedXor4 (mul11 4) (mul13 5) (mul9 6) (mul14 7),
     checkedXor4 (mul14 8) (mul11 9) (mul13 10) (mul9 11),
     checkedXor4 (mul9 8) (mul14 9) (mul11 10) (mul13 11),
     checkedXor4 (mul13 8) (mul9 9) (mul14 10) (mul11 11),
     checkedXor4 (mul11 8) (mul13 9) (mul9 10) (mul14 11),
     checkedXor4 (mul14 12) (mul11 13) (mul13 14) (mul9 15),
     checkedXor4 (mul9 12) (mul14 13) (mul11 14) (mul13 15),
     checkedXor4 (mul13 12) (mul9 13) (mul14 14) (mul11 15),
     checkedXor4 (mul11 12) (mul13 13) (mul9 14) (mul14 15)]
  checkedCopy16 state tmp

/-- Source `ShiftRows` of `decrypt.cpp` with checked accesses: `tmp[k] = state[j]`
for the 16 index pairs of the source in order, then the copy back. -/
def ShiftRows (state : List Nat) : Option (List Nat) := do
  let tmp ← [0, 13, 10, 7, 4, 1, 14, 11, 8, 5, 2, 15, 12, 9, 6, 3].mapM (checkedRead state)
  checkedCopy16 state tmp

/-- Source `SubBytes` of `decrypt.cpp` with checked accesses to the state and to
the table `inv_s`. -/
def SubBytes (T : Tables) (state : List Nat) : Option (List Nat) :=
  (List.range 16).foldlM
    (fun st i => do
      let x ← checkedRead st i
      let y ← checkedRead T.inv_s x
      checkedWrite st i y)
    state

/-- Source `Round` of `decrypt.cpp` on the round key at offset `base`. -/
def Round (T : Tables) (state expandedKey : List Nat) (base : Nat) (reads : List Nat) :
    Option (List Nat × List Nat) := do
  let run ← AddRoundKey state expandedKey base reads
  let state ← InverseMixColumns T run.1
  let state ← ShiftRows state
  let state ← SubBytes T state
  pure (state, run.2)

/-- Source `InitialRound` on the round key at offset `base`. -/
def InitialRound (T : Tables) (state expandedKey : List Nat) (base : Nat)
    (reads : List Nat) : Option (List Nat × List Nat) := do
  let run ← AddRoundKey state expandedKey base reads
  let state ← ShiftRows run.1
  let state ← SubBytes T state
  pure (state, run.2)

/-- Source `AESDecrypt` with checked accesses: the plaintext and the offsets of
the expanded key that were read, or `none` when some access is out of range. -/
def AESDecrypt (T : Tables) (encryptedMessage expandedKey : List Nat) :
    Option (List Nat × List Nat) := do
  let state ← checkedCopy16 fresh16 encryptedMessage
  let run ← InitialRound T state expandedKey 160 []
  let run ← (List.range 9).reverse.foldlM
    (fun (sr : List Nat × List Nat) i => Round T sr.1 expandedKey (16 * (i + 1)) sr.2)
    run
  let run ← AddRoundKey run.1 expandedKey 0 run.2
  let decryptedMessage ← checkedCopy16 fresh16 run.1
  pure (decryptedMessage, run.2)

end DecryptChecked

/-! ## Definitions that follow the words of the specification -/

/-- Round key `i` of an expanded key (specification, section 6: "11 consecutive
16-byte round keys"): bytes `16 i`, ..., `16 i + 15`. -/
def roundKey (ek : List Nat) (i : Nat) : List Nat :=
  (ek.drop (16 * i)).take 16

/-- The Forward Round Pipeline as section 4.3 of the specification words it:
AddRoundKey with round key 0; for `i = 1, ..., 9` SubBytes, ShiftRows, MixColumns,
AddRoundKey with round key `i`; then SubBytes, ShiftRows, AddRoundKey with round
key 10. -/
def encryptSpec (T : Tables) (m ek : List Nat) : List Nat :=
  let st := Encrypt.AddRoundKey m (roundKey ek 0)
  let st := [1, 2, 3, 4, 5, 6, 7, 8, 9].foldl
    (fun st i =>
      Encrypt.AddRoundKey
        (Encrypt.MixColumns T (Encrypt.ShiftRows (Encrypt.subBytes T st))) (roundKey ek i))
    st
  Encrypt.AddRoundKey (Encrypt.ShiftRows (Encrypt.subBytes T st)) (roundKey ek 10)

/-- The Inverse Round Pipeline as section 4.4 of the specification words it:
AddRoundKey with round key 10, InvShiftRows, InvSubBytes; for `i = 9, ..., 1`
AddRoundKey with round key `i`, InvMixColumns, InvShiftRows, InvSubBytes; then
AddRoundKey with round key 0. -/
def decryptSpec (T : Tables) (c ek : List Nat) : List Nat :=
  let st := Decrypt.SubBytes T (Decrypt.ShiftRows (Decrypt.AddRoundKey c (roundKey ek 10)))
  let st := [9, 8, 7, 6, 5, 4, 3, 2, 1].foldl
    (fun st i =>
      Decrypt.SubBytes T
        (Decrypt.ShiftRows
          (Decrypt.InverseMixColumns T (Decrypt.AddRoundKey st (roundKey ek i)))))
    st
  Decrypt.AddRoundKey st (roundKey ek 0)

/-- Population count of a byte: the number of bit positions `k < 8` set in `x`. -/
def popCount (x : Nat) : Nat :=
  (List.range 8).countP (fun k => x.testBit k)

/-- Hamming distance of two 16-byte blocks (specification, section 4.5:
"population count of `a XOR b` over all 16 bytes"). -/
def hammingDistance (a b : List Nat) : Nat :=
  ((List.range 16).map (fun i => popCount (a.getD i 0 ^^^ b.getD i 0))).sum

/-- The state of the Forward Round Pipeline at checkpoint `r`: after the initial
step (`r = 0`), after full round `r` (`r = 1, ..., 9`), after the final round
(`r = 10`). -/
def stateAfter (T : Tables) (block ek : List Nat) : Nat → List Nat
  | 0 => Encrypt.AddRoundKey block (roundKey ek 0)
  | r + 1 =>
    if r + 1 = 10 then Encrypt.FinalRound T (stateAfter T block ek r) (roundKey ek 10)
    else Encrypt.Round T (stateAfter T block ek r) (roundKey ek (r + 1))

/-- The avalanche record as section 4.5 of the specification words it, for a
flip in the plaintext: two runs under the same expanded key, one on the baseline
block and one on the block with the bit flipped, compared at each of the 11
matching checkpoints. -/
def avalancheSpecPlaintext (T : Tables) (block flipped ek : List Nat) : List (Nat × Nat) :=
  (List.range 11).map
    (fun r => (r, hammingDistance (stateAfter T block ek r) (stateAfter T flipped ek r)))

/-- What the harness does write at checkpoint `r` of one run: the distance
between the block the run was started on and the state of that same run. -/
def selfDistanceRecord (T : Tables) (block ek : List Nat) : List (Nat × Nat) :=
  (List.range 11).map
    (fun r => (r, hammingDistance block (stateAfter T block ek r)))

/-- The buffer `d` with bit `p mod 8` of byte `p div 8` inverted (bit 0 is the
least significant bit). -/
def withBitFlipped (d : List Nat) (p : Nat) : List Nat :=
  d.set (p / 8) (d.getD (p / 8) 0 ^^^ (1 <<< (p % 8)))

/-- Entry `(r, j)` of the MixColumns matrix as the specification words it: the
circulant matrix whose first row is {2, 3, 1, 1}, so
`M[r][j] = {2, 3, 1, 1}[(j - r) mod 4]`. -/
def mixMatrix (r j : Nat) : Nat :=
  [2, 3, 1, 1].getD ((j + 4 - r) % 4) 0

/-- The offsets of the expanded key read through round keys at the given base
offsets, 16 consecutive bytes from each base, in order. -/
def roundKeyReads (bases : List Nat) : List Nat :=
  bases.flatMap (fun b => (List.range 16).map (fun i => b + i))

/-! ## Sample data -/

/-- Key of the FIPS-197 appendix C.1 example. -/
def katKey : List Nat :=
  [0x00, 0x01, 0x02, 0x03, 0x04, 0x05, 0x06, 0x07,
   0x08, 0x09, 0x0a, 0x0b, 0x0c, 0x0d, 0x0e, 0x0f]

/-- Plaintext of the FIPS-197 appendix C.1 example. -/
def katPlain : List Nat :=
  [0x00, 0x11, 0x22, 0x33, 0x44, 0x55, 0x66, 0x77,
   0x88, 0x99, 0xaa, 0xbb, 0xcc, 0xdd, 0xee, 0xff]

/-- Ciphertext of the FIPS-197 appendix C.1 example. -/
def katCipher : List Nat :=
  [0x69, 0xc4, 0xe0, 0xd8, 0x6a, 0x7b, 0x04, 0x30,
   0xd8, 0xcd, 0xb7, 0x80, 0x70, 0xb4, 0xc5, 0x5a]

/-- A 176-byte buffer used as expanded key in examples: the bytes 0, 1, ..., 175. -/
def sampleExpandedKey : List Nat :=
  List.range 176

/-- The plaintext `katPlain` with bit 0 of byte 0 inverted. -/
def katPlainFlipped : List Nat :=
  [0x01, 0x11, 0x22, 0x33, 0x44, 0x55, 0x66, 0x77,
   0x88, 0x99, 0xaa, 0xbb, 0xcc, 0xdd, 0xee, 0xff]

/-! ## Lemmas on lists of 16 bytes -/

theorem exists_of_length16 {α : Type} (l : List α) (h : l.length = 16) :
    ∃ a0 a1 a2 a3 a4 a5 a6 a7 a8 a9 a10 a11 a12 a13 a14 a15,
      l = [a0, a1, a2, a3, a4, a5, a6, a7, a8, a9, a10, a11, a12, a13, a14, a15] := by
  obtain _ | ⟨a0, l⟩ := l
  · simp at h
  obtain _ | ⟨a1, l⟩ := l
  · simp at h
  obtain _ | ⟨a2, l⟩ := l
  · simp at h
  obtain _ | ⟨a3, l⟩ := l
  · simp at h
  obtain _ | ⟨a4, l⟩ := l
  · simp at h
  obtain _ | ⟨a5, l⟩ := l
  · simp at h
  obtain _ | ⟨a6, l⟩ := l
  · simp at h
  obtain _ | ⟨a7, l⟩ := l
  · simp at h
  obtain _ | ⟨a8, l⟩ := l
  · simp at h
  obtain _ | ⟨a9, l⟩ := l
  · simp at h
  obtain _ | ⟨a10, l⟩ := l
  · simp at h
  obtain _ | ⟨a11, l⟩ := l
  · simp at h
  obtain _ | ⟨a12, l⟩ := l
  · simp at h
  obtain _ | ⟨a13, l⟩ := l
  · simp at h
  obtain _ | ⟨a14, l⟩ := l
  · simp at h
  obtain _ | ⟨a15, l⟩ := l
  · simp at h
  obtain _ | ⟨a16, l⟩ := l
  · exact ⟨a0, a1, a2, a3, a4, a5, a6, a7, a8, a9, a10, a11, a12, a13, a14, a15, rfl⟩
  · simp at h

theorem range16 :
    List.range 16 = [0, 1, 2, 3, 4, 5, 6, 7, 8, 9, 10, 11, 12, 13, 14, 15] := by
  decide

theorem range9 : List.range 9 = [0, 1, 2, 3, 4, 5, 6, 7, 8] := by
  decide

theorem range9_reverse : (List.range 9).reverse = [8, 7, 6, 5, 4, 3, 2, 1, 0] := by
  decide

theorem range11 : List.range 11 = [0, 1, 2, 3, 4, 5, 6, 7, 8, 9, 10] := by
  decide

theorem copy16_literal (d0 d1 d2 d3 d4 d5 d6 d7 d8 d9 d10 d11 d12 d13 d14 d15 : Nat)
    (src : List Nat) :
    copy16 [d0, d1, d2, d3, d4, d5, d6, d7, d8, d9, d10, d11, d12, d13, d14, d15] src =
      [src.getD 0 0, src.getD 1 0, src.getD 2 0, src.getD 3 0, src.getD 4 0, src.getD 5 0,
       src.getD 6 0, src.getD 7 0, src.getD 8 0, src.getD 9 0, src.getD 10 0, src.getD 11 0,
       src.getD 12 0, src.getD 13 0, src.getD 14 0, src.getD 15 0] := by
  simp only [copy16, range16, List.foldl_cons, List.foldl_nil, List.set_cons_zero,
    List.set_cons_succ]

theorem copy16_fresh (src : List Nat) (h : src.length = 16) : copy16 fresh16 src = src := by
  obtain ⟨a0, a1, a2, a3, a4, a5, a6, a7, a8, a9, a10, a11, a12, a13, a14, a15, rfl⟩ :=
    exists_of_length16 src h
  simp only [fresh16, List.replicate, copy16_literal, List.getD_cons_zero, List.getD_cons_succ]

theorem copy16_same_length (dst src : List Nat) (h : dst.length = 16) (h2 : src.length = 16) :
    copy16 dst src = src := by
  obtain ⟨d0, d1, d2, d3, d4, d5, d6, d7, d8, d9, d10, d11, d12, d13, d14, d15, rfl⟩ :=
    exists_of_length16 dst h
  obtain ⟨a0, a1, a2, a3, a4, a5, a6, a7, a8, a9, a10, a11, a12, a13, a14, a15, rfl⟩ :=
    exists_of_length16 src h2
  simp only [copy16_literal, List.getD_cons_zero, List.getD_cons_succ]

theorem getD_lt_of_bytes (l : List Nat) (h : ∀ x ∈ l, x < 256) (i : Nat) :
    l.getD i 0 < 256 := by
  by_cases hi : i < l.length
  · rw [List.getD_eq_getElem l 0 hi]
    exact h _ (List.getElem_mem hi)
  · rw [List.getD_eq_default l 0 (Nat.le_of_not_lt hi)]
    decide

theorem drop_getD_lt_of_bytes (l : List Nat) (h : ∀ x ∈ l, x < 256) (n i : Nat) :
    (l.drop n).getD i 0 < 256 :=
  getD_lt_of_bytes _ (fun x hx => h x (List.mem_of_mem_drop hx)) i

theorem xor_lt_256 {a b : Nat} (ha : a < 256) (hb : b < 256) : a ^^^ b < 256 :=
  @Nat.xor_lt_two_pow a b 8 ha hb

/-! ## `AddRoundKey` -/

theorem addRoundKeyMem_literal
    (a0 a1 a2 a3 a4 a5 a6 a7 a8 a9 a10 a11 a12 a13 a14 a15 : Nat) (k : List Nat) :
    Encrypt.AddRoundKeyMem
        [a0, a1, a2, a3, a4, a5, a6, a7, a8, a9, a10, a11, a12, a13, a14, a15] k =
      ([a0 ^^^ k.getD 0 0, a1 ^^^ k.getD 1 0, a2 ^^^ k.getD 2 0, a3 ^^^ k.getD 3 0,
        a4 ^^^ k.getD 4 0, a5 ^^^ k.getD 5 0, a6 ^^^ k.getD 6 0, a7 ^^^ k.getD 7 0,
        a8 ^^^ k.getD 8 0, a9 ^^^ k.getD 9 0, a10 ^^^ k.getD 10 0, a11 ^^^ k.getD 11 0,
        a12 ^^^ k.getD 12 0, a13 ^^^ k.getD 13 0, a14 ^^^ k.getD 14 0,
        a15 ^^^ k.getD 15 0], k) := by
  simp only [Encrypt.AddRoundKeyMem, range16, List.foldl_cons, List.foldl_nil,
    List.set_cons_zero, List.set_cons_succ, List.getD_cons_zero, List.getD_cons_succ]

theorem addRoundKey_literal
    (a0 a1 a2 a3 a4 a5 a6 a7 a8 a9 a10 a11 a12 a13 a14 a15 : Nat) (k : List Nat) :
    Encrypt.AddRoundKey
        [a0, a1, a2, a3, a4, a5, a6, a7, a8, a9, a10, a11, a12, a13, a14, a15] k =
      [a0 ^^^ k.getD 0 0, a1 ^^^ k.getD 1 0, a2 ^^^ k.getD 2 0, a3 ^^^ k.getD 3 0,
       a4 ^^^ k.getD 4 0, a5 ^^^ k.getD 5 0, a6 ^^^ k.getD 6 0, a7 ^^^ k.getD 7 0,
       a8 ^^^ k.getD 8 0, a9 ^^^ k.getD 9 0, a10 ^^^ k.getD 10 0, a11 ^^^ k.getD 11 0,
       a12 ^^^ k.getD 12 0, a13 ^^^ k.getD 13 0, a14 ^^^ k.getD 14 0,
       a15 ^^^ k.getD 15 0] := by
  simp only [Encrypt.AddRoundKey, addRoundKeyMem_literal]

theorem decrypt_addRoundKeyMem_eq (state roundKey : List Nat) :
    Decrypt.AddRoundKeyMem state roundKey = Encrypt.AddRoundKeyMem state roundKey := rfl

theorem decrypt_addRoundKey_eq (state roundKey : List Nat) :
    Decrypt.AddRoundKey state roundKey = Encrypt.AddRoundKey state roundKey := rfl

theorem addRoundKey_length (st k : List Nat) (h : st.length = 16) :
    (Encrypt.AddRoundKey st k).length = 16 := by
  obtain ⟨a0, a1, a2, a3, a4, a5, a6, a7, a8, a9, a10, a11, a12, a13, a14, a15, rfl⟩ :=
    exists_of_length16 st h
  simp only [addRoundKey_literal, List.length_cons, List.length_nil]

theorem addRoundKey_isBlock (st k : List Nat) (h : isBlock st) (hk : ∀ i, k.getD i 0 < 256) :
    isBlock (Encrypt.AddRoundKey st k) := by
  obtain ⟨hl, hb⟩ := h
  obtain ⟨a0, a1, a2, a3, a4, a5, a6, a7, a8, a9, a10, a11, a12, a13, a14, a15, rfl⟩ :=
    exists_of_length16 st hl
  refine ⟨addRoundKey_length _ _ hl, ?_⟩
  simp only [List.forall_mem_cons, List.not_mem_nil, false_implies, implies_true,
    and_true] at hb
  simp only [addRoundKey_literal, List.forall_mem_cons, List.not_mem_nil, false_implies,
    implies_true, and_true]
  obtain ⟨h0, h1, h2, h3, h4, h5, h6, h7, h8, h9, h10, h11, h12, h13, h14, h15⟩ := hb
  exact ⟨xor_lt_256 h0 (hk 0), xor_lt_256 h1 (hk 1), xor_lt_256 h2 (hk 2),
    xor_lt_256 h3 (hk 3), xor_lt_256 h4 (hk 4), xor_lt_256 h5 (hk 5), xor_lt_256 h6 (hk 6),
    xor_lt_256 h7 (hk 7), xor_lt_256 h8 (hk 8), xor_lt_256 h9 (hk 9), xor_lt_256 h10 (hk 10),
    xor_lt_256 h11 (hk 11), xor_lt_256 h12 (hk 12), xor_lt_256 h13 (hk 13),
    xor_lt_256 h14 (hk 14), xor_lt_256 h15 (hk 15)⟩

theorem addRoundKey_twice (st k : List Nat) (h : st.length = 16) :
    Encrypt.AddRoundKey (Encrypt.AddRoundKey st k) k = st := by
  obtain ⟨a0, a1, a2, a3, a4, a5, a6, a7, a8, a9, a10, a11, a12, a13, a14, a15, rfl⟩ :=
    exists_of_length16 st h
  simp only [addRoundKey_literal, Nat.xor_cancel_right]

theorem addRoundKeyMem_snd (st k : List Nat) (h : st.length = 16) :
    (Encrypt.AddRoundKeyMem st k).2 = k := by
  obtain ⟨a0, a1, a2, a3, a4, a5, a6, a7, a8, a9, a10, a11, a12, a13, a14, a15, rfl⟩ :=
    exists_of_length16 st h
  simp only [addRoundKeyMem_literal]

theorem addRoundKey_take (st k : List Nat) (h : st.length = 16) :
    Encrypt.AddRoundKey st (k.take 16) = Encrypt.AddRoundKey st k := by
  obtain ⟨a0, a1, a2, a3, a4, a5, a6, a7, a8, a9, a10, a11, a12, a13, a14, a15, rfl⟩ :=
    exists_of_length16 st h
  have hg : ∀ i, i < 16 → (k.take 16).getD i 0 = k.getD i 0 := by
    intro i hi
    simp only [List.getD_eq_getElem?_getD, List.getElem?_take, if_pos hi]
  simp only [addRoundKey_literal, hg 0 (by decide), hg 1 (by decide), hg 2 (by decide),
    hg 3 (by decide), hg 4 (by decide), hg 5 (by decide), hg 6 (by decide), hg 7 (by decide),
    hg 8 (by decide), hg 9 (by decide), hg 10 (by decide), hg 11 (by decide),
    hg 12 (by decide), hg 13 (by decide), hg 14 (by decide), hg 15 (by decide)]

/-! ## `ShiftRows` and `subBytes` with their inverses -/

theorem shiftRows_literal (a0 a1 a2 a3 a4 a5 a6 a7 a8 a9 a10 a11 a12 a13 a14 a15 : Nat) :
    Encrypt.ShiftRows [a0, a1, a2, a3, a4, a5, a6, a7, a8, a9, a10, a11, a12, a13, a14, a15] =
      [a0, a5, a10, a15, a4, a9, a14, a3, a8, a13, a2, a7, a12, a1, a6, a11] := by
  simp only [Encrypt.ShiftRows, copy16_literal, List.getD_cons_zero, List.getD_cons_succ]

theorem invShiftRows_literal (a0 a1 a2 a3 a4 a5 a6 a7 a8 a9 a10 a11 a12 a13 a14 a15 : Nat) :
    Decrypt.ShiftRows [a0, a1, a2, a3, a4, a5, a6, a7, a8, a9, a10, a11, a12, a13, a14, a15] =
      [a0, a13, a10, a7, a4, a1, a14, a11, a8, a5, a2, a15, a12, a9, a6, a3] := by
  simp only [Decrypt.ShiftRows, copy16_literal, List.getD_cons_zero, List.getD_cons_succ]

theorem subBytes_literal (T : Tables)
    (a0 a1 a2 a3 a4 a5 a6 a7 a8 a9 a10 a11 a12 a13 a14 a15 : Nat) :
    Encrypt.subBytes T [a0, a1, a2, a3, a4, a5, a6, a7, a8, a9, a10, a11, a12, a13, a14, a15] =
      [T.s.getD a0 0, T.s.getD a1 0, T.s.getD a2 0, T.s.getD a3 0, T.s.getD a4 0,
       T.s.getD a5 0, T.s.getD a6 0, T.s.getD a7 0, T.s.getD a8 0, T.s.getD a9 0,
       T.s.getD a10 0, T.s.getD a11 0, T.s.getD a12 0, T.s.getD a13 0, T.s.getD a14 0,
       T.s.getD a15 0] := by
  simp only [Encrypt.subBytes, range16, List.foldl_cons, List.foldl_nil,
    List.set_cons_zero, List.set_cons_succ, List.getD_cons_zero, List.getD_cons_succ]

theorem invSubBytes_literal (T : Tables)
    (a0 a1 a2 a3 a4 a5 a6 a7 a8 a9 a10 a11 a12 a13 a14 a15 : Nat) :
    Decrypt.SubBytes T [a0, a1, a2, a3, a4, a5, a6, a7, a8, a9, a10, a11, a12, a13, a14, a15] =
      [T.inv_s.getD a0 0, T.inv_s.getD a1 0, T.inv_s.getD a2 0, T.inv_s.getD a3 0,
       T.inv_s.getD a4 0, T.inv_s.getD a5 0, T.inv_s.getD a6 0, T.inv_s.getD a7 0,
       T.inv_s.getD a8 0, T.inv_s.getD a9 0, T.inv_s.getD a10 0, T.inv_s.getD a11 0,
       T.inv_s.getD a12 0, T.inv_s.getD a13 0, T.inv_s.getD a14 0, T.inv_s.getD a15 0] := by
  simp only [Decrypt.SubBytes, range16, List.foldl_cons, List.foldl_nil,
    List.set_cons_zero, List.set_cons_succ, List.getD_cons_zero, List.getD_cons_succ]

theorem shiftRows_isBlock (st : List Nat) (h : isBlock st) : isBlock (Encrypt.ShiftRows st) := by
  obtain ⟨hl, hb⟩ := h
  obtain ⟨a0, a1, a2, a3, a4, a5, a6, a7, a8, a9, a10, a11, a12, a13, a14, a15, rfl⟩ :=
    exists_of_length16 st hl
  simp only [List.forall_mem_cons, List.not_mem_nil, false_implies, implies_true,
    and_true] at hb
  obtain ⟨h0, h1, h2, h3, h4, h5, h6, h7, h8, h9, h10, h11, h12, h13, h14, h15⟩ := hb
  rw [shiftRows_literal]
  refine ⟨rfl, ?_⟩
  simp only [List.forall_mem_cons, List.not_mem_nil, false_implies, implies_true, and_true]
  exact ⟨h0, h5, h10, h15, h4, h9, h14, h3, h8, h13, h2, h7, h12, h1, h6, h11⟩

theorem invShiftRows_isBlock (st : List Nat) (h : isBlock st) :
    isBlock (Decrypt.ShiftRows st) := by
  obtain ⟨hl, hb⟩ := h
  obtain ⟨a0, a1, a2, a3, a4, a5, a6, a7, a8, a9, a10, a11, a12, a13, a14, a15, rfl⟩ :=
    exists_of_length16 st hl
  simp only [List.forall_mem_cons, List.not_mem_nil, false_implies, implies_true,
    and_true] at hb
  obtain ⟨h0, h1, h2, h3, h4, h5, h6, h7, h8, h9, h10, h11, h12, h13, h14, h15⟩ := hb
  rw [invShiftRows_literal]
  refine ⟨rfl, ?_⟩
  simp only [List.forall_mem_cons, List.not_mem_nil, false_implies, implies_true, and_true]
  exact ⟨h0, h13, h10, h7, h4, h1, h14, h11, h8, h5, h2, h15, h12, h9, h6, h3⟩

theorem invShiftRows_shiftRows (st : List Nat) (h : st.length = 16) :
    Decrypt.ShiftRows (Encrypt.ShiftRows st) = st := by
  obtain ⟨a0, a1, a2, a3, a4, a5, a6, a7, a8, a9, a10, a11, a12, a13, a14, a15, rfl⟩ :=
    exists_of_length16 st h
  simp only [shiftRows_literal, invShiftRows_literal]

theorem shiftRows_invShiftRows (st : List Nat) (h : st.length = 16) :
    Encrypt.ShiftRows (Decrypt.ShiftRows st) = st := by
  obtain ⟨a0, a1, a2, a3, a4, a5, a6, a7, a8, a9, a10, a11, a12, a13, a14, a15, rfl⟩ :=
    exists_of_length16 st h
  simp only [shiftRows_literal, invShiftRows_literal]

theorem subBytes_isBlock (T : Tables) (hs : isTable T.s) (st : List Nat)
    (h : st.length = 16) : isBlock (Encrypt.subBytes T st) := by
  obtain ⟨a0, a1, a2, a3, a4, a5, a6, a7, a8, a9, a10, a11, a12, a13, a14, a15, rfl⟩ :=
    exists_of_length16 st h
  have hg := getD_lt_of_bytes T.s hs.2
  simp only [isBlock, subBytes_literal, List.length_cons, List.length_nil,
    List.forall_mem_cons, List.not_mem_nil, false_implies, implies_true, and_true, hg]

theorem invSubBytes_isBlock (T : Tables) (hs : isTable T.inv_s) (st : List Nat)
    (h : st.length = 16) : isBlock (Decrypt.SubBytes T st) := by
  obtain ⟨a0, a1, a2, a3, a4, a5, a6, a7, a8, a9, a10, a11, a12, a13, a14, a15, rfl⟩ :=
    exists_of_length16 st h
  have hg := getD_lt_of_bytes T.inv_s hs.2
  simp only [isBlock, invSubBytes_literal, List.length_cons, List.length_nil,
    List.forall_mem_cons, List.not_mem_nil, false_implies, implies_true, and_true, hg]

theorem invSubBytes_subBytes (T : Tables)
    (hinv : ∀ x, x < 256 → T.inv_s.getD (T.s.getD x 0) 0 = x) (st : List Nat)
    (h : isBlock st) : Decrypt.SubBytes T (Encrypt.subBytes T st) = st := by
  obtain ⟨hl, hb⟩ := h
  obtain ⟨a0, a1, a2, a3, a4, a5, a6, a7, a8, a9, a10, a11, a12, a13, a14, a15, rfl⟩ :=
    exists_of_length16 st hl
  simp only [List.forall_mem_cons, List.not_mem_nil, false_implies, implies_true,
    and_true] at hb
  obtain ⟨h0, h1, h2, h3, h4, h5, h6, h7, h8, h9, h10, h11, h12, h13, h14, h15⟩ := hb
  simp only [subBytes_literal, invSubBytes_literal, hinv _ h0, hinv _ h1, hinv _ h2,
    hinv _ h3, hinv _ h4, hinv _ h5, hinv _ h6, hinv _ h7, hinv _ h8, hinv _ h9, hinv _ h10,
    hinv _ h11, hinv _ h12, hinv _ h13, hinv _ h14, hinv _ h15]

theorem subBytes_invSubBytes (T : Tables)
    (hinv : ∀ x, x < 256 → T.s.getD (T.inv_s.getD x 0) 0 = x) (st : List Nat)
    (h : isBlock st) : Encrypt.subBytes T (Decrypt.SubBytes T st) = st := by
  obtain ⟨hl, hb⟩ := h
  obtain ⟨a0, a1, a2, a3, a4, a5, a6, a7, a8, a9, a10, a11, a12, a13, a14, a15, rfl⟩ :=
    exists_of_length16 st hl
  simp only [List.forall_mem_cons, List.not_mem_nil, false_implies, implies_true,
    and_true] at hb
  obtain ⟨h0, h1, h2, h3, h4, h5, h6, h7, h8, h9, h10, h11, h12, h13, h14, h15⟩ := hb
  simp only [subBytes_literal, invSubBytes_literal, hinv _ h0, hinv _ h1, hinv _ h2,
    hinv _ h3, hinv _ h4, hinv _ h5, hinv _ h6, hinv _ h7, hinv _ h8, hinv _ h9, hinv _ h10,
    hinv _ h11, hinv _ h12, hinv _ h13, hinv _ h14, hinv _ h15]

/-! ## Arithmetic of GF(2^8) -/

theorem xtime_lt (x : Nat) : xtime x < 256 := by
  unfold xtime
  split
  · omega
  · exact xor_lt_256 (Nat.mod_lt _ (by decide)) (by decide)

set_option maxRecDepth 100000 in
theorem xtime_xor_low : ∀ a, a < 256 → ∀ b, b < 16 →
    xtime (a ^^^ b) = xtime a ^^^ xtime b := by
  decide!

set_option maxRecDepth 100000 in
theorem xtime_xor_high : ∀ a, a < 256 → ∀ b, b < 16 →
    xtime (a ^^^ 16 * b) = xtime a ^^^ xtime (16 * b) := by
  decide!

set_option maxRecDepth 100000 in
theorem byte_split : ∀ b, b < 256 → b = 16 * (b / 16) ^^^ b % 16 := by
  decide!

theorem xtime_xor (a b : Nat) (ha : a < 256) (hb : b < 256) :
    xtime (a ^^^ b) = xtime a ^^^ xtime b := by
  have hq : b / 16 < 16 := by omega
  have hr : b % 16 < 16 := by omega
  have hh : 16 * (b / 16) < 256 := by omega
  have e1 : xtime b = xtime (16 * (b / 16)) ^^^ xtime (b % 16) := by
    conv_lhs => rw [byte_split b hb]
    exact xtime_xor_low _ hh _ hr
  have e2 : a ^^^ b = (a ^^^ 16 * (b / 16)) ^^^ b % 16 := by
    conv_lhs => rw [byte_split b hb]
    rw [Nat.xor_assoc]
  rw [e2, xtime_xor_low _ (xor_lt_256 ha hh) _ hr, xtime_xor_high _ ha _ hq, e1, Nat.xor_assoc]

theorem gfMul_2 (x : Nat) : gfMul 2 x = xtime x := by
  simp [gfMul, List.range_succ, Nat.testBit]

theorem gfMul_3 (x : Nat) : gfMul 3 x = x ^^^ xtime x := by
  simp [gfMul, List.range_succ, Nat.testBit]

theorem gfMul_9 (x : Nat) : gfMul 9 x = x ^^^ xtime (xtime (xtime x)) := by
  simp [gfMul, List.range_succ, Nat.testBit]

theorem gfMul_11 (x : Nat) : gfMul 11 x = x ^^^ xtime x ^^^ xtime (xtime (xtime x)) := by
  simp [gfMul, List.range_succ, Nat.testBit]

theorem gfMul_13 (x : Nat) :
    gfMul 13 x = x ^^^ xtime (xtime x) ^^^ xtime (xtime (xtime x)) := by
  simp [gfMul, List.range_succ, Nat.testBit]

theorem gfMul_14 (x : Nat) :
    gfMul 14 x = xtime x ^^^ xtime (xtime x) ^^^ xtime (xtime (xtime x)) := by
  simp [gfMul, List.range_succ, Nat.testBit]

theorem xtime2_xor (a b : Nat) (ha : a < 256) (hb : b < 256) :
    xtime (xtime (a ^^^ b)) = xtime (xtime a) ^^^ xtime (xtime b) := by
  rw [xtime_xor a b ha hb, xtime_xor _ _ (xtime_lt a) (xtime_lt b)]

theorem xtime3_xor (a b : Nat) (ha : a < 256) (hb : b < 256) :
    xtime (xtime (xtime (a ^^^ b))) = xtime (xtime (xtime a)) ^^^ xtime (xtime (xtime b)) := by
  rw [xtime2_xor a b ha hb, xtime_xor _ _ (xtime_lt _) (xtime_lt _)]

theorem gfMul_lt (c x : Nat) (hx : x < 256) : gfMul c x < 256 := by
  unfold gfMul
  suffices h : ∀ (l : List Nat) (acc : Nat), acc < 256 →
      l.foldl (fun acc i => if c.testBit i then acc ^^^ (xtime^[i] x) else acc) acc < 256 from
    h _ 0 (by decide)
  intro l
  induction l with
  | nil => intro acc h; simpa using h
  | cons i l ih =>
    intro acc h
    rw [List.foldl_cons]
    apply ih
    split
    · refine xor_lt_256 h ?_
      cases i with
      | zero => simpa using hx
      | succ n => rw [Function.iterate_succ_apply']; exact xtime_lt _
    · exact h

theorem gfMul_xor (c a b : Nat) (hc : c = 2 ∨ c = 3 ∨ c = 9 ∨ c = 11 ∨ c = 13 ∨ c = 14)
    (ha : a < 256) (hb : b < 256) : gfMul c (a ^^^ b) = gfMul c a ^^^ gfMul c b := by
  rcases hc with rfl | rfl | rfl | rfl | rfl | rfl
  · simp only [gfMul_2, xtime_xor a b ha hb]
  · simp only [gfMul_3, xtime_xor a b ha hb]; ac_rfl
  · simp only [gfMul_9, xtime3_xor a b ha hb]; ac_rfl
  · simp only [gfMul_11]
    rw [xtime3_xor a b ha hb, xtime_xor a b ha hb]
    ac_rfl
  · simp only [gfMul_13]
    rw [xtime3_xor a b ha hb, xtime2_xor a b ha hb]
    ac_rfl
  · simp only [gfMul_14]
    rw [xtime3_xor a b ha hb, xtime2_xor a b ha hb, xtime_xor a b ha hb]
    ac_rfl

set_option maxRecDepth 100000 in
theorem invMix_diag (x : Nat) (hx : x < 256) :
    gfMul 14 (gfMul 2 x) ^^^ gfMul 11 x ^^^ gfMul 13 x ^^^ gfMul 9 (gfMul 3 x) = x := by
  rw [gfMul_14, gfMul_11, gfMul_13, gfMul_9, gfMul_2, gfMul_3]
  revert x
  decide!

set_option maxRecDepth 100000 in
theorem invMix_off1 (x : Nat) (hx : x < 256) :
    gfMul 14 (gfMul 3 x) ^^^ gfMul 11 (gfMul 2 x) ^^^ gfMul 13 x ^^^ gfMul 9 x = 0 := by
  rw [gfMul_14, gfMul_11, gfMul_13, gfMul_9, gfMul_2, gfMul_3]
  revert x
  decide!

set_option maxRecDepth 100000 in
theorem invMix_off2 (x : Nat) (hx : x < 256) :
    gfMul 14 x ^^^ gfMul 11 (gfMul 3 x) ^^^ gfMul 13 (gfMul 2 x) ^^^ gfMul 9 x = 0 := by
  rw [gfMul_14, gfMul_11, gfMul_13, gfMul_9, gfMul_2, gfMul_3]
  revert x
  decide!

set_option maxRecDepth 100000 in
theorem invMix_off3 (x : Nat) (hx : x < 256) :
    gfMul 14 x ^^^ gfMul 11 x ^^^ gfMul 13 (gfMul 3 x) ^^^ gfMul 9 (gfMul 2 x) = 0 := by
  rw [gfMul_14, gfMul_11, gfMul_13, gfMul_9, gfMul_2, gfMul_3]
  revert x
  decide!

theorem gfMul_xor4 (c w x y z : Nat)
    (hc : c = 2 ∨ c = 3 ∨ c = 9 ∨ c = 11 ∨ c = 13 ∨ c = 14)
    (hw : w < 256) (hx : x < 256) (hy : y < 256) (hz : z < 256) :
    gfMul c (w ^^^ x ^^^ y ^^^ z) = gfMul c w ^^^ gfMul c x ^^^ gfMul c y ^^^ gfMul c z := by
  rw [gfMul_xor c _ z hc (xor_lt_256 (xor_lt_256 hw hx) hy) hz,
    gfMul_xor c _ y hc (xor_lt_256 hw hx) hy, gfMul_xor c w x hc hw hx]

theorem invMix_mix_column (a b c d : Nat)
    (ha : a < 256) (hb : b < 256) (hc : c < 256) (hd : d < 256) :
    gfMul 14 (gfMul 2 a ^^^ gfMul 3 b ^^^ c ^^^ d) ^^^
        gfMul 11 (a ^^^ gfMul 2 b ^^^ gfMul 3 c ^^^ d) ^^^
        gfMul 13 (a ^^^ b ^^^ gfMul 2 c ^^^ gfMul 3 d) ^^^
        gfMul 9 (gfMul 3 a ^^^ b ^^^ c ^^^ gfMul 2 d) = a ∧
      gfMul 9 (gfMul 2 a ^^^ gfMul 3 b ^^^ c ^^^ d) ^^^
        gfMul 14 (a ^^^ gfMul 2 b ^^^ gfMul 3 c ^^^ d) ^^^
        gfMul 11 (a ^^^ b ^^^ gfMul 2 c ^^^ gfMul 3 d) ^^^
        gfMul 13 (gfMul 3 a ^^^ b ^^^ c ^^^ gfMul 2 d) = b ∧
      gfMul 13 (gfMul 2 a ^^^ gfMul 3 b ^^^ c ^^^ d) ^^^
        gfMul 9 (a ^^^ gfMul 2 b ^^^ gfMul 3 c ^^^ d) ^^^
        gfMul 14 (a ^^^ b ^^^ gfMul 2 c ^^^ gfMul 3 d) ^^^
        gfMul 11 (gfMul 3 a ^^^ b ^^^ c ^^^ gfMul 2 d) = c ∧
      gfMul 11 (gfMul 2 a ^^^ gfMul 3 b ^^^ c ^^^ d) ^^^
        gfMul 13 (a ^^^ gfMul 2 b ^^^ gfMul 3 c ^^^ d) ^^^
        gfMul 9 (a ^^^ b ^^^ gfMul 2 c ^^^ gfMul 3 d) ^^^
        gfMul 14 (gfMul 3 a ^^^ b ^^^ c ^^^ gfMul 2 d) = d := by
  have h2 : ∀ x, x < 256 → gfMul 2 x < 256 := fun x hx => gfMul_lt 2 x hx
  have h3 : ∀ x, x < 256 → gfMul 3 x < 256 := fun x hx => gfMul_lt 3 x hx
  have e0 : ∀ k, (k = 2 ∨ k = 3 ∨ k = 9 ∨ k = 11 ∨ k = 13 ∨ k = 14) →
      gfMul k (gfMul 2 a ^^^ gfMul 3 b ^^^ c ^^^ d) =
        gfMul k (gfMul 2 a) ^^^ gfMul k (gfMul 3 b) ^^^ gfMul k c ^^^ gfMul k d :=
    fun k hk => gfMul_xor4 k _ _ _ _ hk (h2 a ha) (h3 b hb) hc hd
  have e1 : ∀ k, (k = 2 ∨ k = 3 ∨ k = 9 ∨ k = 11 ∨ k = 13 ∨ k = 14) →
      gfMul k (a ^^^ gfMul 2 b ^^^ gfMul 3 c ^^^ d) =
        gfMul k a ^^^ gfMul k (gfMul 2 b) ^^^ gfMul k (gfMul 3 c) ^^^ gfMul k d :=
    fun k hk => gfMul_xor4 k _ _ _ _ hk ha (h2 b hb) (h3 c hc) hd
  have e2 : ∀ k, (k = 2 ∨ k = 3 ∨ k = 9 ∨ k = 11 ∨ k = 13 ∨ k = 14) →
      gfMul k (a ^^^ b ^^^ gfMul 2 c ^^^ gfMul 3 d) =
        gfMul k a ^^^ gfMul k b ^^^ gfMul k (gfMul 2 c) ^^^ gfMul k (gfMul 3 d) :=
    fun k hk => gfMul_xor4 k _ _ _ _ hk ha hb (h2 c hc) (h3 d hd)
  have e3 : ∀ k, (k = 2 ∨ k = 3 ∨ k = 9 ∨ k = 11 ∨ k = 13 ∨ k = 14) →
      gfMul k (gfMul 3 a ^^^ b ^^^ c ^^^ gfMul 2 d) =
        gfMul k (gfMul 3 a) ^^^ gfMul k b ^^^ gfMul k c ^^^ gfMul k (gfMul 2 d) :=
    fun k hk => gfMul_xor4 k _ _ _ _ hk (h3 a ha) hb hc (h2 d hd)
  have da := invMix_diag a ha
  have db := invMix_diag b hb
  have dc := invMix_diag c hc
  have dd := invMix_diag d hd
  have a1 := invMix_off1 a ha
  have b1 := invMix_off1 b hb
  have c1 := invMix_off1 c hc
  have d1 := invMix_off1 d hd
  have a2 := invMix_off2 a ha
  have b2 := invMix_off2 b hb
  have c2 := invMix_off2 c hc
  have d2 := invMix_off2 d hd
  have a3 := invMix_off3 a ha
  have b3 := invMix_off3 b hb
  have c3 := invMix_off3 c hc
  have d3 := invMix_off3 d hd
  rw [e0 14 (by simp), e1 11 (by simp), e2 13 (by simp), e3 9 (by simp),
    e0 9 (by simp), e1 14 (by simp), e2 11 (by simp), e3 13 (by simp),
    e0 13 (by simp), e1 9 (by simp), e2 14 (by simp), e3 11 (by simp),
    e0 11 (by simp), e1 13 (by simp), e2 9 (by simp), e3 14 (by simp)]
  refine ⟨?_, ?_, ?_, ?_⟩
  · calc _ = (gfMul 14 (gfMul 2 a) ^^^ gfMul 11 a ^^^ gfMul 13 a ^^^ gfMul 9 (gfMul 3 a)) ^^^
          (gfMul 14 (gfMul 3 b) ^^^ gfMul 11 (gfMul 2 b) ^^^ gfMul 13 b ^^^ gfMul 9 b) ^^^
          (gfMul 14 c ^^^ gfMul 11 (gfMul 3 c) ^^^ gfMul 13 (gfMul 2 c) ^^^ gfMul 9 c) ^^^
          (gfMul 14 d ^^^ gfMul 11 d ^^^ gfMul 13 (gfMul 3 d) ^^^ gfMul 9 (gfMul 2 d)) := by
          ac_rfl
      _ = a := by rw [da, b1, c2, d3]; simp
  · calc _ = (gfMul 14 a ^^^ gfMul 11 a ^^^ gfMul 13 (gfMul 3 a) ^^^ gfMul 9 (gfMul 2 a)) ^^^
          (gfMul 14 (gfMul 2 b) ^^^ gfMul 11 b ^^^ gfMul 13 b ^^^ gfMul 9 (gfMul 3 b)) ^^^
          (gfMul 14 (gfMul 3 c) ^^^ gfMul 11 (gfMul 2 c) ^^^ gfMul 13 c ^^^ gfMul 9 c) ^^^
          (gfMul 14 d ^^^ gfMul 11 (gfMul 3 d) ^^^ gfMul 13 (gfMul 2 d) ^^^ gfMul 9 d) := by
          ac_rfl
      _ = b := by rw [a3, db, c1, d2]; simp
  · calc _ = (gfMul 14 a ^^^ gfMul 11 (gfMul 3 a) ^^^ gfMul 13 (gfMul 2 a) ^^^ gfMul 9 a) ^^^
          (gfMul 14 b ^^^ gfMul 11 b ^^^ gfMul 13 (gfMul 3 b) ^^^ gfMul 9 (gfMul 2 b)) ^^^
          (gfMul 14 (gfMul 2 c) ^^^ gfMul 11 c ^^^ gfMul 13 c ^^^ gfMul 9 (gfMul 3 c)) ^^^
          (gfMul 14 (gfMul 3 d) ^^^ gfMul 11 (gfMul 2 d) ^^^ gfMul 13 d ^^^ gfMul 9 d) := by
          ac_rfl
      _ = c := by rw [a2, b3, dc, d1]; simp
  · calc _ = (gfMul 14 (gfMul 3 a) ^^^ gfMul 11 (gfMul 2 a) ^^^ gfMul 13 a ^^^ gfMul 9 a) ^^^
          (gfMul 14 b ^^^ gfMul 11 (gfMul 3 b) ^^^ gfMul 13 (gfMul 2 b) ^^^ gfMul 9 b) ^^^
          (gfMul 14 c ^^^ gfMul 11 c ^^^ gfMul 13 (gfMul 3 c) ^^^ gfMul 9 (gfMul 2 c)) ^^^
          (gfMul 14 (gfMul 2 d) ^^^ gfMul 11 d ^^^ gfMul 13 d ^^^ gfMul 9 (gfMul 3 d)) := by
          ac_rfl
      _ = d := by rw [a1, b2, c3, dd]; simp

/-! ## `MixColumns` and `InverseMixColumns` -/

theorem mixColumns_literal (T : Tables)
    (a0 a1 a2 a3 a4 a5 a6 a7 a8 a9 a10 a11 a12 a13 a14 a15 : Nat) :
    Encrypt.MixColumns T
        [a0, a1, a2, a3, a4, a5, a6, a7, a8, a9, a10, a11, a12, a13, a14, a15] =
      [T.mul2.getD a0 0 ^^^ T.mul3.getD a1 0 ^^^ a2 ^^^ a3,
       a0 ^^^ T.mul2.getD a1 0 ^^^ T.mul3.getD a2 0 ^^^ a3,
       a0 ^^^ a1 ^^^ T.mul2.getD a2 0 ^^^ T.mul3.getD a3 0,
       T.mul3.getD a0 0 ^^^ a1 ^^^ a2 ^^^ T.mul2.getD a3 0,
       T.mul2.getD a4 0 ^^^ T.mul3.getD a5 0 ^^^ a6 ^^^ a7,
       a4 ^^^ T.mul2.getD a5 0 ^^^ T.mul3.getD a6 0 ^^^ a7,
       a4 ^^^ a5 ^^^ T.mul2.getD a6 0 ^^^ T.mul3.getD a7 0,
       T.mul3.getD a4 0 ^^^ a5 ^^^ a6 ^^^ T.mul2.getD a7 0,
       T.mul2.getD a8 0 ^^^ T.mul3.getD a9 0 ^^^ a10 ^^^ a11,
       a8 ^^^ T.mul2.getD a9 0 ^^^ T.mul3.getD a10 0 ^^^ a11,
       a8 ^^^ a9 ^^^ T.mul2.getD a10 0 ^^^ T.mul3.getD a11 0,
       T.mul3.getD a8 0 ^^^ a9 ^^^ a10 ^^^ T.mul2.getD a11 0,
       T.mul2.getD a12 0 ^^^ T.mul3.getD a13 0 ^^^ a14 ^^^ a15,
       a12 ^^^ T.mul2.getD a13 0 ^^^ T.mul3.getD a14 0 ^^^ a15,
       a12 ^^^ a13 ^^^ T.mul2.getD a14 0 ^^^ T.mul3.getD a15 0,
       T.mul3.getD a12 0 ^^^ a13 ^^^ a14 ^^^ T.mul2.getD a15 0] := by
  simp only [Encrypt.MixColumns, copy16_literal, List.getD_cons_zero, List.getD_cons_succ]

theorem invMixColumns_literal (T : Tables)
    (a0 a1 a2 a3 a4 a5 a6 a7 a8 a9 a10 a11 a12 a13 a14 a15 : Nat) :
    Decrypt.InverseMixColumns T
        [a0, a1, a2, a3, a4, a5, a6, a7, a8, a9, a10, a11, a12, a13, a14, a15] =
      [T.mul14.getD a0 0 ^^^ T.mul11.getD a1 0 ^^^ T.mul13.getD a2 0 ^^^ T.mul9.getD a3 0,
       T.mul9.getD a0 0 ^^^ T.mul14.getD a1 0 ^^^ T.mul11.getD a2 0 ^^^ T.mul13.getD a3 0,
       T.mul13.getD a0 0 ^^^ T.mul9.getD a1 0 ^^^ T.mul14.getD a2 0 ^^^ T.mul11.getD a3 0,
       T.mul11.getD a0 0 ^^^ T.mul13.getD a1 0 ^^^ T.mul9.getD a2 0 ^^^ T.mul14.getD a3 0,
       T.mul14.getD a4 0 ^^^ T.mul11.getD a5 0 ^^^ T.mul13.getD a6 0 ^^^ T.mul9.getD a7 0,
       T.mul9.getD a4 0 ^^^ T.mul14.getD a5 0 ^^^ T.mul11.getD a6 0 ^^^ T.mul13.getD a7 0,
       T.mul13.getD a4 0 ^^^ T.mul9.getD a5 0 ^^^ T.mul14.getD a6 0 ^^^ T.mul11.getD a7 0,
       T.mul11.getD a4 0 ^^^ T.mul13.getD a5 0 ^^^ T.mul9.getD a6 0 ^^^ T.mul14.getD a7 0,
       T.mul14.getD a8 0 ^^^ T.mul11.getD a9 0 ^^^ T.mul13.getD a10 0 ^^^ T.mul9.getD a11 0,
       T.mul9.getD a8 0 ^^^ T.mul14.getD a9 0 ^^^ T.mul11.getD a10 0 ^^^ T.mul13.getD a11 0,
       T.mul13.getD a8 0 ^^^ T.mul9.getD a9 0 ^^^ T.mul14.getD a10 0 ^^^ T.mul11.getD a11 0,
       T.mul11.getD a8 0 ^^^ T.mul13.getD a9 0 ^^^ T.mul9.getD a10 0 ^^^ T.mul14.getD a11 0,
       T.mul14.getD a12 0 ^^^ T.mul11.getD a13 0 ^^^ T.mul13.getD a14 0 ^^^
         T.mul9.getD a15 0,
       T.mul9.getD a12 0 ^^^ T.mul14.getD a13 0 ^^^ T.mul11.getD a14 0 ^^^
         T.mul13.getD a15 0,
       T.mul13.getD a12 0 ^^^ T.mul9.getD a13 0 ^^^ T.mul14.getD a14 0 ^^^
         T.mul11.getD a15 0,
       T.mul11.getD a12 0 ^^^ T.mul13.getD a13 0 ^^^ T.mul9.getD a14 0 ^^^
         T.mul14.getD a15 0] := by
  simp only [Decrypt.InverseMixColumns, copy16_literal, List.getD_cons_zero,
    List.getD_cons_succ]

theorem mixColumns_isBlock (T : Tables) (h2 : isTable T.mul2) (h3 : isTable T.mul3)
    (st : List Nat) (h : isBlock st) : isBlock (Encrypt.MixColumns T st) := by
  obtain ⟨hl, hb⟩ := h
  obtain ⟨a0, a1, a2, a3, a4, a5, a6, a7, a8, a9, a10, a11, a12, a13, a14, a15, rfl⟩ :=
    exists_of_length16 st hl
  simp only [List.forall_mem_cons, List.not_mem_nil, false_implies, implies_true,
    and_true] at hb
  obtain ⟨h0, h1, h2', h3', h4, h5, h6, h7, h8, h9, h10, h11, h12, h13, h14, h15⟩ := hb
  rw [mixColumns_literal]
  refine ⟨rfl, ?_⟩
  simp only [List.forall_mem_cons, List.not_mem_nil, false_implies, implies_true, and_true]
  have g2 := getD_lt_of_bytes T.mul2 h2.2
  have g3 := getD_lt_of_bytes T.mul3 h3.2
  refine ⟨?_, ?_, ?_, ?_, ?_, ?_, ?_, ?_, ?_, ?_, ?_, ?_, ?_, ?_, ?_, ?_⟩ <;>
    refine xor_lt_256 (xor_lt_256 (xor_lt_256 ?_ ?_) ?_) ?_ <;>
    first
      | assumption
      | exact g2 _
      | exact g3 _

theorem invMixColumns_isBlock (T : Tables) (h9 : isTable T.mul9) (h11 : isTable T.mul11)
    (h13 : isTable T.mul13) (h14 : isTable T.mul14)
    (st : List Nat) (h : st.length = 16) : isBlock (Decrypt.InverseMixColumns T st) := by
  obtain ⟨a0, a1, a2, a3, a4, a5, a6, a7, a8, a9, a10, a11, a12, a13, a14, a15, rfl⟩ :=
    exists_of_length16 st h
  rw [invMixColumns_literal]
  refine ⟨rfl, ?_⟩
  simp only [List.forall_mem_cons, List.not_mem_nil, false_implies, implies_true, and_true]
  have g9 := getD_lt_of_bytes T.mul9 h9.2
  have g11 := getD_lt_of_bytes T.mul11 h11.2
  have g13 := getD_lt_of_bytes T.mul13 h13.2
  have g14 := getD_lt_of_bytes T.mul14 h14.2
  refine ⟨?_, ?_, ?_, ?_, ?_, ?_, ?_, ?_, ?_, ?_, ?_, ?_, ?_, ?_, ?_, ?_⟩ <;>
    refine xor_lt_256 (xor_lt_256 (xor_lt_256 ?_ ?_) ?_) ?_ <;>
    first
      | exact g9 _
      | exact g11 _
      | exact g13 _
      | exact g14 _

theorem invMix_mix_column_tables (T : Tables) (hT : T.Valid) (a b c d : Nat)
    (ha : a < 256) (hb : b < 256) (hc : c < 256) (hd : d < 256) :
    T.mul14.getD (T.mul2.getD a 0 ^^^ T.mul3.getD b 0 ^^^ c ^^^ d) 0 ^^^
        T.mul11.getD (a ^^^ T.mul2.getD b 0 ^^^ T.mul3.getD c 0 ^^^ d) 0 ^^^
        T.mul13.getD (a ^^^ b ^^^ T.mul2.getD c 0 ^^^ T.mul3.getD d 0) 0 ^^^
        T.mul9.getD (T.mul3.getD a 0 ^^^ b ^^^ c ^^^ T.mul2.getD d 0) 0 = a ∧
      T.mul9.getD (T.mul2.getD a 0 ^^^ T.mul3.getD b 0 ^^^ c ^^^ d) 0 ^^^
        T.mul14.getD (a ^^^ T.mul2.getD b 0 ^^^ T.mul3.getD c 0 ^^^ d) 0 ^^^
        T.mul11.getD (a ^^^ b ^^^ T.mul2.getD c 0 ^^^ T.mul3.getD d 0) 0 ^^^
        T.mul13.getD (T.mul3.getD a 0 ^^^ b ^^^ c ^^^ T.mul2.getD d 0) 0 = b ∧
      T.mul13.getD (T.mul2.getD a 0 ^^^ T.mul3.getD b 0 ^^^ c ^^^ d) 0 ^^^
        T.mul9.getD (a ^^^ T.mul2.getD b 0 ^^^ T.mul3.getD c 0 ^^^ d) 0 ^^^
        T.mul14.getD (a ^^^ b ^^^ T.mul2.getD c 0 ^^^ T.mul3.getD d 0) 0 ^^^
        T.mul11.getD (T.mul3.getD a 0 ^^^ b ^^^ c ^^^ T.mul2.getD d 0) 0 = c ∧
      T.mul11.getD (T.mul2.getD a 0 ^^^ T.mul3.getD b 0 ^^^ c ^^^ d) 0 ^^^
        T.mul13.getD (a ^^^ T.mul2.getD b 0 ^^^ T.mul3.getD c 0 ^^^ d) 0 ^^^
        T.mul9.getD (a ^^^ b ^^^ T.mul2.getD c 0 ^^^ T.mul3.getD d 0) 0 ^^^
        T.mul14.getD (T.mul3.getD a 0 ^^^ b ^^^ c ^^^ T.mul2.getD d 0) 0 = d := by
  have m2 := fun x hx => gfMul_lt 2 x hx
  have m3 := fun x hx => gfMul_lt 3 x hx
  rw [hT.mul2_eq a ha, hT.mul2_eq b hb, hT.mul2_eq c hc, hT.mul2_eq d hd,
    hT.mul3_eq a ha, hT.mul3_eq b hb, hT.mul3_eq c hc, hT.mul3_eq d hd]
  have b0 : gfMul 2 a ^^^ gfMul 3 b ^^^ c ^^^ d < 256 :=
    xor_lt_256 (xor_lt_256 (xor_lt_256 (m2 a ha) (m3 b hb)) hc) hd
  have b1 : a ^^^ gfMul 2 b ^^^ gfMul 3 c ^^^ d < 256 :=
    xor_lt_256 (xor_lt_256 (xor_lt_256 ha (m2 b hb)) (m3 c hc)) hd
  have b2 : a ^^^ b ^^^ gfMul 2 c ^^^ gfMul 3 d < 256 :=
    xor_lt_256 (xor_lt_256 (xor_lt_256 ha hb) (m2 c hc)) (m3 d hd)
  have b3 : gfMul 3 a ^^^ b ^^^ c ^^^ gfMul 2 d < 256 :=
    xor_lt_256 (xor_lt_256 (xor_lt_256 (m3 a ha) hb) hc) (m2 d hd)
  rw [hT.mul14_eq _ b0, hT.mul14_eq _ b1, hT.mul14_eq _ b2, hT.mul14_eq _ b3,
    hT.mul11_eq _ b0, hT.mul11_eq _ b1, hT.mul11_eq _ b2, hT.mul11_eq _ b3,
    hT.mul13_eq _ b0, hT.mul13_eq _ b1, hT.mul13_eq _ b2, hT.mul13_eq _ b3,
    hT.mul9_eq _ b0, hT.mul9_eq _ b1, hT.mul9_eq _ b2, hT.mul9_eq _ b3]
  exact invMix_mix_column a b c d ha hb hc hd

theorem invMixColumns_mixColumns (T : Tables) (hT : T.Valid) (st : List Nat)
    (h : isBlock st) : Decrypt.InverseMixColumns T (Encrypt.MixColumns T st) = st := by
  obtain ⟨hl, hb⟩ := h
  obtain ⟨a0, a1, a2, a3, a4, a5, a6, a7, a8, a9, a10, a11, a12, a13, a14, a15, rfl⟩ :=
    exists_of_length16 st hl
  simp only [List.forall_mem_cons, List.not_mem_nil, false_implies, implies_true,
    and_true] at hb
  obtain ⟨h0, h1, h2, h3, h4, h5, h6, h7, h8, h9, h10, h11, h12, h13, h14, h15⟩ := hb
  obtain ⟨p0, p1, p2, p3⟩ := invMix_mix_column_tables T hT a0 a1 a2 a3 h0 h1 h2 h3
  obtain ⟨p4, p5, p6, p7⟩ := invMix_mix_column_tables T hT a4 a5 a6 a7 h4 h5 h6 h7
  obtain ⟨p8, p9, p10, p11⟩ := invMix_mix_column_tables T hT a8 a9 a10 a11 h8 h9 h10 h11
  obtain ⟨p12, p13, p14, p15⟩ :=
    invMix_mix_column_tables T hT a12 a13 a14 a15 h12 h13 h14 h15
  rw [mixColumns_literal, invMixColumns_literal, p0, p1, p2, p3, p4, p5, p6, p7, p8, p9,
    p10, p11, p12, p13, p14, p15]

/-! ## The tables of the standard are valid tables -/

theorem map_range_getD (f : Nat → Nat) (n x : Nat) (hx : x < n) :
    ((List.range n).map f).getD x 0 = f x := by
  rw [List.getD_eq_getElem _ 0 (by simpa using hx)]
  simp

theorem gfMul_table_isTable (c : Nat) : isTable ((List.range 256).map (gfMul c)) := by
  refine ⟨by simp, ?_⟩
  intro y hy
  obtain ⟨x, hx, rfl⟩ := List.mem_map.1 hy
  exact gfMul_lt c x (List.mem_range.1 hx)

set_option maxRecDepth 100000 in
theorem sbox_isTable : isTable sbox := by
  decide!

set_option maxRecDepth 100000 in
theorem inv_sbox_isTable : isTable inv_sbox := by
  decide!

theorem getD_of_map_eq_range (t : List Nat) (f : Nat → Nat) (n : Nat)
    (h : t.map f = List.range n) (x : Nat) (hx : x < n) : f (t.getD x 0) = x := by
  have hl : t.length = n := by
    have := congrArg List.length h
    simpa using this
  have h1 : (t.map f).getD x 0 = f (t.getD x 0) := by
    rw [List.getD_eq_getElem _ 0 (by simpa [hl] using hx),
      List.getD_eq_getElem _ 0 (by simpa [hl] using hx)]
    simp
  have h2 : (List.range n).getD x 0 = x := by
    rw [List.getD_eq_getElem _ 0 (by simpa using hx)]
    simp
  rw [← h1, h, h2]

set_option maxRecDepth 100000 in
theorem inv_sbox_of_sbox : sbox.map (fun y => inv_sbox.getD y 0) = List.range 256 := by
  decide!

set_option maxRecDepth 100000 in
theorem sbox_of_inv_sbox : inv_sbox.map (fun y => sbox.getD y 0) = List.range 256 := by
  decide!

theorem inv_sbox_sbox : ∀ x, x < 256 → inv_sbox.getD (sbox.getD x 0) 0 = x :=
  getD_of_map_eq_range sbox (fun y => inv_sbox.getD y 0) 256 inv_sbox_of_sbox

theorem sbox_inv_sbox : ∀ x, x < 256 → sbox.getD (inv_sbox.getD x 0) 0 = x :=
  getD_of_map_eq_range inv_sbox (fun y => sbox.getD y 0) 256 sbox_of_inv_sbox

theorem stdTables_valid : stdTables.Valid where
  s_table := sbox_isTable
  inv_s_table := inv_sbox_isTable
  inv_s_s := inv_sbox_sbox
  s_inv_s := sbox_inv_sbox
  mul2_table := gfMul_table_isTable 2
  mul3_table := gfMul_table_isTable 3
  mul9_table := gfMul_table_isTable 9
  mul11_table := gfMul_table_isTable 11
  mul13_table := gfMul_table_isTable 13
  mul14_table := gfMul_table_isTable 14
  mul2_eq := fun x hx => map_range_getD (gfMul 2) 256 x hx
  mul3_eq := fun x hx => map_range_getD (gfMul 3) 256 x hx
  mul9_eq := fun x hx => map_range_getD (gfMul 9) 256 x hx
  mul11_eq := fun x hx => map_range_getD (gfMul 11) 256 x hx
  mul13_eq := fun x hx => map_range_getD (gfMul 13) 256 x hx
  mul14_eq := fun x hx => map_range_getD (gfMul 14) 256 x hx

/-! ## Rounds -/

theorem encrypt_round_isBlock (T : Tables) (hT : T.Valid) (st k : List Nat)
    (h : isBlock st) (hk : ∀ i, k.getD i 0 < 256) : isBlock (Encrypt.Round T st k) :=
  addRoundKey_isBlock _ _
    (mixColumns_isBlock T hT.mul2_table hT.mul3_table _
      (shiftRows_isBlock _ (subBytes_isBlock T hT.s_table st h.1))) hk

theorem encrypt_finalRound_isBlock (T : Tables) (hT : T.Valid) (st k : List Nat)
    (h : isBlock st) (hk : ∀ i, k.getD i 0 < 256) : isBlock (Encrypt.FinalRound T st k) :=
  addRoundKey_isBlock _ _ (shiftRows_isBlock _ (subBytes_isBlock T hT.s_table st h.1)) hk

theorem decrypt_round_encrypt_round (T : Tables) (hT : T.Valid) (st k : List Nat)
    (h : isBlock st) : Decrypt.Round T (Encrypt.Round T st k) k = st := by
  have h1 := subBytes_isBlock T hT.s_table st h.1
  have h2 := shiftRows_isBlock _ h1
  have h3 := mixColumns_isBlock T hT.mul2_table hT.mul3_table _ h2
  unfold Decrypt.Round Encrypt.Round
  rw [decrypt_addRoundKey_eq, addRoundKey_twice _ _ h3.1, invMixColumns_mixColumns T hT _ h2,
    invShiftRows_shiftRows _ h1.1, invSubBytes_subBytes T hT.inv_s_s st h]

theorem decrypt_initialRound_encrypt_finalRound (T : Tables) (hT : T.Valid) (st k : List Nat)
    (h : isBlock st) : Decrypt.InitialRound T (Encrypt.FinalRound T st k) k = st := by
  have h1 := subBytes_isBlock T hT.s_table st h.1
  have h2 := shiftRows_isBlock _ h1
  unfold Decrypt.InitialRound Encrypt.FinalRound
  rw [decrypt_addRoundKey_eq, addRoundKey_twice _ _ h2.1, invShiftRows_shiftRows _ h1.1,
    invSubBytes_subBytes T hT.inv_s_s st h]

theorem rounds_undo (T : Tables) (hT : T.Valid) (ks : List (List Nat))
    (hks : ∀ k ∈ ks, ∀ i, k.getD i 0 < 256) :
    ∀ st, isBlock st →
      isBlock (ks.foldl (Encrypt.Round T) st) ∧
        ks.reverse.foldl (Decrypt.Round T) (ks.foldl (Encrypt.Round T) st) = st := by
  induction ks with
  | nil => intro st h; exact ⟨h, rfl⟩
  | cons k ks ih =>
    intro st h
    have hk := hks k (List.mem_cons_self k ks)
    have h1 := encrypt_round_isBlock T hT st k h hk
    obtain ⟨i1, i2⟩ := ih (fun k' hk' => hks k' (List.mem_cons_of_mem k hk')) _ h1
    refine ⟨by simpa only [List.foldl_cons] using i1, ?_⟩
    simp only [List.reverse_cons, List.foldl_append, List.foldl_cons, List.foldl_nil]
    rw [i2]
    exact decrypt_round_encrypt_round T hT st k h

theorem encrypt_loop_eq (T : Tables) (ek st : List Nat) :
    (List.range 9).foldl (fun st i => Encrypt.Round T st (ek.drop (16 * (i + 1)))) st =
      ((List.range 9).map (fun i => ek.drop (16 * (i + 1)))).foldl (Encrypt.Round T) st := by
  rw [List.foldl_map]

theorem decrypt_loop_eq (T : Tables) (ek st : List Nat) :
    (List.range 9).reverse.foldl (fun st i => Decrypt.Round T st (ek.drop (16 * (i + 1)))) st =
      ((List.range 9).map (fun i => ek.drop (16 * (i + 1)))).reverse.foldl
        (Decrypt.Round T) st := by
  rw [← List.map_reverse, List.foldl_map]

theorem aesDecrypt_aesEncrypt (T : Tables) (hT : T.Valid) (b ek : List Nat)
    (hb : isBlock b) (hek : ∀ x ∈ ek, x < 256) :
    Decrypt.AESDecrypt T (Encrypt.AESEncrypt T b ek) ek = b := by
  have hks : ∀ k ∈ (List.range 9).map (fun i => ek.drop (16 * (i + 1))),
      ∀ i, k.getD i 0 < 256 := by
    intro k hk i
    obtain ⟨n, _, rfl⟩ := List.mem_map.1 hk
    exact drop_getD_lt_of_bytes ek hek _ i
  have h0 : isBlock (Encrypt.AddRoundKey b ek) :=
    addRoundKey_isBlock b ek hb (getD_lt_of_bytes ek hek)
  obtain ⟨h9, hu⟩ := rounds_undo T hT _ hks _ h0
  have h10 := encrypt_finalRound_isBlock T hT _ (ek.drop 160) h9
    (drop_getD_lt_of_bytes ek hek 160)
  unfold Decrypt.AESDecrypt Encrypt.AESEncrypt
  simp only [encrypt_loop_eq, decrypt_loop_eq]
  rw [copy16_fresh b hb.1, copy16_fresh _ h10.1, copy16_fresh _ h10.1,
    decrypt_initialRound_encrypt_finalRound T hT _ _ h9, hu, decrypt_addRoundKey_eq,
    addRoundKey_twice _ _ hb.1, copy16_fresh b hb.1]

/-! ## The key schedule produces an expanded key -/

theorem xtime_iterate_lt (n x : Nat) (hx : x < 256) : xtime^[n] x < 256 := by
  cases n with
  | zero => simpa using hx
  | succ n => rw [Function.iterate_succ_apply']; exact xtime_lt _

theorem keyExpansionCore_bytes (T : Tables) (hs : isTable T.s) (w : List Nat) (i a : Nat) :
    (KeyExpansionCore T w i).getD a 0 < 256 := by
  apply getD_lt_of_bytes
  have g := getD_lt_of_bytes T.s hs.2
  simp only [KeyExpansionCore, List.forall_mem_cons, List.not_mem_nil, false_implies,
    implies_true, and_true, g]
  exact xor_lt_256 (g _) (xtime_iterate_lt _ 1 (by decide))

theorem keyExpansionStep_spec (T : Tables) (hs : isTable T.s) (ek : List Nat)
    (h : ∀ x ∈ ek, x < 256) :
    (KeyExpansionStep T ek).length = ek.length + 4 ∧ ∀ x ∈ KeyExpansionStep T ek, x < 256 := by
  unfold KeyExpansionStep
  refine ⟨by simp, ?_⟩
  intro x hx
  rcases List.mem_append.1 hx with hx | hx
  · exact h x hx
  · obtain ⟨a, _, rfl⟩ := List.mem_map.1 hx
    refine xor_lt_256 (getD_lt_of_bytes ek h _) ?_
    split
    · exact keyExpansionCore_bytes T hs _ _ _
    · exact drop_getD_lt_of_bytes ek h _ _

theorem keyExpansion_iterate_spec (T : Tables) (hs : isTable T.s) (ek : List Nat)
    (h : ∀ x ∈ ek, x < 256) (n : Nat) :
    ((KeyExpansionStep T)^[n] ek).length = ek.length + 4 * n ∧
      ∀ x ∈ (KeyExpansionStep T)^[n] ek, x < 256 := by
  induction n with
  | zero => exact ⟨rfl, h⟩
  | succ n ih =>
    rw [Function.iterate_succ_apply']
    obtain ⟨l1, l2⟩ := keyExpansionStep_spec T hs _ ih.2
    exact ⟨by rw [l1, ih.1]; omega, l2⟩

theorem keyExpansion_isExpandedKey (T : Tables) (hs : isTable T.s) (key : List Nat)
    (hk : ∀ x ∈ key, x < 256) : isExpandedKey (KeyExpansion T key) := by
  have h0 : ∀ x ∈ (List.range 16).map (fun i => key.getD i 0), x < 256 := by
    intro x hx
    obtain ⟨i, _, rfl⟩ := List.mem_map.1 hx
    exact getD_lt_of_bytes key hk i
  obtain ⟨l1, l2⟩ := keyExpansion_iterate_spec T hs _ h0 40
  exact ⟨by unfold KeyExpansion; rw [l1]; simp, l2⟩

/-! ## Lengths -/

theorem subBytes_length (T : Tables) (st : List Nat) (h : st.length = 16) :
    (Encrypt.subBytes T st).length = 16 := by
  obtain ⟨a0, a1, a2, a3, a4, a5, a6, a7, a8, a9, a10, a11, a12, a13, a14, a15, rfl⟩ :=
    exists_of_length16 st h
  rw [subBytes_literal]
  rfl

theorem shiftRows_length (st : List Nat) (h : st.length = 16) :
    (Encrypt.ShiftRows st).length = 16 := by
  obtain ⟨a0, a1, a2, a3, a4, a5, a6, a7, a8, a9, a10, a11, a12, a13, a14, a15, rfl⟩ :=
    exists_of_length16 st h
  rw [shiftRows_literal]
  rfl

theorem mixColumns_length (T : Tables) (st : List Nat) (h : st.length = 16) :
    (Encrypt.MixColumns T st).length = 16 := by
  obtain ⟨a0, a1, a2, a3, a4, a5, a6, a7, a8, a9, a10, a11, a12, a13, a14, a15, rfl⟩ :=
    exists_of_length16 st h
  rw [mixColumns_literal]
  rfl

theorem invSubBytes_length (T : Tables) (st : List Nat) (h : st.length = 16) :
    (Decrypt.SubBytes T st).length = 16 := by
  obtain ⟨a0, a1, a2, a3, a4, a5, a6, a7, a8, a9, a10, a11, a12, a13, a14, a15, rfl⟩ :=
    exists_of_length16 st h
  rw [invSubBytes_literal]
  rfl

theorem invShiftRows_length (st : List Nat) (h : st.length = 16) :
    (Decrypt.ShiftRows st).length = 16 := by
  obtain ⟨a0, a1, a2, a3, a4, a5, a6, a7, a8, a9, a10, a11, a12, a13, a14, a15, rfl⟩ :=
    exists_of_length16 st h
  rw [invShiftRows_literal]
  rfl

theorem invMixColumns_length (T : Tables) (st : List Nat) (h : st.length = 16) :
    (Decrypt.InverseMixColumns T st).length = 16 := by
  obtain ⟨a0, a1, a2, a3, a4, a5, a6, a7, a8, a9, a10, a11, a12, a13, a14, a15, rfl⟩ :=
    exists_of_length16 st h
  rw [invMixColumns_literal]
  rfl

theorem encrypt_round_length (T : Tables) (st k : List Nat) (h : st.length = 16) :
    (Encrypt.Round T st k).length = 16 :=
  addRoundKey_length _ _
    (mixColumns_length T _ (shiftRows_length _ (subBytes_length T st h)))

theorem encrypt_finalRound_length (T : Tables) (st k : List Nat) (h : st.length = 16) :
    (Encrypt.FinalRound T st k).length = 16 :=
  addRoundKey_length _ _ (shiftRows_length _ (subBytes_length T st h))

theorem decrypt_round_length (T : Tables) (st k : List Nat) (h : st.length = 16) :
    (Decrypt.Round T st k).length = 16 :=
  invSubBytes_length T _
    (invShiftRows_length _ (invMixColumns_length T _ (addRoundKey_length st k h)))

theorem decrypt_initialRound_length (T : Tables) (st k : List Nat) (h : st.length = 16) :
    (Decrypt.InitialRound T st k).length = 16 :=
  invSubBytes_length T _ (invShiftRows_length _ (addRoundKey_length st k h))

/-! ## The pipelines against the specification's wording -/

theorem addRoundKey_roundKey (st ek : List Nat) (i : Nat) (h : st.length = 16) :
    Encrypt.AddRoundKey st (roundKey ek i) = Encrypt.AddRoundKey st (ek.drop (16 * i)) :=
  addRoundKey_take st _ h

theorem addRoundKey_roundKey_zero (st ek : List Nat) (h : st.length = 16) :
    Encrypt.AddRoundKey st (roundKey ek 0) = Encrypt.AddRoundKey st ek :=
  addRoundKey_take st _ h

theorem encrypt_rounds_spec (T : Tables) (ek : List Nat) (l : List Nat) :
    ∀ st : List Nat, st.length = 16 →
      (l.foldl (fun (st : List Nat) (i : Nat) => Encrypt.Round T st (ek.drop (16 * (i + 1)))) st).length = 16 ∧
      l.foldl (fun (st : List Nat) (i : Nat) => Encrypt.Round T st (ek.drop (16 * (i + 1)))) st =
        (l.map (fun i => i + 1)).foldl
          (fun (st : List Nat) (i : Nat) =>
            Encrypt.AddRoundKey
              (Encrypt.MixColumns T (Encrypt.ShiftRows (Encrypt.subBytes T st)))
              (roundKey ek i))
          st := by
  induction l with
  | nil =>
    intro st h
    simp only [List.map_nil, List.foldl_nil, and_true]
    exact h
  | cons i l ih =>
    intro st h
    have h1 := encrypt_round_length T st (ek.drop (16 * (i + 1))) h
    have h2 := mixColumns_length T _ (shiftRows_length _ (subBytes_length T st h))
    obtain ⟨i1, i2⟩ := ih _ h1
    simp only [List.foldl_cons, List.map_cons]
    rw [addRoundKey_roundKey _ ek (i + 1) h2]
    have hr : Encrypt.AddRoundKey
        (Encrypt.MixColumns T (Encrypt.ShiftRows (Encrypt.subBytes T st)))
        (ek.drop (16 * (i + 1))) = Encrypt.Round T st (ek.drop (16 * (i + 1))) := rfl
    rw [hr]
    exact ⟨i1, i2⟩

theorem decrypt_rounds_spec (T : Tables) (ek : List Nat) (l : List Nat) :
    ∀ st : List Nat, st.length = 16 →
      (l.foldl (fun (st : List Nat) (i : Nat) => Decrypt.Round T st (ek.drop (16 * (i + 1)))) st).length = 16 ∧
      l.foldl (fun (st : List Nat) (i : Nat) => Decrypt.Round T st (ek.drop (16 * (i + 1)))) st =
        (l.map (fun i => i + 1)).foldl
          (fun (st : List Nat) (i : Nat) =>
            Decrypt.SubBytes T
              (Decrypt.ShiftRows
                (Decrypt.InverseMixColumns T (Decrypt.AddRoundKey st (roundKey ek i)))))
          st := by
  induction l with
  | nil =>
    intro st h
    simp only [List.map_nil, List.foldl_nil, and_true]
    exact h
  | cons i l ih =>
    intro st h
    have h1 := decrypt_round_length T st (ek.drop (16 * (i + 1))) h
    obtain ⟨i1, i2⟩ := ih _ h1
    simp only [List.foldl_cons, List.map_cons]
    rw [decrypt_addRoundKey_eq st (roundKey ek (i + 1)), addRoundKey_roundKey _ ek (i + 1) h]
    have hr : Decrypt.SubBytes T
        (Decrypt.ShiftRows
          (Decrypt.InverseMixColumns T (Encrypt.AddRoundKey st (ek.drop (16 * (i + 1)))))) =
        Decrypt.Round T st (ek.drop (16 * (i + 1))) := rfl
    rw [hr]
    exact ⟨i1, i2⟩

theorem aesEncrypt_eq_spec (T : Tables) (m ek : List Nat) (hm : m.length = 16) :
    Encrypt.AESEncrypt T m ek = encryptSpec T m ek := by
  have h0 := addRoundKey_length m ek hm
  obtain ⟨h9, e9⟩ := encrypt_rounds_spec T ek (List.range 9) _ h0
  have h10 := encrypt_finalRound_length T _ (ek.drop 160) h9
  have hs := shiftRows_length _ (subBytes_length T _ h9)
  have hl : (List.range 9).map (fun i => i + 1) = [1, 2, 3, 4, 5, 6, 7, 8, 9] := by decide
  unfold Encrypt.AESEncrypt encryptSpec
  simp only []
  rw [copy16_fresh m hm, copy16_fresh _ h10, addRoundKey_roundKey_zero m ek hm, ← hl, ← e9]
  unfold Encrypt.FinalRound
  rw [addRoundKey_roundKey _ ek 10 hs]

theorem aesDecrypt_eq_spec (T : Tables) (c ek : List Nat) (hc : c.length = 16) :
    Decrypt.AESDecrypt T c ek = decryptSpec T c ek := by
  have h0 := decrypt_initialRound_length T c (ek.drop 160) hc
  obtain ⟨h9, e9⟩ := decrypt_rounds_spec T ek (List.range 9).reverse _ h0
  have h10 := addRoundKey_length _ ek h9
  have hl : (List.range 9).reverse.map (fun i => i + 1) = [9, 8, 7, 6, 5, 4, 3, 2, 1] := by
    decide
  unfold Decrypt.AESDecrypt decryptSpec
  simp only []
  rw [copy16_fresh c hc, decrypt_addRoundKey_eq _ ek, copy16_fresh _ h10, ← hl,
    decrypt_addRoundKey_eq c, addRoundKey_roundKey c ek 10 hc]
  unfold Decrypt.InitialRound at e9 h9
  rw [decrypt_addRoundKey_eq c] at e9 h9
  rw [← e9, decrypt_addRoundKey_eq _ (roundKey ek 0), addRoundKey_roundKey_zero _ ek h9]
  rfl

/-! ## `countChangedBits` -/

theorem countLoop_add (fuel : Nat) :
    ∀ diff count, Avalanche.countLoop fuel diff count =
      count + Avalanche.countLoop fuel diff 0 := by
  induction fuel with
  | zero => intro diff count; simp [Avalanche.countLoop]
  | succ n ih =>
    intro diff count
    unfold Avalanche.countLoop
    split
    · rw [ih _ (count + (diff &&& 1)), ih _ (0 + (diff &&& 1))]
      omega
    · rfl

/-- The bound 8 on the iterations of the inner loop is never the reason the loop
stops: once `diff < 2 ^ fuel`, more fuel does not change the result. -/
theorem countLoop_fuel (fuel : Nat) :
    ∀ diff count extra, diff < 2 ^ fuel →
      Avalanche.countLoop (fuel + extra) diff count = Avalanche.countLoop fuel diff count := by
  induction fuel with
  | zero =>
    intro diff count extra h
    have hd : diff = 0 := by simpa using h
    subst hd
    cases extra <;> simp [Avalanche.countLoop]
  | succ n ih =>
    intro diff count extra h
    have e : n + 1 + extra = (n + extra) + 1 := by omega
    rw [e]
    unfold Avalanche.countLoop
    split
    · apply ih
      rw [Nat.shiftRight_eq_div_pow]
      have : 2 ^ (n + 1) = 2 * 2 ^ n := by rw [Nat.pow_succ]; omega
      omega
    · rfl

set_option maxRecDepth 100000 in
theorem countLoop_byte : ∀ d, d < 256 → Avalanche.countLoop 8 d 0 = popCount d := by
  decide!

theorem popCount_mod (x : Nat) : popCount (x % 256) = popCount x := by
  unfold popCount
  apply List.countP_congr
  intro k hk
  have hk8 : k < 8 := List.mem_range.1 hk
  have e : (256 : Nat) = 2 ^ 8 := by decide
  rw [e, Nat.testBit_mod_two_pow]
  simp [hk8]

theorem popCount_le (x : Nat) : popCount x ≤ 8 := by
  unfold popCount
  have h := @List.countP_le_length Nat (fun k => x.testBit k) (List.range 8)
  simpa using h

theorem countLoop_popCount (x count : Nat) :
    Avalanche.countLoop 8 (x % 256) count = count + popCount x := by
  rw [countLoop_add, countLoop_byte _ (Nat.mod_lt _ (by decide)), popCount_mod]

theorem countChangedBits_fold (a b : List Nat) (l : List Nat) :
    ∀ init, l.foldl
        (fun count i =>
          let diff := (a.getD i 0 ^^^ b.getD i 0) % 256
          Avalanche.countLoop 8 diff count)
        init =
      init + (l.map (fun i => popCount (a.getD i 0 ^^^ b.getD i 0))).sum := by
  induction l with
  | nil => intro init; simp
  | cons i l ih =>
    intro init
    simp only [List.foldl_cons, List.map_cons, List.sum_cons]
    rw [ih, countLoop_popCount]
    omega

theorem countChangedBits_eq_sum (a b : List Nat) (n : Nat) :
    Avalanche.countChangedBits a b n =
      ((List.range n).map (fun i => popCount (a.getD i 0 ^^^ b.getD i 0))).sum := by
  unfold Avalanche.countChangedBits
  rw [countChangedBits_fold]
  omega

theorem countChangedBits_eq_hammingDistance (a b : List Nat) :
    Avalanche.countChangedBits a b 16 = hammingDistance a b :=
  countChangedBits_eq_sum a b 16

theorem sum_map_le (f : Nat → Nat) (c : Nat) (hf : ∀ i, f i ≤ c) (l : List Nat) :
    (l.map f).sum ≤ c * l.length := by
  induction l with
  | nil => simp
  | cons i l ih =>
    simp only [List.map_cons, List.sum_cons, List.length_cons]
    have := hf i
    rw [Nat.mul_succ]
    omega

theorem hammingDistance_le (a b : List Nat) : hammingDistance a b ≤ 128 := by
  unfold hammingDistance
  have h := sum_map_le (fun i => popCount (a.getD i 0 ^^^ b.getD i 0)) 8
    (fun i => popCount_le _) (List.range 16)
  simpa using h

/-! ## `flipBit` -/

theorem flipBit_of_lt (data : List Nat) (p : Nat) (hp : p < 8 * data.length) :
    Avalanche.flipBit data (p : Int) =
      some (data.set (p / 8) (data.getD (p / 8) 0 ^^^ (1 <<< (p % 8)))) := by
  have h1 : Int.tdiv (p : Int) 8 = ((p / 8 : Nat) : Int) := (Int.ofNat_tdiv p 8).symm
  have h2 : Int.tmod (p : Int) 8 = ((p % 8 : Nat) : Int) := (Int.ofNat_tmod p 8).symm
  have h3 : p / 8 < data.length := by omega
  unfold Avalanche.flipBit
  simp only [h1, h2, Int.toNat_ofNat]
  rw [if_pos ⟨Int.ofNat_nonneg _, Int.ofNat_nonneg _, h3⟩]

theorem flipBit_length (data flipped : List Nat) (p : Int)
    (h : Avalanche.flipBit data p = some flipped) : flipped.length = data.length := by
  unfold Avalanche.flipBit at h
  simp only [] at h
  split at h
  · simp only [Option.some.injEq] at h
    rw [← h, List.length_set]
  · exact absurd h (by simp)

/-! ## `AESEncryptWithAvalanche` -/

theorem copy16_fresh_length (src : List Nat) : (copy16 fresh16 src).length = 16 := by
  simp only [fresh16, List.replicate, copy16_literal, List.length_cons, List.length_nil]

theorem encrypt_round_roundKey (T : Tables) (st ek : List Nat) (i : Nat)
    (h : st.length = 16) :
    Encrypt.Round T st (roundKey ek i) = Encrypt.Round T st (ek.drop (16 * i)) := by
  unfold Encrypt.Round
  exact addRoundKey_roundKey _ ek i
    (mixColumns_length T _ (shiftRows_length _ (subBytes_length T st h)))

theorem encrypt_finalRound_roundKey (T : Tables) (st ek : List Nat) (i : Nat)
    (h : st.length = 16) :
    Encrypt.FinalRound T st (roundKey ek i) = Encrypt.FinalRound T st (ek.drop (16 * i)) := by
  unfold Encrypt.FinalRound
  exact addRoundKey_roundKey _ ek i (shiftRows_length _ (subBytes_length T st h))

theorem stateAfter_zero_eq (T : Tables) (block ek : List Nat) :
    stateAfter T block ek 0 = Encrypt.AddRoundKey block (roundKey ek 0) := rfl

theorem stateAfter_succ_eq (T : Tables) (block ek : List Nat) (r : Nat) :
    stateAfter T block ek (r + 1) =
      if r + 1 = 10 then Encrypt.FinalRound T (stateAfter T block ek r) (roundKey ek 10)
      else Encrypt.Round T (stateAfter T block ek r) (roundKey ek (r + 1)) := rfl

theorem stateAfter_zero (T : Tables) (block ek : List Nat) (h : block.length = 16) :
    stateAfter T block ek 0 = Encrypt.AddRoundKey block ek := by
  rw [stateAfter_zero_eq]
  exact addRoundKey_roundKey_zero block ek h

theorem stateAfter_length (T : Tables) (block ek : List Nat) (h : block.length = 16) :
    ∀ r, (stateAfter T block ek r).length = 16 := by
  intro r
  induction r with
  | zero => rw [stateAfter_zero T block ek h]; exact addRoundKey_length block ek h
  | succ r ih =>
    rw [stateAfter_succ_eq]
    split
    · exact encrypt_finalRound_length T _ _ ih
    · exact encrypt_round_length T _ _ ih

theorem stateAfter_succ (T : Tables) (block ek : List Nat) (h : block.length = 16) (r : Nat)
    (hr : r < 9) :
    stateAfter T block ek (r + 1) =
      Encrypt.Round T (stateAfter T block ek r) (ek.drop (16 * (r + 1))) := by
  rw [stateAfter_succ_eq, if_neg (by omega),
    encrypt_round_roundKey T _ ek (r + 1) (stateAfter_length T block ek h r)]

theorem stateAfter_ten (T : Tables) (block ek : List Nat) (h : block.length = 16) :
    stateAfter T block ek 10 =
      Encrypt.FinalRound T (stateAfter T block ek 9) (ek.drop 160) := by
  rw [stateAfter_succ_eq, if_pos rfl,
    encrypt_finalRound_roundKey T _ ek 10 (stateAfter_length T block ek h 9)]

theorem avalanche_loop (T : Tables) (block ek orig : List Nat) (h : block.length = 16)
    (df : List (Nat × Nat)) (n : Nat) (hn : n ≤ 9) :
    (List.range n).foldl
        (fun (sd : List Nat × List (Nat × Nat)) i =>
          let st := Encrypt.Round T sd.1 (ek.drop (16 * (i + 1)))
          (st, sd.2 ++ [(i + 1, Avalanche.countChangedBits orig st 16)]))
        (stateAfter T block ek 0, df) =
      (stateAfter T block ek n,
        df ++ (List.range n).map
          (fun i => (i + 1, hammingDistance orig (stateAfter T block ek (i + 1))))) := by
  induction n with
  | zero => simp
  | succ n ih =>
    rw [List.range_succ, List.foldl_append, ih (by omega)]
    simp only [List.foldl_cons, List.foldl_nil, List.map_append, List.map_cons, List.map_nil]
    rw [← stateAfter_succ T block ek h n (by omega), countChangedBits_eq_hammingDistance,
      List.append_assoc]

theorem avalanche_init (message : List Nat) :
    (List.range 16).foldl
        (fun (m : List Nat × List Nat) i =>
          (m.1.set i (message.getD i 0), m.2.set i (message.getD i 0)))
        (fresh16, fresh16) =
      (copy16 fresh16 message, copy16 fresh16 message) := by
  simp only [fresh16, List.replicate, copy16, range16, List.foldl_cons, List.foldl_nil,
    List.set_cons_zero, List.set_cons_succ]

theorem range11_split (f : Nat → Nat × Nat) :
    (List.range 11).map f = [f 0] ++ (List.range 9).map (fun i => f (i + 1)) ++ [f 10] := by
  simp only [range11, range9, List.map_cons, List.map_nil, List.cons_append, List.nil_append]

/-- Closed form of the instrumented encryption: the ciphertext is the state at
checkpoint 10 and the records are the distances from the input block to the
state at each checkpoint of the same run. -/
theorem aesEncryptWithAvalanche_eq (T : Tables) (message ek : List Nat)
    (df : List (Nat × Nat)) :
    Avalanche.AESEncryptWithAvalanche T message ek df =
      (stateAfter T (copy16 fresh16 message) ek 10,
        df ++ selfDistanceRecord T (copy16 fresh16 message) ek) := by
  have hb := copy16_fresh_length message
  have h10 := stateAfter_length T _ ek hb 10
  unfold Avalanche.AESEncryptWithAvalanche selfDistanceRecord
  simp only [avalanche_init]
  rw [← stateAfter_zero T _ ek hb, avalanche_loop T _ ek _ hb _ 9 (le_refl 9)]
  simp only []
  rw [← stateAfter_ten T _ ek hb, copy16_fresh _ h10, countChangedBits_eq_hammingDistance,
    countChangedBits_eq_hammingDistance,
    range11_split (fun r =>
      (r, hammingDistance (copy16 fresh16 message) (stateAfter T (copy16 fresh16 message) ek r)))]
  simp only [List.append_assoc]

theorem selfDistanceRecord_spec (T : Tables) (block ek : List Nat) :
    (selfDistanceRecord T block ek).length = 11 ∧
      (selfDistanceRecord T block ek).map Prod.fst = [0, 1, 2, 3, 4, 5, 6, 7, 8, 9, 10] ∧
      ∀ p ∈ selfDistanceRecord T block ek, p.2 ≤ 128 := by
  unfold selfDistanceRecord
  refine ⟨by simp, ?_, ?_⟩
  · simp only [range11, List.map_cons, List.map_nil]
  · intro p hp
    obtain ⟨r, _, rfl⟩ := List.mem_map.1 hp
    exact hammingDistance_le _ _

theorem encryptBlocks_single (T : Tables) (block ek : List Nat) (h : block.length = 16) :
    Avalanche.encryptBlocks T block ek block.length =
      (stateAfter T block ek 10, selfDistanceRecord T block ek) := by
  unfold Avalanche.encryptBlocks
  rw [h]
  have e : List.range ((16 + 15) / 16) = [0] := by decide
  rw [e]
  simp only [List.foldl_cons, List.foldl_nil, Nat.mul_zero, List.drop_zero,
    aesEncryptWithAvalanche_eq, List.nil_append, copy16_fresh block h]

theorem flipBit_eq_withBitFlipped (data : List Nat) (p : Nat) (hp : p < 8 * data.length) :
    Avalanche.flipBit data (p : Int) = some (withBitFlipped data p) :=
  flipBit_of_lt data p hp

theorem withBitFlipped_length (d : List Nat) (p : Nat) :
    (withBitFlipped d p).length = d.length := by
  unfold withBitFlipped
  rw [List.length_set]

theorem withBitFlipped_getD (d : List Nat) (p i : Nat) (hp : p < 8 * d.length) :
    (withBitFlipped d p).getD i 0 =
      if i = p / 8 then d.getD i 0 ^^^ (1 <<< (p % 8)) else d.getD i 0 := by
  have h3 : p / 8 < d.length := by omega
  unfold withBitFlipped
  simp only [List.getD_eq_getElem?_getD, List.getElem?_set]
  by_cases hi : i = p / 8
  · subst hi
    simp [h3]
  · have hne : ¬ p / 8 = i := fun e => hi e.symm
    simp [hi, hne]

theorem mainPlaintextBranch_single (T : Tables) (m key : List Nat) (p : Nat)
    (hm : m.length = 16) (hp : p < 128) :
    Avalanche.mainPlaintextBranch T m key (p : Int) =
      some (stateAfter T (withBitFlipped m p) (KeyExpansion T key) 10,
        selfDistanceRecord T (withBitFlipped m p) (KeyExpansion T key)) := by
  have hl := withBitFlipped_length m p
  unfold Avalanche.mainPlaintextBranch
  simp only [flipBit_eq_withBitFlipped m p (by omega)]
  rw [encryptBlocks_single T _ _ (by omega)]

theorem mainKeyBranch_single (T : Tables) (m key : List Nat) (p : Nat)
    (hm : m.length = 16) (hk : key.length = 16) (hp : p < 128) :
    Avalanche.mainKeyBranch T m key (p : Int) =
      some (stateAfter T m (KeyExpansion T (withBitFlipped key p)) 10,
        selfDistanceRecord T m (KeyExpansion T (withBitFlipped key p))) := by
  unfold Avalanche.mainKeyBranch
  simp only [flipBit_eq_withBitFlipped key p (by omega)]
  rw [encryptBlocks_single T _ _ hm]

/-! ## Round trip, known answer, and the shape of the two pipelines -/

/-- C1: round trip.  With lookup tables as the specification defines them
(`inv_s` the inverse of `s`; `mul2`, ..., `mul14` the multiplications by that
constant in GF(2^8) modulo `x^8+x^4+x^3+x+1`), for every 16-byte block `b` and
every 176-byte expanded key `ek`, decrypting the encryption of `b` gives `b`. -/
theorem aes_decrypt_encrypt_roundtrip (T : Tables) (b ek : List Nat) (hT : T.Valid)
    (hb : isBlock b) (hek : isExpandedKey ek) :
    Decrypt.AESDecrypt T (Encrypt.AESEncrypt T b ek) ek = b :=
  aesDecrypt_aesEncrypt T hT b ek hb hek.2

set_option maxRecDepth 100000 in
theorem aes_decrypt_encrypt_roundtrip_witness :
    stdTables.Valid ∧ isBlock katPlain ∧ isExpandedKey sampleExpandedKey ∧
      Decrypt.AESDecrypt stdTables (Encrypt.AESEncrypt stdTables katPlain sampleExpandedKey)
          sampleExpandedKey = katPlain :=
  ⟨stdTables_valid, by decide, by decide!,
    aes_decrypt_encrypt_roundtrip stdTables katPlain sampleExpandedKey stdTables_valid
      (by decide) (by decide!)⟩

set_option maxRecDepth 100000 in
/-- C2: known-answer test.  With the key 000102030405060708090a0b0c0d0e0f expanded
by `KeyExpansion` and the plaintext 00112233445566778899aabbccddeeff, `AESEncrypt`
returns 69c4e0d86a7b0430d8cdb78070b4c55a, the FIPS-197 AES-128 vector. -/
theorem aes_known_answer :
    Encrypt.AESEncrypt stdTables katPlain (KeyExpansion stdTables katKey) = katCipher := by
  decide!

/-- C3: for every 16-byte block `m` and 176-byte expanded key `ek`, `AESEncrypt`
is AddRoundKey with round key 0, then for `i = 1, ..., 9` in ascending order
SubBytes, ShiftRows, MixColumns, AddRoundKey with round key `i`, then SubBytes,
ShiftRows, AddRoundKey with round key 10, without MixColumns in the final round. -/
theorem aesEncrypt_is_forward_pipeline (T : Tables) (m ek : List Nat) (hm : isBlock m)
    (_hek : isExpandedKey ek) : Encrypt.AESEncrypt T m ek = encryptSpec T m ek :=
  aesEncrypt_eq_spec T m ek hm.1

set_option maxRecDepth 100000 in
theorem aesEncrypt_is_forward_pipeline_witness :
    isBlock katPlain ∧ isExpandedKey sampleExpandedKey ∧
      Encrypt.AESEncrypt stdTables katPlain sampleExpandedKey =
        encryptSpec stdTables katPlain sampleExpandedKey :=
  ⟨by decide, by decide!,
    aesEncrypt_is_forward_pipeline stdTables katPlain sampleExpandedKey (by decide)
      (by decide!)⟩

/-- C4: for every 16-byte block `c` and 176-byte expanded key `ek`, `AESDecrypt`
is AddRoundKey with round key 10, InvShiftRows, InvSubBytes, then for
`i = 9, ..., 1` AddRoundKey with round key `i`, InvMixColumns, InvShiftRows,
InvSubBytes, then AddRoundKey with round key 0. -/
theorem aesDecrypt_is_inverse_pipeline (T : Tables) (c ek : List Nat) (hc : isBlock c)
    (_hek : isExpandedKey ek) : Decrypt.AESDecrypt T c ek = decryptSpec T c ek :=
  aesDecrypt_eq_spec T c ek hc.1

set_option maxRecDepth 100000 in
theorem aesDecrypt_is_inverse_pipeline_witness :
    isBlock katCipher ∧ isExpandedKey sampleExpandedKey ∧
      Decrypt.AESDecrypt stdTables katCipher sampleExpandedKey =
        decryptSpec stdTables katCipher sampleExpandedKey :=
  ⟨by decide, by decide!,
    aesDecrypt_is_inverse_pipeline stdTables katCipher sampleExpandedKey (by decide)
      (by decide!)⟩

/-! ## The avalanche harness -/

set_option maxRecDepth 100000 in
/-- C5, as stated, fails.  Key 000102...0f, plaintext 00112233...ff, bit 0 of the
plaintext flipped: the harness writes 32 for round 0 (the number of 1-bits of
round key 0), where the distance between the baseline run and the perturbed run
after the initial step is 1; the record written is not the record the
specification describes. -/
theorem avalanche_record_differs_from_two_run_distance :
    Avalanche.flipBit katPlain 0 = some katPlainFlipped ∧
      (Avalanche.mainPlaintextBranch stdTables katPlain katKey 0).map
          (fun r => r.2.head?) = some (some (0, 32)) ∧
      (avalancheSpecPlaintext stdTables katPlain katPlainFlipped
          (KeyExpansion stdTables katKey)).head? = some (0, 1) ∧
      (Avalanche.mainPlaintextBranch stdTables katPlain katKey 0).map Prod.snd ≠
        some (avalancheSpecPlaintext stdTables katPlain katPlainFlipped
          (KeyExpansion stdTables katKey)) := by
  decide!

/-- C5, amended: the harness makes one run per block.  For every 16-byte block,
16-byte key and bit position in [0,127], the count written at each of the 11
checkpoints is the Hamming distance between the block that run was started on
(the plaintext after the flip, when the plaintext is perturbed) and the state of
that same run at the checkpoint, under the expansion of the key (of the key after
the flip, when the key is perturbed). -/
theorem avalanche_record_is_self_distance (T : Tables) (m key : List Nat) (p : Nat)
    (hm : isBlock m) (hk : isBlock key) (hp : p < 128) :
    (Avalanche.mainPlaintextBranch T m key (p : Int)).map Prod.snd =
        some (selfDistanceRecord T (withBitFlipped m p) (KeyExpansion T key)) ∧
      (Avalanche.mainKeyBranch T m key (p : Int)).map Prod.snd =
        some (selfDistanceRecord T m (KeyExpansion T (withBitFlipped key p))) := by
  rw [mainPlaintextBranch_single T m key p hm.1 hp,
    mainKeyBranch_single T m key p hm.1 hk.1 hp]
  exact ⟨rfl, rfl⟩

theorem avalanche_record_is_self_distance_witness :
    isBlock katPlain ∧ isBlock katKey ∧ 5 < 128 ∧
      (Avalanche.mainPlaintextBranch stdTables katPlain katKey ((5 : Nat) : Int)).map Prod.snd =
        some (selfDistanceRecord stdTables (withBitFlipped katPlain 5)
          (KeyExpansion stdTables katKey)) ∧
      (Avalanche.mainKeyBranch stdTables katPlain katKey ((5 : Nat) : Int)).map Prod.snd =
        some (selfDistanceRecord stdTables katPlain
          (KeyExpansion stdTables (withBitFlipped katKey 5))) :=
  ⟨by decide, by decide, by decide,
    avalanche_record_is_self_distance stdTables katPlain katKey 5 (by decide) (by decide)
      (by decide)⟩

theorem flipBitIndices_negSucc (n : Nat) :
    Avalanche.flipBitIndices (Int.negSucc n) =
      (-(((n + 1) / 8 : Nat) : Int), -(((n + 1) % 8 : Nat) : Int)) := rfl

theorem flipBitIndices_ofNat (n : Nat) :
    Avalanche.flipBitIndices (n : Int) = (((n / 8 : Nat) : Int), ((n % 8 : Nat) : Int)) := rfl

theorem flipBitIndices_outside (p : Int) (hp : p < 0 ∨ 127 < p) :
    (Avalanche.flipBitIndices p).1 < 0 ∨ 16 ≤ (Avalanche.flipBitIndices p).1 ∨
      (Avalanche.flipBitIndices p).2 < 0 := by
  rcases p with n | n
  · have hn : 127 < n := by
      rcases hp with h | h
      · exact absurd h (by simp)
      · exact Int.ofNat_lt.1 h
    right; left
    rw [Int.ofNat_eq_coe, flipBitIndices_ofNat]
    simp only []
    omega
  · rw [flipBitIndices_negSucc]
    simp only []
    omega

theorem flipBit_eq_none_of_outside (d : List Nat) (p : Int) (hd : d.length = 16)
    (h : (Avalanche.flipBitIndices p).1 < 0 ∨ 16 ≤ (Avalanche.flipBitIndices p).1 ∨
      (Avalanche.flipBitIndices p).2 < 0) :
    Avalanche.flipBit d p = none := by
  unfold Avalanche.flipBitIndices at h
  simp only [] at h
  unfold Avalanche.flipBit
  simp only []
  rw [if_neg]
  rw [hd]
  omega

theorem flipBit_128_next_byte (d : List Nat) (x : Nat) (rest : List Nat)
    (hd : d.length = 16) :
    Avalanche.flipBit (d ++ x :: rest) 128 = some (d ++ (x ^^^ 1) :: rest) := by
  have h := flipBit_of_lt (d ++ x :: rest) 128
    (by rw [List.length_append, hd, List.length_cons]; omega)
  have e : ((128 : Nat) : Int) = 128 := rfl
  rw [e] at h
  rw [h]
  have e2 : 128 / 8 = 16 := rfl
  have e3 : 128 % 8 = 0 := rfl
  rw [e2, e3, List.set_append_right _ _ (by omega), List.getD_append_right _ _ _ _ (by omega),
    hd, Nat.sub_self, List.getD_cons_zero, List.set_cons_zero]
  rfl

/-- C6: `flipBit` does not reject a position outside [0,127]; it has no check
and raises nothing.  For every 16-byte `d` and every position `p` outside
[0,127], the store `data[byteIndex] ^= (1 << bitIndex)` is still reached, with
`byteIndex` outside the 16 bytes or with a negative shift count, where C leaves
the behaviour undefined (`none`): position 128 stores to `data[16]` with mask
`1 << 0`, position -1 shifts by -1.  When a byte follows the 16 in memory,
position 128 returns normally with that byte changed. -/
theorem flipBit_does_not_check_position (d : List Nat) (p : Int) (x : Nat)
    (rest : List Nat) (hd : isBlock d) (hp : p < 0 ∨ 127 < p) :
    Avalanche.flipBit d p = none ∧
      ((Avalanche.flipBitIndices p).1 < 0 ∨ 16 ≤ (Avalanche.flipBitIndices p).1 ∨
        (Avalanche.flipBitIndices p).2 < 0) ∧
      Avalanche.flipBitIndices 128 = (16, 0) ∧
      Avalanche.flipBit d 128 = none ∧
      Avalanche.flipBitIndices (-1) = (0, -1) ∧
      Avalanche.flipBit d (-1) = none ∧
      Avalanche.flipBit (d ++ x :: rest) 128 = some (d ++ (x ^^^ 1) :: rest) :=
  ⟨flipBit_eq_none_of_outside d p hd.1 (flipBitIndices_outside p hp),
    flipBitIndices_outside p hp, rfl,
    flipBit_eq_none_of_outside d 128 hd.1 (flipBitIndices_outside 128 (Or.inr (by decide))),
    rfl,
    flipBit_eq_none_of_outside d (-1) hd.1 (flipBitIndices_outside (-1) (Or.inl (by decide))),
    flipBit_128_next_byte d x rest hd.1⟩

theorem flipBit_does_not_check_position_witness :
    isBlock katPlain ∧ ((128 : Int) < 0 ∨ (127 : Int) < 128) ∧
      Avalanche.flipBit katPlain 128 = none ∧
      ((Avalanche.flipBitIndices 128).1 < 0 ∨ 16 ≤ (Avalanche.flipBitIndices 128).1 ∨
        (Avalanche.flipBitIndices 128).2 < 0) ∧
      Avalanche.flipBitIndices 128 = (16, 0) ∧
      Avalanche.flipBit katPlain 128 = none ∧
      Avalanche.flipBitIndices (-1) = (0, -1) ∧
      Avalanche.flipBit katPlain (-1) = none ∧
      Avalanche.flipBit (katPlain ++ 0 :: katPlain) 128 =
        some (katPlain ++ (0 ^^^ 1) :: katPlain) :=
  ⟨by decide, Or.inr (by decide),
    flipBit_does_not_check_position katPlain 128 0 katPlain (by decide) (Or.inr (by decide))⟩

/-- C7: for every 16-byte array `d` and position `p` in [0,127], `flipBit`
changes byte `p / 8` to `d[p/8] XOR (1 << (p mod 8))` and leaves every other byte
unchanged; position 0 flips bit 0 of byte 0 and position 127 flips bit 7 of
byte 15. -/
theorem flipBit_changes_one_byte (d : List Nat) (p : Int) (i : Nat) (hd : isBlock d)
    (hp0 : 0 ≤ p) (hp : p ≤ 127) :
    Avalanche.flipBit d p = some (withBitFlipped d p.toNat) ∧
      (withBitFlipped d p.toNat).length = 16 ∧
      (withBitFlipped d p.toNat).getD i 0 =
        (if i = p.toNat / 8 then d.getD i 0 ^^^ (1 <<< (p.toNat % 8)) else d.getD i 0) ∧
      Avalanche.flipBit d 0 = some (d.set 0 (d.getD 0 0 ^^^ 1)) ∧
      Avalanche.flipBit d 127 = some (d.set 15 (d.getD 15 0 ^^^ 128)) := by
  obtain ⟨n, rfl⟩ := Int.eq_ofNat_of_zero_le hp0
  have hn : n < 8 * d.length := by rw [hd.1]; omega
  have h127 : 127 < 8 * d.length := by rw [hd.1]; decide
  have h0 : 0 < 8 * d.length := by rw [hd.1]; decide
  refine ⟨flipBit_eq_withBitFlipped d n hn, ?_, withBitFlipped_getD d n i hn,
    flipBit_eq_withBitFlipped d 0 h0, flipBit_eq_withBitFlipped d 127 h127⟩
  rw [Int.toNat_ofNat, withBitFlipped_length, hd.1]

theorem flipBit_changes_one_byte_witness :
    isBlock katPlain ∧ (0 : Int) ≤ 77 ∧ (77 : Int) ≤ 127 ∧
      Avalanche.flipBit katPlain 77 = some (withBitFlipped katPlain (77 : Int).toNat) ∧
      (withBitFlipped katPlain (77 : Int).toNat).length = 16 ∧
      (withBitFlipped katPlain (77 : Int).toNat).getD 9 0 =
        (if 9 = (77 : Int).toNat / 8 then katPlain.getD 9 0 ^^^ (1 <<< ((77 : Int).toNat % 8))
          else katPlain.getD 9 0) ∧
      Avalanche.flipBit katPlain 0 = some (katPlain.set 0 (katPlain.getD 0 0 ^^^ 1)) ∧
      Avalanche.flipBit katPlain 127 = some (katPlain.set 15 (katPlain.getD 15 0 ^^^ 128)) :=
  ⟨by decide, by decide, by decide,
    flipBit_changes_one_byte katPlain 77 9 (by decide) (by decide) (by decide)⟩

/-- C8: for every pair of 16-byte arrays `a` and `b`, `countChangedBits(a, b, 16)`
is the sum over `i = 0, ..., 15` of the population count of `a[i] XOR b[i]`, and
lies in 0..128. -/
theorem countChangedBits_is_hamming_distance (a b : List Nat) (_ha : isBlock a)
    (_hb : isBlock b) :
    Avalanche.countChangedBits a b 16 =
        ((List.range 16).map (fun i => popCount (a.getD i 0 ^^^ b.getD i 0))).sum ∧
      0 ≤ Avalanche.countChangedBits a b 16 ∧ Avalanche.countChangedBits a b 16 ≤ 128 := by
  refine ⟨countChangedBits_eq_sum a b 16, Nat.zero_le _, ?_⟩
  rw [countChangedBits_eq_hammingDistance]
  exact hammingDistance_le a b

theorem countChangedBits_is_hamming_distance_witness :
    isBlock katPlain ∧ isBlock katCipher ∧
      Avalanche.countChangedBits katPlain katCipher 16 =
        ((List.range 16).map
          (fun i => popCount (katPlain.getD i 0 ^^^ katCipher.getD i 0))).sum ∧
      0 ≤ Avalanche.countChangedBits katPlain katCipher 16 ∧
      Avalanche.countChangedBits katPlain katCipher 16 ≤ 128 :=
  ⟨by decide, by decide,
    countChangedBits_is_hamming_distance katPlain katCipher (by decide) (by decide)⟩

/-- C9: for every 16-byte block and 176-byte expanded key, what
`AESEncryptWithAvalanche` appends to the stream for that block is a sequence of
exactly 11 (round, count) pairs, with round numbers 0, 1, ..., 10 in that order
and every count in 0..128. -/
theorem avalanche_record_shape (T : Tables) (m ek : List Nat) (df : List (Nat × Nat))
    (hm : isBlock m) (_hek : isExpandedKey ek) :
    (Avalanche.AESEncryptWithAvalanche T m ek df).2 = df ++ selfDistanceRecord T m ek ∧
      (selfDistanceRecord T m ek).length = 11 ∧
      (selfDistanceRecord T m ek).map Prod.fst = [0, 1, 2, 3, 4, 5, 6, 7, 8, 9, 10] ∧
      ∀ rc ∈ selfDistanceRecord T m ek, 0 ≤ rc.2 ∧ rc.2 ≤ 128 := by
  obtain ⟨h1, h2, h3⟩ := selfDistanceRecord_spec T m ek
  refine ⟨?_, h1, h2, fun rc hrc => ⟨Nat.zero_le _, h3 rc hrc⟩⟩
  rw [aesEncryptWithAvalanche_eq, copy16_fresh m hm.1]

set_option maxRecDepth 100000 in
theorem avalanche_record_shape_witness :
    isBlock katPlain ∧ isExpandedKey sampleExpandedKey ∧
      (Avalanche.AESEncryptWithAvalanche stdTables katPlain sampleExpandedKey []).2 =
        [] ++ selfDistanceRecord stdTables katPlain sampleExpandedKey ∧
      (selfDistanceRecord stdTables katPlain sampleExpandedKey).length = 11 ∧
      (selfDistanceRecord stdTables katPlain sampleExpandedKey).map Prod.fst =
        [0, 1, 2, 3, 4, 5, 6, 7, 8, 9, 10] ∧
      ∀ rc ∈ selfDistanceRecord stdTables katPlain sampleExpandedKey, 0 ≤ rc.2 ∧ rc.2 ≤ 128 :=
  ⟨by decide, by decide!,
    avalanche_record_shape stdTables katPlain sampleExpandedKey [] (by decide) (by decide!)⟩

/-! ## `AddRoundKey` is its own inverse -/

/-- C10: `AddRoundKey` is self-inverse.  For every 16-byte state `s` and 16-byte
round key `k`, applying `AddRoundKey` twice with `k` gives `s` back, and
`AddRoundKey` leaves the round key unchanged; in `encrypt.cpp` and in
`decrypt.cpp` alike. -/
theorem addRoundKey_self_inverse (s k : List Nat) (hs : isBlock s) (_hk : isBlock k) :
    Encrypt.AddRoundKey (Encrypt.AddRoundKey s k) k = s ∧
      (Encrypt.AddRoundKeyMem s k).2 = k ∧
      Decrypt.AddRoundKey (Decrypt.AddRoundKey s k) k = s ∧
      (Decrypt.AddRoundKeyMem s k).2 = k := by
  rw [decrypt_addRoundKey_eq, decrypt_addRoundKey_eq, decrypt_addRoundKeyMem_eq]
  exact ⟨addRoundKey_twice s k hs.1, addRoundKeyMem_snd s k hs.1, addRoundKey_twice s k hs.1,
    addRoundKeyMem_snd s k hs.1⟩

theorem addRoundKey_self_inverse_witness :
    isBlock katPlain ∧ isBlock katKey ∧
      Encrypt.AddRoundKey (Encrypt.AddRoundKey katPlain katKey) katKey = katPlain ∧
      (Encrypt.AddRoundKeyMem katPlain katKey).2 = katKey ∧
      Decrypt.AddRoundKey (Decrypt.AddRoundKey katPlain katKey) katKey = katPlain ∧
      (Decrypt.AddRoundKeyMem katPlain katKey).2 = katKey :=
  ⟨by decide, by decide,
    addRoundKey_self_inverse katPlain katKey (by decide) (by decide)⟩

/-! ## The substitution tables are inverse to each other -/

/-- C11: substitution bijectivity.  For every byte `x`, `inv_s[s[x]] = x` and
`s[inv_s[x]] = x`; consequently, for every 16-byte state, `SubBytes` of
`decrypt.cpp` applied after `subBytes` of `encrypt.cpp` returns the state, and
the other way round. -/
theorem substitution_bijective (x : Nat) (st : List Nat) (hx : x < 256) (hst : isBlock st) :
    stdTables.inv_s.getD (stdTables.s.getD x 0) 0 = x ∧
      stdTables.s.getD (stdTables.inv_s.getD x 0) 0 = x ∧
      Decrypt.SubBytes stdTables (Encrypt.subBytes stdTables st) = st ∧
      Encrypt.subBytes stdTables (Decrypt.SubBytes stdTables st) = st :=
  ⟨inv_sbox_sbox x hx, sbox_inv_sbox x hx,
    invSubBytes_subBytes stdTables inv_sbox_sbox st hst,
    subBytes_invSubBytes stdTables sbox_inv_sbox st hst⟩

theorem substitution_bijective_witness :
    (83 : Nat) < 256 ∧ isBlock katPlain ∧
      stdTables.inv_s.getD (stdTables.s.getD 83 0) 0 = 83 ∧
      stdTables.s.getD (stdTables.inv_s.getD 83 0) 0 = 83 ∧
      Decrypt.SubBytes stdTables (Encrypt.subBytes stdTables katPlain) = katPlain ∧
      Encrypt.subBytes stdTables (Decrypt.SubBytes stdTables katPlain) = katPlain :=
  ⟨by decide, by decide, substitution_bijective 83 katPlain (by decide) (by decide)⟩

/-! ## `ShiftRows` as a rotation of rows -/

/-- C13: `ShiftRows` of `encrypt.cpp` rotates row `r` cyclically to the left by
`r` positions in the column-major layout: for every 16-byte state `s`, row `r`
and column `c` in 0..3, `ShiftRows(s)[4c + r] = s[4((c + r) mod 4) + r]`; row 0
is unchanged. -/
theorem shiftRows_rotates_row_left (s : List Nat) (r c : Nat) (hs : isBlock s)
    (hr : r < 4) (hc : c < 4) :
    (Encrypt.ShiftRows s).getD (4 * c + r) 0 = s.getD (4 * ((c + r) % 4) + r) 0 ∧
      (Encrypt.ShiftRows s).getD (4 * c) 0 = s.getD (4 * c) 0 := by
  obtain ⟨a0, a1, a2, a3, a4, a5, a6, a7, a8, a9, a10, a11, a12, a13, a14, a15, rfl⟩ :=
    exists_of_length16 s hs.1
  rw [shiftRows_literal]
  interval_cases r <;> interval_cases c <;> exact ⟨rfl, rfl⟩

theorem shiftRows_rotates_row_left_witness :
    isBlock katPlain ∧ 3 < 4 ∧ 2 < 4 ∧
      (Encrypt.ShiftRows katPlain).getD (4 * 2 + 3) 0 =
        katPlain.getD (4 * ((2 + 3) % 4) + 3) 0 ∧
      (Encrypt.ShiftRows katPlain).getD (4 * 2) 0 = katPlain.getD (4 * 2) 0 :=
  ⟨by decide, by decide, by decide,
    shiftRows_rotates_row_left katPlain 3 2 (by decide) (by decide) (by decide)⟩

/-- C14: the `ShiftRows` of `decrypt.cpp` is the exact inverse of the `ShiftRows`
of `encrypt.cpp`: for every 16-byte state `s`, each undoes the other. -/
theorem invShiftRows_is_inverse_of_shiftRows (s : List Nat) (hs : isBlock s) :
    Decrypt.ShiftRows (Encrypt.ShiftRows s) = s ∧
      Encrypt.ShiftRows (Decrypt.ShiftRows s) = s :=
  ⟨invShiftRows_shiftRows s hs.1, shiftRows_invShiftRows s hs.1⟩

theorem invShiftRows_is_inverse_of_shiftRows_witness :
    isBlock katPlain ∧
      Decrypt.ShiftRows (Encrypt.ShiftRows katPlain) = katPlain ∧
      Encrypt.ShiftRows (Decrypt.ShiftRows katPlain) = katPlain :=
  ⟨by decide, invShiftRows_is_inverse_of_shiftRows katPlain (by decide)⟩

/-! ## The key schedule -/

theorem getD_drop_add (ek : List Nat) (base i : Nat) :
    (ek.drop base).getD i 0 = ek.getD (base + i) 0 := by
  simp only [List.getD_eq_getElem?_getD, List.getElem?_drop]

theorem map_getD_range16 (key : List Nat) (h : key.length = 16) :
    (List.range 16).map (fun i => key.getD i 0) = key := by
  obtain ⟨a0, a1, a2, a3, a4, a5, a6, a7, a8, a9, a10, a11, a12, a13, a14, a15, rfl⟩ :=
    exists_of_length16 key h
  simp only [range16, List.map_cons, List.map_nil, List.getD_cons_zero, List.getD_cons_succ]

theorem keyExpansionStep_take (T : Tables) (ek : List Nat) (h : 16 ≤ ek.length) :
    (KeyExpansionStep T ek).take 16 = ek.take 16 := by
  unfold KeyExpansionStep
  exact List.take_append_of_le_length h

theorem keyExpansionStep_length (T : Tables) (ek : List Nat) :
    (KeyExpansionStep T ek).length = ek.length + 4 := by
  unfold KeyExpansionStep
  simp

theorem keyExpansion_iterate_take (T : Tables) (ek : List Nat) (h : 16 ≤ ek.length) (n : Nat) :
    16 ≤ ((KeyExpansionStep T)^[n] ek).length ∧
      ((KeyExpansionStep T)^[n] ek).take 16 = ek.take 16 := by
  induction n with
  | zero => exact ⟨h, rfl⟩
  | succ n ih =>
    rw [Function.iterate_succ_apply']
    refine ⟨?_, by rw [keyExpansionStep_take T _ ih.1, ih.2]⟩
    rw [keyExpansionStep_length]
    omega

theorem keyExpansion_take (T : Tables) (key : List Nat) (h : key.length = 16) :
    (KeyExpansion T key).take 16 = key := by
  unfold KeyExpansion
  rw [map_getD_range16 key h, (keyExpansion_iterate_take T key (by omega) 40).2,
    List.take_of_length_le (by omega)]

theorem foldl_keeps_fst (g : List Nat → List Nat → Nat → List Nat) (l : List Nat) :
    ∀ (k e : List Nat),
      l.foldl (fun (mem : List Nat × List Nat) i => (mem.1, g mem.1 mem.2 i)) (k, e) =
        (k, l.foldl (fun e i => g k e i) e) := by
  induction l with
  | nil => intro k e; rfl
  | cons a l ih => intro k e; rw [List.foldl_cons, List.foldl_cons, ih]

theorem foldl_set_range (f : Nat → Nat) (buf : List Nat) (n : Nat) (h : n ≤ buf.length) :
    (List.range n).foldl (fun e i => e.set i (f i)) buf =
      (List.range n).map f ++ buf.drop n := by
  induction n with
  | zero => rfl
  | succ n ih =>
    have hl : ((List.range n).map f).length = n := by simp
    rw [List.range_succ, List.foldl_append, ih (by omega), List.foldl_cons, List.foldl_nil,
      List.set_append_right _ _ (by omega), hl, Nat.sub_self,
      List.drop_eq_getElem_cons (by omega), List.set_cons_zero, List.map_append,
      List.map_cons, List.map_nil, List.append_assoc, List.singleton_append]

theorem keyExpansionCore_congr (T : Tables) (w1 w2 : List Nat) (i : Nat)
    (h : ∀ a, a < 4 → w1.getD a 0 = w2.getD a 0) :
    KeyExpansionCore T w1 i = KeyExpansionCore T w2 i := by
  unfold KeyExpansionCore
  rw [h 0 (by omega), h 1 (by omega), h 2 (by omega), h 3 (by omega)]

theorem range4 : List.range 4 = [0, 1, 2, 3] := by
  decide

theorem keyExpansionWordMem_eq (T : Tables) (done : List Nat) (r0 r1 r2 r3 : Nat)
    (rest : List Nat) (h : 16 ≤ done.length) :
    KeyExpansionWordMem T (done ++ r0 :: r1 :: r2 :: r3 :: rest) done.length =
      KeyExpansionStep T done ++ rest := by
  have hg : ∀ (R : List Nat) (j : Nat), j < done.length →
      (done ++ R).getD j 0 = done.getD j 0 :=
    fun R j hj => List.getD_append done R 0 j hj
  have ht : ∀ a, a < 4 →
      ((List.range 4).map
          (fun i => (done ++ r0 :: r1 :: r2 :: r3 :: rest).getD (i + done.length - 4) 0)).getD
          a 0 =
        (done.drop (done.length - 4)).getD a 0 := by
    intro a ha
    rw [getD_drop_add]
    have e : done.length - 4 + a = a + done.length - 4 := by omega
    rw [e]
    rcases a with _ | _ | _ | _ | a
    · simp only [range4, List.map_cons, List.getD_cons_zero]; exact hg _ _ (by omega)
    · simp only [range4, List.map_cons, List.getD_cons_zero, List.getD_cons_succ]
      exact hg _ _ (by omega)
    · simp only [range4, List.map_cons, List.getD_cons_zero, List.getD_cons_succ]
      exact hg _ _ (by omega)
    · simp only [range4, List.map_cons, List.getD_cons_zero, List.getD_cons_succ]
      exact hg _ _ (by omega)
    · omega
  have hq : ∀ a, a < 4 →
      (if done.length % 16 = 0 then
          KeyExpansionCore T ((List.range 4).map
            (fun i => (done ++ r0 :: r1 :: r2 :: r3 :: rest).getD (i + done.length - 4) 0))
            (done.length / 16)
        else (List.range 4).map
          (fun i => (done ++ r0 :: r1 :: r2 :: r3 :: rest).getD (i + done.length - 4) 0)).getD
          a 0 =
        (if done.length % 16 = 0 then
          KeyExpansionCore T (done.drop (done.length - 4)) (done.length / 16)
        else done.drop (done.length - 4)).getD a 0 := by
    intro a ha
    split
    · rw [keyExpansionCore_congr T _ _ _ ht]
    · exact ht a ha
  unfold KeyExpansionWordMem KeyExpansionStep
  simp only []
  generalize (if done.length % 16 = 0 then
          KeyExpansionCore T ((List.range 4).map
            (fun i => (done ++ r0 :: r1 :: r2 :: r3 :: rest).getD (i + done.length - 4) 0))
            (done.length / 16)
        else (List.range 4).map
          (fun i => (done ++ r0 :: r1 :: r2 :: r3 :: rest).getD (i + done.length - 4) 0)) = tm1
    at hq ⊢
  generalize (if done.length % 16 = 0 then
          KeyExpansionCore T (done.drop (done.length - 4)) (done.length / 16)
        else done.drop (done.length - 4)) = tm2 at hq ⊢
  have e0 : done.length + 0 - 16 = done.length - 16 + 0 := by omega
  have e1 : done.length + 1 - 16 = done.length - 16 + 1 := by omega
  have e2 : done.length + 2 - 16 = done.length - 16 + 2 := by omega
  have e3 : done.length + 3 - 16 = done.length - 16 + 3 := by omega
  simp only [range4, List.foldl_cons, List.foldl_nil, List.map_cons, List.map_nil]
  rw [List.set_append_right _ _ (by omega), hg _ _ (by omega),
    List.set_append_right _ _ (by omega), hg _ _ (by omega),
    List.set_append_right _ _ (by omega), hg _ _ (by omega),
    List.set_append_right _ _ (by omega), hg _ _ (by omega)]
  simp only [Nat.add_sub_cancel_left, List.set_cons_zero, List.set_cons_succ, e0, e1, e2, e3,
    hq 0 (by omega), hq 1 (by omega), hq 2 (by omega), hq 3 (by omega), List.append_assoc,
    List.cons_append, List.nil_append]

theorem keyExpansion_iterate_length (T : Tables) (ek : List Nat) (m : Nat) :
    ((KeyExpansionStep T)^[m] ek).length = ek.length + 4 * m := by
  induction m with
  | zero => rfl
  | succ m ih => rw [Function.iterate_succ_apply', keyExpansionStep_length, ih]; omega

theorem keyExpansionMem_loop (T : Tables) (key16 buf : List Nat) (hk : key16.length = 16)
    (hb : buf.length = 176) (m : Nat) (hm : m ≤ 40) :
    (List.range m).foldl (fun e w => KeyExpansionWordMem T e (16 + 4 * w))
        (key16 ++ buf.drop 16) =
      (KeyExpansionStep T)^[m] key16 ++ buf.drop (16 + 4 * m) := by
  induction m with
  | zero => rfl
  | succ m ih =>
    have hlen := keyExpansion_iterate_length T key16 m
    rw [hk] at hlen
    have step := keyExpansionWordMem_eq T ((KeyExpansionStep T)^[m] key16)
      (buf.get ⟨16 + 4 * m, by omega⟩) (buf.get ⟨16 + 4 * m + 1, by omega⟩)
      (buf.get ⟨16 + 4 * m + 2, by omega⟩) (buf.get ⟨16 + 4 * m + 3, by omega⟩)
      (buf.drop (16 + 4 * (m + 1))) (by omega)
    rw [hlen] at step
    rw [List.range_succ, List.foldl_append, ih (by omega), List.foldl_cons, List.foldl_nil,
      Function.iterate_succ_apply', ← step,
      @List.drop_eq_getElem_cons _ (16 + 4 * m) buf (by omega),
      @List.drop_eq_getElem_cons _ (16 + 4 * m + 1) buf (by omega),
      @List.drop_eq_getElem_cons _ (16 + 4 * m + 2) buf (by omega),
      @List.drop_eq_getElem_cons _ (16 + 4 * m + 3) buf (by omega)]
    rfl

theorem keyExpansionMem_eq (T : Tables) (k buf : List Nat)
    (hb : buf.length = 176) : KeyExpansionMem T k buf = (k, KeyExpansion T k) := by
  unfold KeyExpansionMem KeyExpansion
  rw [foldl_keeps_fst (fun k e i => e.set i (k.getD i 0)),
    foldl_keeps_fst (fun _ e w => KeyExpansionWordMem T e (16 + 4 * w)),
    foldl_set_range (fun i => k.getD i 0) buf 16 (by omega),
    keyExpansionMem_loop T _ buf (by simp) hb 40 (le_refl 40),
    List.drop_of_length_le (by omega), List.append_nil]

/-- C12: for every 16-byte key `k`, the call `KeyExpansion(k, expandedKey)` leaves
176 bytes in `expandedKey` whose first 16 bytes (round key 0) are `k` unchanged,
and leaves `k` itself as it was.  Two calls with the same key give identical
outputs: what the array held before the call (`buf`, `buf2`, any 176 cells) does
not reach the output, and a second call on the memory left by the first changes
nothing.  The output is the expansion `KeyExpansion T k` of section 4.2. -/
theorem keyExpansion_is_deterministic_and_keeps_key (T : Tables) (k buf buf2 : List Nat)
    (hT : T.Valid) (hk : isBlock k) (hb : buf.length = 176) (hb2 : buf2.length = 176) :
    isExpandedKey (KeyExpansionMem T k buf).2 ∧
      (KeyExpansionMem T k buf).2.length = 176 ∧
      (KeyExpansionMem T k buf).2.take 16 = k ∧
      roundKey (KeyExpansionMem T k buf).2 0 = k ∧
      (KeyExpansionMem T k buf).1 = k ∧
      (KeyExpansionMem T k buf2).2 = (KeyExpansionMem T k buf).2 ∧
      KeyExpansionMem T (KeyExpansionMem T k buf).1 (KeyExpansionMem T k buf).2 =
        KeyExpansionMem T k buf ∧
      (KeyExpansionMem T k buf).2 = KeyExpansion T k := by
  have he := keyExpansion_isExpandedKey T hT.s_table k hk.2
  rw [keyExpansionMem_eq T k buf2 hb2, keyExpansionMem_eq T k buf hb]
  refine ⟨he, he.1, keyExpansion_take T k hk.1, ?_, rfl, rfl,
    keyExpansionMem_eq T k _ he.1, rfl⟩
  unfold roundKey
  exact keyExpansion_take T k hk.1

theorem keyExpansion_is_deterministic_and_keeps_key_witness :
    stdTables.Valid ∧ isBlock katKey ∧ (List.replicate 176 0).length = 176 ∧
      sampleExpandedKey.length = 176 ∧
      isExpandedKey (KeyExpansionMem stdTables katKey (List.replicate 176 0)).2 ∧
      (KeyExpansionMem stdTables katKey (List.replicate 176 0)).2.length = 176 ∧
      (KeyExpansionMem stdTables katKey (List.replicate 176 0)).2.take 16 = katKey ∧
      roundKey (KeyExpansionMem stdTables katKey (List.replicate 176 0)).2 0 = katKey ∧
      (KeyExpansionMem stdTables katKey (List.replicate 176 0)).1 = katKey ∧
      (KeyExpansionMem stdTables katKey sampleExpandedKey).2 =
        (KeyExpansionMem stdTables katKey (List.replicate 176 0)).2 ∧
      KeyExpansionMem stdTables (KeyExpansionMem stdTables katKey (List.replicate 176 0)).1
          (KeyExpansionMem stdTables katKey (List.replicate 176 0)).2 =
        KeyExpansionMem stdTables katKey (List.replicate 176 0) ∧
      (KeyExpansionMem stdTables katKey (List.replicate 176 0)).2 =
        KeyExpansion stdTables katKey :=
  ⟨stdTables_valid, by decide, List.length_replicate 176 0, List.length_range 176,
    keyExpansion_is_deterministic_and_keeps_key stdTables katKey (List.replicate 176 0)
      sampleExpandedKey stdTables_valid (by decide) (List.length_replicate 176 0)
      (List.length_range 176)⟩

/-! ## The instrumented encryption against the plain one -/

theorem encrypt_loop_stateAfter (T : Tables) (block ek : List Nat) (h : block.length = 16)
    (n : Nat) (hn : n ≤ 9) :
    (List.range n).foldl
        (fun (st : List Nat) (i : Nat) => Encrypt.Round T st (ek.drop (16 * (i + 1))))
        (stateAfter T block ek 0) =
      stateAfter T block ek n := by
  induction n with
  | zero => rfl
  | succ n ih =>
    rw [List.range_succ, List.foldl_append, ih (by omega)]
    simp only [List.foldl_cons, List.foldl_nil]
    rw [← stateAfter_succ T block ek h n (by omega)]

theorem aesEncrypt_eq_stateAfter (T : Tables) (message ek : List Nat) :
    Encrypt.AESEncrypt T message ek = stateAfter T (copy16 fresh16 message) ek 10 := by
  have hb := copy16_fresh_length message
  have h10 := stateAfter_length T _ ek hb 10
  unfold Encrypt.AESEncrypt
  simp only []
  rw [← stateAfter_zero T _ ek hb, encrypt_loop_stateAfter T _ ek hb 9 (le_refl 9),
    ← stateAfter_ten T _ ek hb, copy16_fresh _ h10]

/-- C18: instrumentation does not change the cipher.  For every 16-byte block `m`
and 176-byte expanded key `ek`, the ciphertext written by
`AESEncryptWithAvalanche(m, ek)` is `AESEncrypt(m, ek)`. -/
theorem avalanche_ciphertext_eq_aesEncrypt (T : Tables) (m ek : List Nat)
    (df : List (Nat × Nat)) (_hm : isBlock m) (_hek : isExpandedKey ek) :
    (Avalanche.AESEncryptWithAvalanche T m ek df).1 = Encrypt.AESEncrypt T m ek := by
  rw [aesEncryptWithAvalanche_eq, aesEncrypt_eq_stateAfter]

set_option maxRecDepth 100000 in
theorem avalanche_ciphertext_eq_aesEncrypt_witness :
    isBlock katPlain ∧ isExpandedKey sampleExpandedKey ∧
      (Avalanche.AESEncryptWithAvalanche stdTables katPlain sampleExpandedKey []).1 =
        Encrypt.AESEncrypt stdTables katPlain sampleExpandedKey :=
  ⟨by decide, by decide!,
    avalanche_ciphertext_eq_aesEncrypt stdTables katPlain sampleExpandedKey [] (by decide)
      (by decide!)⟩

theorem hammingDistance_addRoundKey (m ek : List Nat) (h : m.length = 16) :
    hammingDistance m (Encrypt.AddRoundKey m ek) =
      ((List.range 16).map (fun i => popCount (ek.getD i 0))).sum := by
  obtain ⟨a0, a1, a2, a3, a4, a5, a6, a7, a8, a9, a10, a11, a12, a13, a14, a15, rfl⟩ :=
    exists_of_length16 m h
  simp only [hammingDistance, addRoundKey_literal, range16, List.map_cons, List.map_nil,
    List.getD_cons_zero, List.getD_cons_succ, Nat.xor_cancel_left]

theorem selfDistanceRecord_head (T : Tables) (m ek : List Nat) (h : m.length = 16) :
    (selfDistanceRecord T m ek).head? =
      some (0, ((List.range 16).map (fun i => popCount (ek.getD i 0))).sum) := by
  unfold selfDistanceRecord
  rw [range11]
  simp only [List.map_cons, List.head?_cons]
  rw [stateAfter_zero T m ek h, hammingDistance_addRoundKey m ek h]

/-- C19: in `AESEncryptWithAvalanche` every recorded count is the Hamming
distance between the function's own input block and its own state after that
round.  In particular the count recorded for round 0 is the number of 1-bits in
the first 16 bytes of the expanded key, whatever the block: it is the same for
every other 16-byte block `m2`. -/
theorem avalanche_counts_are_distance_to_own_input (T : Tables) (m m2 ek : List Nat)
    (hm : isBlock m) (hm2 : isBlock m2) (_hek : isExpandedKey ek) :
    (Avalanche.AESEncryptWithAvalanche T m ek []).2 =
        (List.range 11).map (fun r => (r, hammingDistance m (stateAfter T m ek r))) ∧
      (Avalanche.AESEncryptWithAvalanche T m ek []).2.head? =
        some (0, ((List.range 16).map (fun i => popCount (ek.getD i 0))).sum) ∧
      (Avalanche.AESEncryptWithAvalanche T m2 ek []).2.head? =
        (Avalanche.AESEncryptWithAvalanche T m ek []).2.head? := by
  have e : ∀ b : List Nat, isBlock b →
      (Avalanche.AESEncryptWithAvalanche T b ek []).2 = selfDistanceRecord T b ek := by
    intro b hb
    rw [aesEncryptWithAvalanche_eq, copy16_fresh b hb.1]
    rfl
  rw [e m hm, e m2 hm2, selfDistanceRecord_head T m ek hm.1,
    selfDistanceRecord_head T m2 ek hm2.1]
  exact ⟨rfl, rfl, rfl⟩

set_option maxRecDepth 100000 in
theorem avalanche_counts_are_distance_to_own_input_witness :
    isBlock katPlain ∧ isBlock katCipher ∧ isExpandedKey sampleExpandedKey ∧
      (Avalanche.AESEncryptWithAvalanche stdTables katPlain sampleExpandedKey []).2 =
        (List.range 11).map
          (fun r => (r, hammingDistance katPlain
            (stateAfter stdTables katPlain sampleExpandedKey r))) ∧
      (Avalanche.AESEncryptWithAvalanche stdTables katPlain sampleExpandedKey []).2.head? =
        some (0, ((List.range 16).map (fun i => popCount (sampleExpandedKey.getD i 0))).sum) ∧
      (Avalanche.AESEncryptWithAvalanche stdTables katCipher sampleExpandedKey []).2.head? =
        (Avalanche.AESEncryptWithAvalanche stdTables katPlain sampleExpandedKey []).2.head? :=
  ⟨by decide, by decide, by decide!,
    avalanche_counts_are_distance_to_own_input stdTables katPlain katCipher sampleExpandedKey
      (by decide) (by decide) (by decide!)⟩

/-! ## A single flipped bit -/

theorem set_getD_self (l : List Nat) (i : Nat) : l.set i (l.getD i 0) = l := by
  induction l generalizing i with
  | nil => simp
  | cons a l ih =>
    cases i with
    | zero => simp
    | succ n => rw [List.getD_cons_succ, List.set_cons_succ, ih]

theorem withBitFlipped_twice (d : List Nat) (p : Nat) (hp : p < 8 * d.length) :
    withBitFlipped (withBitFlipped d p) p = d := by
  have hg := withBitFlipped_getD d p (p / 8) hp
  rw [if_pos rfl] at hg
  unfold withBitFlipped at hg ⊢
  rw [hg, Nat.xor_cancel_right, List.set_set, set_getD_self]

theorem popCount_zero : popCount 0 = 0 := by
  decide

theorem popCount_one_shiftLeft (k : Nat) (hk : k < 8) : popCount (1 <<< k) = 1 := by
  interval_cases k <;> decide

theorem hammingDistance_set (d : List Nat) (q v : Nat) (h : d.length = 16) (hq : q < 16) :
    hammingDistance d (d.set q (d.getD q 0 ^^^ v)) = popCount v := by
  obtain ⟨a0, a1, a2, a3, a4, a5, a6, a7, a8, a9, a10, a11, a12, a13, a14, a15, rfl⟩ :=
    exists_of_length16 d h
  interval_cases q <;>
    simp only [hammingDistance, range16, List.map_cons, List.map_nil, List.set_cons_zero,
      List.set_cons_succ, List.getD_cons_zero, List.getD_cons_succ, Nat.xor_self,
      Nat.xor_cancel_left, popCount_zero, List.sum_cons, List.sum_nil, Nat.add_zero,
      Nat.zero_add]

theorem hammingDistance_withBitFlipped (d : List Nat) (p : Nat) (h : d.length = 16)
    (hp : p < 128) : hammingDistance d (withBitFlipped d p) = 1 := by
  unfold withBitFlipped
  rw [hammingDistance_set d (p / 8) _ h (by omega),
    popCount_one_shiftLeft _ (Nat.mod_lt _ (by decide))]

/-- C20: a single bit flip has Hamming distance exactly one and is undone by
repeating it.  For every 16-byte array `d` and position `p` in [0,127],
`countChangedBits(d, flipBit(d, p), 16) = 1` and `flipBit(flipBit(d, p), p) = d`. -/
theorem flipBit_distance_one_and_involutive (d : List Nat) (p : Int) (hd : isBlock d)
    (hp0 : 0 ≤ p) (hp : p ≤ 127) :
    (Avalanche.flipBit d p).map (fun flipped => Avalanche.countChangedBits d flipped 16) =
        some 1 ∧
      (Avalanche.flipBit d p).bind (fun flipped => Avalanche.flipBit flipped p) = some d := by
  obtain ⟨n, rfl⟩ := Int.eq_ofNat_of_zero_le hp0
  have hn : n < 128 := by omega
  have h1 : n < 8 * d.length := by rw [hd.1]; omega
  have h2 : n < 8 * (withBitFlipped d n).length := by rw [withBitFlipped_length]; exact h1
  rw [flipBit_eq_withBitFlipped d n h1]
  simp only [Option.map_some', Option.some_bind]
  rw [countChangedBits_eq_hammingDistance, hammingDistance_withBitFlipped d n hd.1 hn,
    flipBit_eq_withBitFlipped _ n h2, withBitFlipped_twice d n h1]
  exact ⟨rfl, rfl⟩

theorem flipBit_distance_one_and_involutive_witness :
    isBlock katPlain ∧ (0 : Int) ≤ 42 ∧ (42 : Int) ≤ 127 ∧
      (Avalanche.flipBit katPlain 42).map
          (fun flipped => Avalanche.countChangedBits katPlain flipped 16) = some 1 ∧
      (Avalanche.flipBit katPlain 42).bind (fun flipped => Avalanche.flipBit flipped 42) =
        some katPlain :=
  ⟨by decide, by decide, by decide,
    flipBit_distance_one_and_involutive katPlain 42 (by decide) (by decide) (by decide)⟩

/-! ## `MixColumns` undoes `InverseMixColumns` -/

set_option maxRecDepth 100000 in
theorem mix_diag (x : Nat) (hx : x < 256) :
    gfMul 2 (gfMul 14 x) ^^^ gfMul 3 (gfMul 9 x) ^^^ gfMul 13 x ^^^ gfMul 11 x = x := by
  rw [gfMul_14, gfMul_11, gfMul_13, gfMul_9, gfMul_2, gfMul_3]
  revert x
  decide!

set_option maxRecDepth 100000 in
theorem mix_off1 (x : Nat) (hx : x < 256) :
    gfMul 2 (gfMul 11 x) ^^^ gfMul 3 (gfMul 14 x) ^^^ gfMul 9 x ^^^ gfMul 13 x = 0 := by
  rw [gfMul_14, gfMul_11, gfMul_13, gfMul_9, gfMul_2, gfMul_3]
  revert x
  decide!

set_option maxRecDepth 100000 in
theorem mix_off2 (x : Nat) (hx : x < 256) :
    gfMul 2 (gfMul 13 x) ^^^ gfMul 3 (gfMul 11 x) ^^^ gfMul 14 x ^^^ gfMul 9 x = 0 := by
  rw [gfMul_14, gfMul_11, gfMul_13, gfMul_9, gfMul_2, gfMul_3]
  revert x
  decide!

set_option maxRecDepth 100000 in
theorem mix_off3 (x : Nat) (hx : x < 256) :
    gfMul 2 (gfMul 9 x) ^^^ gfMul 3 (gfMul 13 x) ^^^ gfMul 11 x ^^^ gfMul 14 x = 0 := by
  rw [gfMul_14, gfMul_11, gfMul_13, gfMul_9, gfMul_2, gfMul_3]
  revert x
  decide!
theorem mix_invMix_column (a b c d : Nat)
    (ha : a < 256) (hb : b < 256) (hc : c < 256) (hd : d < 256) :
    gfMul 2 (gfMul 14 a ^^^ gfMul 11 b ^^^ gfMul 13 c ^^^ gfMul 9 d) ^^^
        gfMul 3 (gfMul 9 a ^^^ gfMul 14 b ^^^ gfMul 11 c ^^^ gfMul 13 d) ^^^
        (gfMul 13 a ^^^ gfMul 9 b ^^^ gfMul 14 c ^^^ gfMul 11 d) ^^^
        (gfMul 11 a ^^^ gfMul 13 b ^^^ gfMul 9 c ^^^ gfMul 14 d) = a ∧
      (gfMul 14 a ^^^ gfMul 11 b ^^^ gfMul 13 c ^^^ gfMul 9 d) ^^^
        gfMul 2 (gfMul 9 a ^^^ gfMul 14 b ^^^ gfMul 11 c ^^^ gfMul 13 d) ^^^
        gfMul 3 (gfMul 13 a ^^^ gfMul 9 b ^^^ gfMul 14 c ^^^ gfMul 11 d) ^^^
        (gfMul 11 a ^^^ gfMul 13 b ^^^ gfMul 9 c ^^^ gfMul 14 d) = b ∧
      (gfMul 14 a ^^^ gfMul 11 b ^^^ gfMul 13 c ^^^ gfMul 9 d) ^^^
        (gfMul 9 a ^^^ gfMul 14 b ^^^ gfMul 11 c ^^^ gfMul 13 d) ^^^
        gfMul 2 (gfMul 13 a ^^^ gfMul 9 b ^^^ gfMul 14 c ^^^ gfMul 11 d) ^^^
        gfMul 3 (gfMul 11 a ^^^ gfMul 13 b ^^^ gfMul 9 c ^^^ gfMul 14 d) = c ∧
      gfMul 3 (gfMul 14 a ^^^ gfMul 11 b ^^^ gfMul 13 c ^^^ gfMul 9 d) ^^^
        (gfMul 9 a ^^^ gfMul 14 b ^^^ gfMul 11 c ^^^ gfMul 13 d) ^^^
        (gfMul 13 a ^^^ gfMul 9 b ^^^ gfMul 14 c ^^^ gfMul 11 d) ^^^
        gfMul 2 (gfMul 11 a ^^^ gfMul 13 b ^^^ gfMul 9 c ^^^ gfMul 14 d) = d := by
  have l : ∀ k x, x < 256 → gfMul k x < 256 := fun k x hx => gfMul_lt k x hx
  have e0 : ∀ k, (k = 2 ∨ k = 3 ∨ k = 9 ∨ k = 11 ∨ k = 13 ∨ k = 14) →
      gfMul k (gfMul 14 a ^^^ gfMul 11 b ^^^ gfMul 13 c ^^^ gfMul 9 d) =
        gfMul k (gfMul 14 a) ^^^ gfMul k (gfMul 11 b) ^^^ gfMul k (gfMul 13 c) ^^^
          gfMul k (gfMul 9 d) :=
    fun k hk => gfMul_xor4 k _ _ _ _ hk (l _ a ha) (l _ b hb) (l _ c hc) (l _ d hd)
  have e1 : ∀ k, (k = 2 ∨ k = 3 ∨ k = 9 ∨ k = 11 ∨ k = 13 ∨ k = 14) →
      gfMul k (gfMul 9 a ^^^ gfMul 14 b ^^^ gfMul 11 c ^^^ gfMul 13 d) =
        gfMul k (gfMul 9 a) ^^^ gfMul k (gfMul 14 b) ^^^ gfMul k (gfMul 11 c) ^^^
          gfMul k (gfMul 13 d) :=
    fun k hk => gfMul_xor4 k _ _ _ _ hk (l _ a ha) (l _ b hb) (l _ c hc) (l _ d hd)
  have e2 : ∀ k, (k = 2 ∨ k = 3 ∨ k = 9 ∨ k = 11 ∨ k = 13 ∨ k = 14) →
      gfMul k (gfMul 13 a ^^^ gfMul 9 b ^^^ gfMul 14 c ^^^ gfMul 11 d) =
        gfMul k (gfMul 13 a) ^^^ gfMul k (gfMul 9 b) ^^^ gfMul k (gfMul 14 c) ^^^
          gfMul k (gfMul 11 d) :=
    fun k hk => gfMul_xor4 k _ _ _ _ hk (l _ a ha) (l _ b hb) (l _ c hc) (l _ d hd)
  have e3 : ∀ k, (k = 2 ∨ k = 3 ∨ k = 9 ∨ k = 11 ∨ k = 13 ∨ k = 14) →
      gfMul k (gfMul 11 a ^^^ gfMul 13 b ^^^ gfMul 9 c ^^^ gfMul 14 d) =
        gfMul k (gfMul 11 a) ^^^ gfMul k (gfMul 13 b) ^^^ gfMul k (gfMul 9 c) ^^^
          gfMul k (gfMul 14 d) :=
    fun k hk => gfMul_xor4 k _ _ _ _ hk (l _ a ha) (l _ b hb) (l _ c hc) (l _ d hd)
  rw [e0 2 (by simp), e1 3 (by simp), e1 2 (by simp), e2 3 (by simp), e2 2 (by simp),
    e3 3 (by simp), e0 3 (by simp), e3 2 (by simp)]
  refine ⟨?_, ?_, ?_, ?_⟩
  · calc _ = (gfMul 2 (gfMul 14 a) ^^^ gfMul 3 (gfMul 9 a) ^^^ gfMul 13 a ^^^ gfMul 11 a) ^^^
          (gfMul 2 (gfMul 11 b) ^^^ gfMul 3 (gfMul 14 b) ^^^ gfMul 9 b ^^^ gfMul 13 b) ^^^
          (gfMul 2 (gfMul 13 c) ^^^ gfMul 3 (gfMul 11 c) ^^^ gfMul 14 c ^^^ gfMul 9 c) ^^^
          (gfMul 2 (gfMul 9 d) ^^^ gfMul 3 (gfMul 13 d) ^^^ gfMul 11 d ^^^ gfMul 14 d) := by
          ac_rfl
      _ = a := by
          rw [mix_diag a ha, mix_off1 b hb, mix_off2 c hc, mix_off3 d hd]
          simp
  · calc _ = (gfMul 2 (gfMul 9 a) ^^^ gfMul 3 (gfMul 13 a) ^^^ gfMul 11 a ^^^ gfMul 14 a) ^^^
          (gfMul 2 (gfMul 14 b) ^^^ gfMul 3 (gfMul 9 b) ^^^ gfMul 13 b ^^^ gfMul 11 b) ^^^
          (gfMul 2 (gfMul 11 c) ^^^ gfMul 3 (gfMul 14 c) ^^^ gfMul 9 c ^^^ gfMul 13 c) ^^^
          (gfMul 2 (gfMul 13 d) ^^^ gfMul 3 (gfMul 11 d) ^^^ gfMul 14 d ^^^ gfMul 9 d) := by
          ac_rfl
      _ = b := by
          rw [mix_off3 a ha, mix_diag b hb, mix_off1 c hc, mix_off2 d hd]
          simp
  · calc _ = (gfMul 2 (gfMul 13 a) ^^^ gfMul 3 (gfMul 11 a) ^^^ gfMul 14 a ^^^ gfMul 9 a) ^^^
          (gfMul 2 (gfMul 9 b) ^^^ gfMul 3 (gfMul 13 b) ^^^ gfMul 11 b ^^^ gfMul 14 b) ^^^
          (gfMul 2 (gfMul 14 c) ^^^ gfMul 3 (gfMul 9 c) ^^^ gfMul 13 c ^^^ gfMul 11 c) ^^^
          (gfMul 2 (gfMul 11 d) ^^^ gfMul 3 (gfMul 14 d) ^^^ gfMul 9 d ^^^ gfMul 13 d) := by
          ac_rfl
      _ = c := by
          rw [mix_off2 a ha, mix_off3 b hb, mix_diag c hc, mix_off1 d hd]
          simp
  · calc _ = (gfMul 2 (gfMul 11 a) ^^^ gfMul 3 (gfMul 14 a) ^^^ gfMul 9 a ^^^ gfMul 13 a) ^^^
          (gfMul 2 (gfMul 13 b) ^^^ gfMul 3 (gfMul 11 b) ^^^ gfMul 14 b ^^^ gfMul 9 b) ^^^
          (gfMul 2 (gfMul 9 c) ^^^ gfMul 3 (gfMul 13 c) ^^^ gfMul 11 c ^^^ gfMul 14 c) ^^^
          (gfMul 2 (gfMul 14 d) ^^^ gfMul 3 (gfMul 9 d) ^^^ gfMul 13 d ^^^ gfMul 11 d) := by
          ac_rfl
      _ = d := by
          rw [mix_off1 a ha, mix_off2 b hb, mix_off3 c hc, mix_diag d hd]
          simp

theorem mix_invMix_column_tables (T : Tables) (hT : T.Valid) (a b c d : Nat)
    (ha : a < 256) (hb : b < 256) (hc : c < 256) (hd : d < 256) :
    T.mul2.getD (T.mul14.getD a 0 ^^^ T.mul11.getD b 0 ^^^ T.mul13.getD c 0 ^^^
      T.mul9.getD d 0) 0 ^^^
        T.mul3.getD (T.mul9.getD a 0 ^^^ T.mul14.getD b 0 ^^^ T.mul11.getD c 0 ^^^
          T.mul13.getD d 0) 0 ^^^
        (T.mul13.getD a 0 ^^^ T.mul9.getD b 0 ^^^ T.mul14.getD c 0 ^^^ T.mul11.getD d 0) ^^^
        (T.mul11.getD a 0 ^^^ T.mul13.getD b 0 ^^^ T.mul9.getD c 0 ^^^ T.mul14.getD d 0) = a ∧
      (T.mul14.getD a 0 ^^^ T.mul11.getD b 0 ^^^ T.mul13.getD c 0 ^^^ T.mul9.getD d 0) ^^^
        T.mul2.getD (T.mul9.getD a 0 ^^^ T.mul14.getD b 0 ^^^ T.mul11.getD c 0 ^^^
          T.mul13.getD d 0) 0 ^^^
        T.mul3.getD (T.mul13.getD a 0 ^^^ T.mul9.getD b 0 ^^^ T.mul14.getD c 0 ^^^
          T.mul11.getD d 0) 0 ^^^
        (T.mul11.getD a 0 ^^^ T.mul13.getD b 0 ^^^ T.mul9.getD c 0 ^^^ T.mul14.getD d 0) = b ∧
      (T.mul14.getD a 0 ^^^ T.mul11.getD b 0 ^^^ T.mul13.getD c 0 ^^^ T.mul9.getD d 0) ^^^
        (T.mul9.getD a 0 ^^^ T.mul14.getD b 0 ^^^ T.mul11.getD c 0 ^^^ T.mul13.getD d 0) ^^^
        T.mul2.getD (T.mul13.getD a 0 ^^^ T.mul9.getD b 0 ^^^ T.mul14.getD c 0 ^^^
          T.mul11.getD d 0) 0 ^^^
        T.mul3.getD (T.mul11.getD a 0 ^^^ T.mul13.getD b 0 ^^^ T.mul9.getD c 0 ^^^
          T.mul14.getD d 0) 0 = c ∧
      T.mul3.getD (T.mul14.getD a 0 ^^^ T.mul11.getD b 0 ^^^ T.mul13.getD c 0 ^^^
        T.mul9.getD d 0) 0 ^^^
        (T.mul9.getD a 0 ^^^ T.mul14.getD b 0 ^^^ T.mul11.getD c 0 ^^^ T.mul13.getD d 0) ^^^
        (T.mul13.getD a 0 ^^^ T.mul9.getD b 0 ^^^ T.mul14.getD c 0 ^^^ T.mul11.getD d 0) ^^^
        T.mul2.getD (T.mul11.getD a 0 ^^^ T.mul13.getD b 0 ^^^ T.mul9.getD c 0 ^^^
          T.mul14.getD d 0) 0 = d := by
  have l : ∀ k x, x < 256 → gfMul k x < 256 := fun k x hx => gfMul_lt k x hx
  rw [hT.mul14_eq a ha, hT.mul14_eq b hb, hT.mul14_eq c hc, hT.mul14_eq d hd, hT.mul11_eq a ha,
    hT.mul11_eq b hb, hT.mul11_eq c hc, hT.mul11_eq d hd, hT.mul13_eq a ha, hT.mul13_eq b hb,
    hT.mul13_eq c hc, hT.mul13_eq d hd, hT.mul9_eq a ha, hT.mul9_eq b hb, hT.mul9_eq c hc,
    hT.mul9_eq d hd]
  have b0 : gfMul 14 a ^^^ gfMul 11 b ^^^ gfMul 13 c ^^^ gfMul 9 d < 256 :=
    xor_lt_256 (xor_lt_256 (xor_lt_256 (l _ a ha) (l _ b hb)) (l _ c hc)) (l _ d hd)
  have b1 : gfMul 9 a ^^^ gfMul 14 b ^^^ gfMul 11 c ^^^ gfMul 13 d < 256 :=
    xor_lt_256 (xor_lt_256 (xor_lt_256 (l _ a ha) (l _ b hb)) (l _ c hc)) (l _ d hd)
  have b2 : gfMul 13 a ^^^ gfMul 9 b ^^^ gfMul 14 c ^^^ gfMul 11 d < 256 :=
    xor_lt_256 (xor_lt_256 (xor_lt_256 (l _ a ha) (l _ b hb)) (l _ c hc)) (l _ d hd)
  have b3 : gfMul 11 a ^^^ gfMul 13 b ^^^ gfMul 9 c ^^^ gfMul 14 d < 256 :=
    xor_lt_256 (xor_lt_256 (xor_lt_256 (l _ a ha) (l _ b hb)) (l _ c hc)) (l _ d hd)
  rw [hT.mul2_eq _ b0, hT.mul2_eq _ b1, hT.mul2_eq _ b2, hT.mul2_eq _ b3, hT.mul3_eq _ b0,
    hT.mul3_eq _ b1, hT.mul3_eq _ b2, hT.mul3_eq _ b3]
  exact mix_invMix_column a b c d ha hb hc hd

theorem mixColumns_invMixColumns (T : Tables) (hT : T.Valid) (st : List Nat)
    (h : isBlock st) : Encrypt.MixColumns T (Decrypt.InverseMixColumns T st) = st := by
  obtain ⟨hl, hb⟩ := h
  obtain ⟨a0, a1, a2, a3, a4, a5, a6, a7, a8, a9, a10, a11, a12, a13, a14, a15, rfl⟩ :=
    exists_of_length16 st hl
  simp only [List.forall_mem_cons, List.not_mem_nil, false_implies, implies_true,
    and_true] at hb
  obtain ⟨h0, h1, h2, h3, h4, h5, h6, h7, h8, h9, h10, h11, h12, h13, h14, h15⟩ := hb
  obtain ⟨p0, p1, p2, p3⟩ := mix_invMix_column_tables T hT a0 a1 a2 a3 h0 h1 h2 h3
  obtain ⟨p4, p5, p6, p7⟩ := mix_invMix_column_tables T hT a4 a5 a6 a7 h4 h5 h6 h7
  obtain ⟨p8, p9, p10, p11⟩ := mix_invMix_column_tables T hT a8 a9 a10 a11 h8 h9 h10 h11
  obtain ⟨p12, p13, p14, p15⟩ :=
    mix_invMix_column_tables T hT a12 a13 a14 a15 h12 h13 h14 h15
  rw [invMixColumns_literal, mixColumns_literal, p0, p1, p2, p3, p4, p5, p6, p7, p8, p9,
    p10, p11, p12, p13, p14, p15]

/-- C16: `InverseMixColumns` (coefficients 14, 11, 13, 9 cyclically) is the
exact inverse of `MixColumns`: for every 16-byte state `s`, each undoes the
other, the `mulN` tables being multiplication by `N` in GF(2^8) modulo
`x^8+x^4+x^3+x+1`. -/
theorem invMixColumns_is_inverse_of_mixColumns (T : Tables) (s : List Nat) (hT : T.Valid)
    (hs : isBlock s) :
    Decrypt.InverseMixColumns T (Encrypt.MixColumns T s) = s ∧
      Encrypt.MixColumns T (Decrypt.InverseMixColumns T s) = s :=
  ⟨invMixColumns_mixColumns T hT s hs, mixColumns_invMixColumns T hT s hs⟩

theorem invMixColumns_is_inverse_of_mixColumns_witness :
    stdTables.Valid ∧ isBlock katPlain ∧
      Decrypt.InverseMixColumns stdTables (Encrypt.MixColumns stdTables katPlain) = katPlain ∧
      Encrypt.MixColumns stdTables (Decrypt.InverseMixColumns stdTables katPlain) = katPlain :=
  ⟨stdTables_valid, by decide,
    invMixColumns_is_inverse_of_mixColumns stdTables katPlain stdTables_valid (by decide)⟩

/-! ## `MixColumns` as a matrix product over GF(2^8) -/

theorem gfMul_1 (x : Nat) : gfMul 1 x = x := by
  simp [gfMul, List.range_succ, Nat.testBit]

/-- C15: `MixColumns` replaces each column (bytes `4c`, ..., `4c+3`) by its
product over GF(2^8) with the circulant matrix of first row {2, 3, 1, 1}: for
every 16-byte state `s`, column `c` and row `r`, `MixColumns(s)[4c + r]` is the
XOR over `j = 0, ..., 3` of `M[r][j] * s[4c + j]`, where multiplication by 2 is
doubling with conditional XOR 0x1B on overflow and multiplication by 3 is that
XOR the byte itself, `mul2` and `mul3` being those tables. -/
theorem mixColumns_is_matrix_product (T : Tables) (s : List Nat) (c r x : Nat)
    (hT : T.Valid) (hs : isBlock s) (hc : c < 4) (hr : r < 4) (hx : x < 256) :
    (Encrypt.MixColumns T s).getD (4 * c + r) 0 =
        gfMul (mixMatrix r 0) (s.getD (4 * c) 0) ^^^
          gfMul (mixMatrix r 1) (s.getD (4 * c + 1) 0) ^^^
          gfMul (mixMatrix r 2) (s.getD (4 * c + 2) 0) ^^^
          gfMul (mixMatrix r 3) (s.getD (4 * c + 3) 0) ∧
      gfMul 1 x = x ∧
      gfMul 2 x = (if x < 128 then 2 * x else (2 * x) % 256 ^^^ 0x1B) ∧
      gfMul 3 x = gfMul 2 x ^^^ x ∧
      T.mul2.getD x 0 = gfMul 2 x ∧ T.mul3.getD x 0 = gfMul 3 x := by
  refine ⟨?_, gfMul_1 x, gfMul_2 x, by rw [gfMul_3, gfMul_2, Nat.xor_comm],
    hT.mul2_eq x hx, hT.mul3_eq x hx⟩
  obtain ⟨hl, hb⟩ := hs
  obtain ⟨a0, a1, a2, a3, a4, a5, a6, a7, a8, a9, a10, a11, a12, a13, a14, a15, rfl⟩ :=
    exists_of_length16 s hl
  simp only [List.forall_mem_cons, List.not_mem_nil, false_implies, implies_true,
    and_true] at hb
  obtain ⟨h0, h1, h2, h3, h4, h5, h6, h7, h8, h9, h10, h11, h12, h13, h14, h15⟩ := hb
  rw [mixColumns_literal, hT.mul2_eq a0 h0, hT.mul2_eq a1 h1, hT.mul2_eq a2 h2,
    hT.mul2_eq a3 h3, hT.mul2_eq a4 h4, hT.mul2_eq a5 h5, hT.mul2_eq a6 h6, hT.mul2_eq a7 h7,
    hT.mul2_eq a8 h8, hT.mul2_eq a9 h9, hT.mul2_eq a10 h10, hT.mul2_eq a11 h11,
    hT.mul2_eq a12 h12, hT.mul2_eq a13 h13, hT.mul2_eq a14 h14, hT.mul2_eq a15 h15,
    hT.mul3_eq a0 h0, hT.mul3_eq a1 h1, hT.mul3_eq a2 h2, hT.mul3_eq a3 h3, hT.mul3_eq a4 h4,
    hT.mul3_eq a5 h5, hT.mul3_eq a6 h6, hT.mul3_eq a7 h7, hT.mul3_eq a8 h8, hT.mul3_eq a9 h9,
    hT.mul3_eq a10 h10, hT.mul3_eq a11 h11, hT.mul3_eq a12 h12, hT.mul3_eq a13 h13,
    hT.mul3_eq a14 h14, hT.mul3_eq a15 h15]
  interval_cases c <;> interval_cases r <;>
    simp [mixMatrix, gfMul_1]

theorem mixColumns_is_matrix_product_witness :
    stdTables.Valid ∧ isBlock katPlain ∧ 2 < 4 ∧ 3 < 4 ∧ 200 < 256 ∧
      (Encrypt.MixColumns stdTables katPlain).getD (4 * 2 + 3) 0 =
        gfMul (mixMatrix 3 0) (katPlain.getD (4 * 2) 0) ^^^
          gfMul (mixMatrix 3 1) (katPlain.getD (4 * 2 + 1) 0) ^^^
          gfMul (mixMatrix 3 2) (katPlain.getD (4 * 2 + 2) 0) ^^^
          gfMul (mixMatrix 3 3) (katPlain.getD (4 * 2 + 3) 0) ∧
      gfMul 1 200 = 200 ∧
      gfMul 2 200 = (if 200 < 128 then 2 * 200 else (2 * 200) % 256 ^^^ 0x1B) ∧
      gfMul 3 200 = gfMul 2 200 ^^^ 200 ∧
      stdTables.mul2.getD 200 0 = gfMul 2 200 ∧ stdTables.mul3.getD 200 0 = gfMul 3 200 :=
  ⟨stdTables_valid, by decide, by decide, by decide, by decide,
    mixColumns_is_matrix_product stdTables katPlain 2 3 200 stdTables_valid (by decide)
      (by decide) (by decide) (by decide)⟩

/-! ## Every array access of the two pipelines is in range -/

theorem checkedRead_of_lt (t : List Nat) (x : Nat) (hx : x < t.length) :
    checkedRead t x = some (t.getD x 0) := by
  unfold checkedRead
  rw [List.getD_eq_getElem t 0 hx, List.getElem?_eq_getElem hx]

theorem checkedWrite_of_lt (a : List Nat) (i v : Nat) (hi : i < a.length) :
    checkedWrite a i v = some (a.set i v) := by
  unfold checkedWrite
  rw [if_pos hi]

theorem isBlock_set (st : List Nat) (i v : Nat) (h : isBlock st) (hv : v < 256) :
    isBlock (st.set i v) := by
  refine ⟨by rw [List.length_set]; exact h.1, ?_⟩
  intro x hx
  rcases List.mem_or_eq_of_mem_set hx with hx | hx
  · exact h.2 x hx
  · rw [hx]; exact hv

theorem checkedCopy16_loop (src : List Nat) (hs : 16 ≤ src.length) (l : List Nat)
    (hl : ∀ i ∈ l, i < 16) :
    ∀ d : List Nat, d.length = 16 →
      l.foldlM
          (fun d i => do
            let v ← checkedRead src i
            checkedWrite d i v)
          d =
        some (l.foldl (fun d i => d.set i (src.getD i 0)) d) := by
  induction l with
  | nil => intro d _; rfl
  | cons i l ih =>
    intro d hd
    have hi := hl i (List.mem_cons_self i l)
    rw [List.foldlM_cons, List.foldl_cons, checkedRead_of_lt src i (by omega)]
    simp only [Option.bind_eq_bind, Option.some_bind]
    rw [checkedWrite_of_lt d i _ (by omega)]
    simp only [Option.some_bind]
    exact ih (fun j hj => hl j (List.mem_cons_of_mem i hj)) _
      (by rw [List.length_set]; exact hd)

theorem checkedCopy16_eq (dst src : List Nat) (hd : dst.length = 16) (hs : 16 ≤ src.length) :
    checkedCopy16 dst src = some (copy16 dst src) :=
  checkedCopy16_loop src hs (List.range 16) (fun _ hi => List.mem_range.1 hi) dst hd

theorem fresh16_length : fresh16.length = 16 := by
  simp [fresh16]

theorem checked_table_loop (t : List Nat) (ht : isTable t) (l : List Nat)
    (hl : ∀ i ∈ l, i < 16) :
    ∀ st : List Nat, isBlock st →
      l.foldlM
          (fun st i => do
            let x ← checkedRead st i
            let y ← checkedRead t x
            checkedWrite st i y)
          st =
        some (l.foldl (fun st i => st.set i (t.getD (st.getD i 0) 0)) st) := by
  induction l with
  | nil => intro st _; rfl
  | cons i l ih =>
    intro st hst
    have hi := hl i (List.mem_cons_self i l)
    have hx : st.getD i 0 < t.length := by
      rw [ht.1]; exact getD_lt_of_bytes st hst.2 i
    rw [List.foldlM_cons, List.foldl_cons, checkedRead_of_lt st i (by rw [hst.1]; exact hi)]
    simp only [Option.bind_eq_bind, Option.some_bind]
    rw [checkedRead_of_lt t _ hx]
    simp only [Option.some_bind]
    rw [checkedWrite_of_lt st i _ (by rw [hst.1]; exact hi)]
    simp only [Option.some_bind]
    exact ih (fun j hj => hl j (List.mem_cons_of_mem i hj)) _
      (isBlock_set st i _ hst (getD_lt_of_bytes t ht.2 _))

theorem checked_subBytes (T : Tables) (hs : isTable T.s) (st : List Nat) (h : isBlock st) :
    EncryptChecked.subBytes T st = some (Encrypt.subBytes T st) :=
  checked_table_loop T.s hs (List.range 16) (fun _ hi => List.mem_range.1 hi) st h

theorem checked_invSubBytes (T : Tables) (hs : isTable T.inv_s) (st : List Nat)
    (h : isBlock st) : DecryptChecked.SubBytes T st = some (Decrypt.SubBytes T st) :=
  checked_table_loop T.inv_s hs (List.range 16) (fun _ hi => List.mem_range.1 hi) st h

theorem mapM_checkedRead (state : List Nat) (l : List Nat) (hl : ∀ i ∈ l, i < state.length) :
    l.mapM (checkedRead state) = some (l.map (fun i => state.getD i 0)) := by
  induction l with
  | nil => rfl
  | cons i l ih =>
    rw [List.mapM_cons, checkedRead_of_lt state i (hl i (List.mem_cons_self i l)),
      ih (fun j hj => hl j (List.mem_cons_of_mem i hj))]
    rfl

theorem checked_shiftRows (st : List Nat) (h : st.length = 16) :
    EncryptChecked.ShiftRows st = some (Encrypt.ShiftRows st) := by
  unfold EncryptChecked.ShiftRows Encrypt.ShiftRows
  rw [mapM_checkedRead st _ (by intro i hi; rw [h]; revert i; decide)]
  simp only [Option.bind_eq_bind, Option.some_bind]
  rw [checkedCopy16_eq st _ h (by simp)]
  simp only [List.map_cons, List.map_nil]

theorem checked_addRoundKey_loop (ek : List Nat) (base : Nat) (hb : base + 16 ≤ ek.length)
    (l : List Nat) (hl : ∀ i ∈ l, i < 16) :
    ∀ (st reads : List Nat), st.length = 16 →
      l.foldlM
          (fun (sr : List Nat × List Nat) i => do
            let x ← checkedRead sr.1 i
            let k ← checkedRead ek (base + i)
            let st ← checkedWrite sr.1 i (x ^^^ k)
            pure (st, sr.2 ++ [base + i]))
          (st, reads) =
        some ((l.foldl
            (fun (mem : List Nat × List Nat) i =>
              (mem.1.set i (mem.1.getD i 0 ^^^ mem.2.getD i 0), mem.2))
            (st, ek.drop base)).1,
          reads ++ l.map (fun i => base + i)) := by
  induction l with
  | nil => intro st reads _; simp
  | cons i l ih =>
    intro st reads hst
    have hi := hl i (List.mem_cons_self i l)
    rw [List.foldlM_cons, List.foldl_cons, checkedRead_of_lt st i (by omega)]
    simp only [Option.bind_eq_bind, Option.some_bind]
    rw [checkedRead_of_lt ek (base + i) (by omega)]
    simp only [Option.some_bind]
    rw [checkedWrite_of_lt st i _ (by omega)]
    simp only [Option.some_bind, Option.pure_def]
    have key := ih (fun j hj => hl j (List.mem_cons_of_mem i hj))
      (st.set i (st.getD i 0 ^^^ ek.getD (base + i) 0)) (reads ++ [base + i])
      (by rw [List.length_set]; exact hst)
    simp only [Option.bind_eq_bind, Option.pure_def] at key
    rw [key, getD_drop_add]
    simp only [List.map_cons, List.append_assoc, List.singleton_append]

theorem checked_addRoundKey (st ek : List Nat) (base : Nat) (reads : List Nat)
    (hst : st.length = 16) (hb : base + 16 ≤ ek.length) :
    EncryptChecked.AddRoundKey st ek base reads =
      some (Encrypt.AddRoundKey st (ek.drop base),
        reads ++ (List.range 16).map (fun i => base + i)) :=
  checked_addRoundKey_loop ek base hb (List.range 16) (fun _ hi => List.mem_range.1 hi)
    st reads hst

theorem checkedLookup_of_lt (t state : List Nat) (i : Nat) (ht : isTable t)
    (hs : isBlock state) (hi : i < 16) :
    checkedLookup t state i = some (t.getD (state.getD i 0) 0) := by
  unfold checkedLookup
  rw [checkedRead_of_lt state i (by rw [hs.1]; exact hi)]
  simp only [Option.bind_eq_bind, Option.some_bind]
  exact checkedRead_of_lt t _ (by rw [ht.1]; exact getD_lt_of_bytes state hs.2 i)

theorem checkedXor4_some (a b c d : Nat) :
    checkedXor4 (some a) (some b) (some c) (some d) = some (a ^^^ b ^^^ c ^^^ d) := rfl

theorem sequence16_some (v : Nat) (rest : List (Option Nat)) :
    sequence16 (some v :: rest) = (sequence16 rest).map (fun vs => v :: vs) := rfl

theorem sequence16_nil : sequence16 [] = some [] := rfl

theorem checked_mixColumns (T : Tables) (h2 : isTable T.mul2) (h3 : isTable T.mul3)
    (st : List Nat) (h : isBlock st) :
    EncryptChecked.MixColumns T st = some (Encrypt.MixColumns T st) := by
  have rd : ∀ i, i < 16 → checkedRead st i = some (st.getD i 0) :=
    fun i hi => checkedRead_of_lt st i (by rw [h.1]; exact hi)
  have l2 : ∀ i, i < 16 → checkedLookup T.mul2 st i = some (T.mul2.getD (st.getD i 0) 0) :=
    fun i hi => checkedLookup_of_lt T.mul2 st i h2 h hi
  have l3 : ∀ i, i < 16 → checkedLookup T.mul3 st i = some (T.mul3.getD (st.getD i 0) 0) :=
    fun i hi => checkedLookup_of_lt T.mul3 st i h3 h hi
  unfold EncryptChecked.MixColumns Encrypt.MixColumns
  simp only [rd 0 (by decide), rd 1 (by decide), rd 2 (by decide), rd 3 (by decide),
    rd 4 (by decide), rd 5 (by decide), rd 6 (by decide), rd 7 (by decide), rd 8 (by decide),
    rd 9 (by decide), rd 10 (by decide), rd 11 (by decide), rd 12 (by decide),
    rd 13 (by decide), rd 14 (by decide), rd 15 (by decide),
    l2 0 (by decide), l2 1 (by decide), l2 2 (by decide), l2 3 (by decide),
    l2 4 (by decide), l2 5 (by decide), l2 6 (by decide), l2 7 (by decide), l2 8 (by decide),
    l2 9 (by decide), l2 10 (by decide), l2 11 (by decide), l2 12 (by decide),
    l2 13 (by decide), l2 14 (by decide), l2 15 (by decide),
    l3 0 (by decide), l3 1 (by decide), l3 2 (by decide), l3 3 (by decide),
    l3 4 (by decide), l3 5 (by decide), l3 6 (by decide), l3 7 (by decide), l3 8 (by decide),
    l3 9 (by decide), l3 10 (by decide), l3 11 (by decide), l3 12 (by decide),
    l3 13 (by decide), l3 14 (by decide), l3 15 (by decide),
    checkedXor4_some, sequence16_some, sequence16_nil, Option.map_some',
    Option.bind_eq_bind, Option.some_bind]
  exact checkedCopy16_eq st _ h.1 (by simp)

theorem checked_encrypt_round (T : Tables) (hT : T.Sized) (st ek : List Nat) (base : Nat)
    (reads : List Nat) (h : isBlock st) (hb : base + 16 ≤ ek.length) :
    EncryptChecked.Round T st ek base reads =
      some (Encrypt.Round T st (ek.drop base),
        reads ++ (List.range 16).map (fun i => base + i)) := by
  have h1 := subBytes_isBlock T hT.s_table st h.1
  have h2 := shiftRows_isBlock _ h1
  have h3 := mixColumns_isBlock T hT.mul2_table hT.mul3_table _ h2
  unfold EncryptChecked.Round Encrypt.Round
  rw [checked_subBytes T hT.s_table st h]
  simp only [Option.bind_eq_bind, Option.some_bind]
  rw [checked_shiftRows _ h1.1]
  simp only [Option.some_bind]
  rw [checked_mixColumns T hT.mul2_table hT.mul3_table _ h2]
  simp only [Option.some_bind]
  exact checked_addRoundKey _ ek base reads h3.1 hb

theorem checked_encrypt_finalRound (T : Tables) (hT : T.Sized) (st ek : List Nat) (base : Nat)
    (reads : List Nat) (h : isBlock st) (hb : base + 16 ≤ ek.length) :
    EncryptChecked.FinalRound T st ek base reads =
      some (Encrypt.FinalRound T st (ek.drop base),
        reads ++ (List.range 16).map (fun i => base + i)) := by
  have h1 := subBytes_isBlock T hT.s_table st h.1
  have h2 := shiftRows_isBlock _ h1
  unfold EncryptChecked.FinalRound Encrypt.FinalRound
  rw [checked_subBytes T hT.s_table st h]
  simp only [Option.bind_eq_bind, Option.some_bind]
  rw [checked_shiftRows _ h1.1]
  simp only [Option.some_bind]
  exact checked_addRoundKey _ ek base reads h2.1 hb

theorem encrypt_round_isBlock_sized (T : Tables) (hT : T.Sized) (st k : List Nat)
    (h : isBlock st) (hk : ∀ i, k.getD i 0 < 256) : isBlock (Encrypt.Round T st k) :=
  addRoundKey_isBlock _ _
    (mixColumns_isBlock T hT.mul2_table hT.mul3_table _
      (shiftRows_isBlock _ (subBytes_isBlock T hT.s_table st h.1))) hk

theorem checked_encrypt_loop (T : Tables) (hT : T.Sized) (ek : List Nat)
    (hek : ∀ x ∈ ek, x < 256) (l : List Nat) (hl : ∀ i ∈ l, 16 * (i + 1) + 16 ≤ ek.length) :
    ∀ (st reads : List Nat), isBlock st →
      isBlock (l.foldl (fun st i => Encrypt.Round T st (ek.drop (16 * (i + 1)))) st) ∧
      l.foldlM
          (fun (sr : List Nat × List Nat) i =>
            EncryptChecked.Round T sr.1 ek (16 * (i + 1)) sr.2)
          (st, reads) =
        some (l.foldl (fun st i => Encrypt.Round T st (ek.drop (16 * (i + 1)))) st,
          reads ++ roundKeyReads (l.map (fun i => 16 * (i + 1)))) := by
  induction l with
  | nil => intro st reads h; exact ⟨h, by simp [roundKeyReads]⟩
  | cons i l ih =>
    intro st reads h
    have hi := hl i (List.mem_cons_self i l)
    have h1 := encrypt_round_isBlock_sized T hT st (ek.drop (16 * (i + 1))) h
      (drop_getD_lt_of_bytes ek hek _)
    obtain ⟨i1, i2⟩ := ih (fun j hj => hl j (List.mem_cons_of_mem i hj)) _
      (reads ++ (List.range 16).map (fun j => 16 * (i + 1) + j)) h1
    refine ⟨by simpa only [List.foldl_cons] using i1, ?_⟩
    rw [List.foldlM_cons, checked_encrypt_round T hT st ek _ reads h hi]
    simp only [Option.bind_eq_bind, Option.some_bind, List.foldl_cons]
    rw [i2]
    simp only [roundKeyReads, List.map_cons, List.flatMap_cons, List.append_assoc]

set_option maxRecDepth 100000 in
theorem encrypt_reads_eq :
    ([] ++ (List.range 16).map (fun i => 0 + i) ++
        roundKeyReads ((List.range 9).map (fun i => 16 * (i + 1)))) ++
      (List.range 16).map (fun i => 160 + i) =
      roundKeyReads [0, 16, 32, 48, 64, 80, 96, 112, 128, 144, 160] := by
  decide

set_option maxRecDepth 100000 in
theorem checked_aesEncrypt (T : Tables) (hT : T.Sized) (m ek : List Nat) (hm : isBlock m)
    (hek : isExpandedKey ek) :
    EncryptChecked.AESEncrypt T m ek =
      some (Encrypt.AESEncrypt T m ek,
        roundKeyReads [0, 16, 32, 48, 64, 80, 96, 112, 128, 144, 160]) := by
  have h0 : isBlock (Encrypt.AddRoundKey m ek) :=
    addRoundKey_isBlock m ek hm (getD_lt_of_bytes ek hek.2)
  obtain ⟨h9, e9⟩ := checked_encrypt_loop T hT ek hek.2 (List.range 9)
    (by intro i hi; rw [hek.1]; have := List.mem_range.1 hi; omega)
    (Encrypt.AddRoundKey m ek) ([] ++ (List.range 16).map (fun i => 0 + i)) h0
  have h10 : (Encrypt.FinalRound T
      ((List.range 9).foldl (fun st i => Encrypt.Round T st (ek.drop (16 * (i + 1))))
        (Encrypt.AddRoundKey m ek)) (ek.drop 160)).length = 16 :=
    encrypt_finalRound_length T _ _ h9.1
  unfold EncryptChecked.AESEncrypt Encrypt.AESEncrypt
  rw [checkedCopy16_eq fresh16 m fresh16_length (by rw [hm.1]), copy16_fresh m hm.1]
  simp only [Option.bind_eq_bind, Option.some_bind]
  rw [checked_addRoundKey m ek 0 [] hm.1 (by rw [hek.1]; decide)]
  simp only [Option.some_bind, List.drop_zero]
  rw [e9, Option.some_bind, checked_encrypt_finalRound T hT _ ek 160 _ h9 (by rw [hek.1]),
    Option.some_bind, checkedCopy16_eq fresh16 _ fresh16_length (by rw [h10]),
    Option.some_bind, encrypt_reads_eq]
  simp only [Option.pure_def]

theorem checked_invShiftRows (st : List Nat) (h : st.length = 16) :
    DecryptChecked.ShiftRows st = some (Decrypt.ShiftRows st) := by
  unfold DecryptChecked.ShiftRows Decrypt.ShiftRows
  rw [mapM_checkedRead st _ (by intro i hi; rw [h]; revert i; decide)]
  simp only [Option.bind_eq_bind, Option.some_bind]
  rw [checkedCopy16_eq st _ h (by simp)]
  simp only [List.map_cons, List.map_nil]

theorem checked_invMixColumns (T : Tables) (hT : T.Sized) (st : List Nat) (h : isBlock st) :
    DecryptChecked.InverseMixColumns T st = some (Decrypt.InverseMixColumns T st) := by
  have l9 : ∀ i, i < 16 → checkedLookup T.mul9 st i = some (T.mul9.getD (st.getD i 0) 0) :=
    fun i hi => checkedLookup_of_lt T.mul9 st i hT.mul9_table h hi
  have l11 : ∀ i, i < 16 →
      checkedLookup T.mul11 st i = some (T.mul11.getD (st.getD i 0) 0) :=
    fun i hi => checkedLookup_of_lt T.mul11 st i hT.mul11_table h hi
  have l13 : ∀ i, i < 16 →
      checkedLookup T.mul13 st i = some (T.mul13.getD (st.getD i 0) 0) :=
    fun i hi => checkedLookup_of_lt T.mul13 st i hT.mul13_table h hi
  have l14 : ∀ i, i < 16 →
      checkedLookup T.mul14 st i = some (T.mul14.getD (st.getD i 0) 0) :=
    fun i hi => checkedLookup_of_lt T.mul14 st i hT.mul14_table h hi
  unfold DecryptChecked.InverseMixColumns Decrypt.InverseMixColumns
  simp only [l9 0 (by decide), l9 1 (by decide), l9 2 (by decide), l9 3 (by decide),
    l9 4 (by decide), l9 5 (by decide), l9 6 (by decide), l9 7 (by decide), l9 8 (by decide),
    l9 9 (by decide), l9 10 (by decide), l9 11 (by decide), l9 12 (by decide), l9 13 (by decide),
    l9 14 (by decide), l9 15 (by decide),
    l11 0 (by decide), l11 1 (by decide), l11 2 (by decide), l11 3 (by decide),
    l11 4 (by decide), l11 5 (by decide), l11 6 (by decide), l11 7 (by decide),
    l11 8 (by decide), l11 9 (by decide), l11 10 (by decide), l11 11 (by decide),
    l11 12 (by decide), l11 13 (by decide), l11 14 (by decide), l11 15 (by decide),
    l13 0 (by decide), l13 1 (by decide), l13 2 (by decide), l13 3 (by decide),
    l13 4 (by decide), l13 5 (by decide), l13 6 (by decide), l13 7 (by decide),
    l13 8 (by decide), l13 9 (by decide), l13 10 (by decide), l13 11 (by decide),
    l13 12 (by decide), l13 13 (by decide), l13 14 (by decide), l13 15 (by decide),
    l14 0 (by decide), l14 1 (by decide), l14 2 (by decide), l14 3 (by decide),
    l14 4 (by decide), l14 5 (by decide), l14 6 (by decide), l14 7 (by decide),
    l14 8 (by decide), l14 9 (by decide), l14 10 (by decide), l14 11 (by decide),
    l14 12 (by decide), l14 13 (by decide), l14 14 (by decide), l14 15 (by decide),
    checkedXor4_some, sequence16_some, sequence16_nil, Option.map_some',
    Option.bind_eq_bind, Option.some_bind]
  exact checkedCopy16_eq st _ h.1 (by simp)

theorem checked_decrypt_addRoundKey (st ek : List Nat) (base : Nat) (reads : List Nat)
    (hst : st.length = 16) (hb : base + 16 ≤ ek.length) :
    DecryptChecked.AddRoundKey st ek base reads =
      some (Decrypt.AddRoundKey st (ek.drop base),
        reads ++ (List.range 16).map (fun i => base + i)) :=
  checked_addRoundKey_loop ek base hb (List.range 16) (fun _ hi => List.mem_range.1 hi)
    st reads hst

theorem decrypt_round_isBlock_sized (T : Tables) (hT : T.Sized) (st k : List Nat)
    (h : st.length = 16) : isBlock (Decrypt.Round T st k) :=
  invSubBytes_isBlock T hT.inv_s_table _
    (invShiftRows_length _ (invMixColumns_length T _ (addRoundKey_length st k h)))

theorem checked_decrypt_round (T : Tables) (hT : T.Sized) (st ek : List Nat) (base : Nat)
    (reads : List Nat) (h : isBlock st) (hek : ∀ x ∈ ek, x < 256)
    (hb : base + 16 ≤ ek.length) :
    DecryptChecked.Round T st ek base reads =
      some (Decrypt.Round T st (ek.drop base),
        reads ++ (List.range 16).map (fun i => base + i)) := by
  have h1 : isBlock (Decrypt.AddRoundKey st (ek.drop base)) :=
    addRoundKey_isBlock st _ h (drop_getD_lt_of_bytes ek hek base)
  have h2 := invMixColumns_isBlock T hT.mul9_table hT.mul11_table hT.mul13_table
    hT.mul14_table _ h1.1
  have h3 := invShiftRows_isBlock _ h2
  unfold DecryptChecked.Round Decrypt.Round
  rw [checked_decrypt_addRoundKey st ek base reads h.1 hb]
  simp only [Option.bind_eq_bind, Option.some_bind]
  rw [checked_invMixColumns T hT _ h1]
  simp only [Option.some_bind]
  rw [checked_invShiftRows _ h2.1]
  simp only [Option.some_bind]
  rw [checked_invSubBytes T hT.inv_s_table _ h3]
  simp only [Option.some_bind, Option.pure_def]

theorem checked_decrypt_initialRound (T : Tables) (hT : T.Sized) (st ek : List Nat)
    (base : Nat) (reads : List Nat) (h : isBlock st) (hek : ∀ x ∈ ek, x < 256)
    (hb : base + 16 ≤ ek.length) :
    DecryptChecked.InitialRound T st ek base reads =
      some (Decrypt.InitialRound T st (ek.drop base),
        reads ++ (List.range 16).map (fun i => base + i)) := by
  have h1 : isBlock (Decrypt.AddRoundKey st (ek.drop base)) :=
    addRoundKey_isBlock st _ h (drop_getD_lt_of_bytes ek hek base)
  have h3 := invShiftRows_isBlock _ h1
  unfold DecryptChecked.InitialRound Decrypt.InitialRound
  rw [checked_decrypt_addRoundKey st ek base reads h.1 hb]
  simp only [Option.bind_eq_bind, Option.some_bind]
  rw [checked_invShiftRows _ h1.1]
  simp only [Option.some_bind]
  rw [checked_invSubBytes T hT.inv_s_table _ h3]
  simp only [Option.some_bind, Option.pure_def]

theorem checked_decrypt_loop (T : Tables) (hT : T.Sized) (ek : List Nat)
    (hek : ∀ x ∈ ek, x < 256) (l : List Nat) (hl : ∀ i ∈ l, 16 * (i + 1) + 16 ≤ ek.length) :
    ∀ (st reads : List Nat), isBlock st →
      isBlock (l.foldl (fun st i => Decrypt.Round T st (ek.drop (16 * (i + 1)))) st) ∧
      l.foldlM
          (fun (sr : List Nat × List Nat) i =>
            DecryptChecked.Round T sr.1 ek (16 * (i + 1)) sr.2)
          (st, reads) =
        some (l.foldl (fun st i => Decrypt.Round T st (ek.drop (16 * (i + 1)))) st,
          reads ++ roundKeyReads (l.map (fun i => 16 * (i + 1)))) := by
  induction l with
  | nil => intro st reads h; exact ⟨h, by simp [roundKeyReads]⟩
  | cons i l ih =>
    intro st reads h
    have hi := hl i (List.mem_cons_self i l)
    have h1 := decrypt_round_isBlock_sized T hT st (ek.drop (16 * (i + 1))) h.1
    obtain ⟨i1, i2⟩ := ih (fun j hj => hl j (List.mem_cons_of_mem i hj)) _
      (reads ++ (List.range 16).map (fun j => 16 * (i + 1) + j)) h1
    refine ⟨by simpa only [List.foldl_cons] using i1, ?_⟩
    rw [List.foldlM_cons, checked_decrypt_round T hT st ek _ reads h hek hi]
    simp only [Option.bind_eq_bind, Option.some_bind, List.foldl_cons]
    rw [i2]
    simp only [roundKeyReads, List.map_cons, List.flatMap_cons, List.append_assoc]

set_option maxRecDepth 100000 in
theorem decrypt_reads_eq :
    ([] ++ (List.range 16).map (fun i => 160 + i) ++
        roundKeyReads ((List.range 9).reverse.map (fun i => 16 * (i + 1)))) ++
      (List.range 16).map (fun i => 0 + i) =
      roundKeyReads [160, 144, 128, 112, 96, 80, 64, 48, 32, 16, 0] := by
  decide

set_option maxRecDepth 100000 in
theorem checked_aesDecrypt (T : Tables) (hT : T.Sized) (c ek : List Nat) (hc : isBlock c)
    (hek : isExpandedKey ek) :
    DecryptChecked.AESDecrypt T c ek =
      some (Decrypt.AESDecrypt T c ek,
        roundKeyReads [160, 144, 128, 112, 96, 80, 64, 48, 32, 16, 0]) := by
  have h0 : isBlock (Decrypt.InitialRound T c (ek.drop 160)) :=
    invSubBytes_isBlock T hT.inv_s_table _
      (invShiftRows_length _ (addRoundKey_length c _ hc.1))
  obtain ⟨h9, e9⟩ := checked_decrypt_loop T hT ek hek.2 (List.range 9).reverse
    (by intro i hi; rw [hek.1]; have := List.mem_range.1 (List.mem_reverse.1 hi); omega)
    (Decrypt.InitialRound T c (ek.drop 160)) ([] ++ (List.range 16).map (fun i => 160 + i)) h0
  have h10 : (Decrypt.AddRoundKey
      ((List.range 9).reverse.foldl
        (fun st i => Decrypt.Round T st (ek.drop (16 * (i + 1))))
        (Decrypt.InitialRound T c (ek.drop 160))) ek).length = 16 :=
    addRoundKey_length _ _ h9.1
  unfold DecryptChecked.AESDecrypt Decrypt.AESDecrypt
  rw [checkedCopy16_eq fresh16 c fresh16_length (by rw [hc.1]), copy16_fresh c hc.1]
  simp only [Option.bind_eq_bind, Option.some_bind]
  rw [checked_decrypt_initialRound T hT c ek 160 [] hc hek.2 (by rw [hek.1]), Option.some_bind,
    e9, Option.some_bind, checked_decrypt_addRoundKey _ ek 0 _ h9.1 (by rw [hek.1]; decide),
    Option.some_bind, List.drop_zero, checkedCopy16_eq fresh16 _ fresh16_length (by rw [h10]),
    Option.some_bind, decrypt_reads_eq]
  simp only [Option.pure_def]

theorem sized_of_valid (T : Tables) (hT : T.Valid) : T.Sized where
  s_table := hT.s_table
  inv_s_table := hT.inv_s_table
  mul2_table := hT.mul2_table
  mul3_table := hT.mul3_table
  mul9_table := hT.mul9_table
  mul11_table := hT.mul11_table
  mul13_table := hT.mul13_table
  mul14_table := hT.mul14_table

set_option maxRecDepth 100000 in
theorem roundKeyReads_in_range :
    roundKeyReads [0, 16, 32, 48, 64, 80, 96, 112, 128, 144, 160] = List.range 176 ∧
      (∀ o ∈ roundKeyReads [0, 16, 32, 48, 64, 80, 96, 112, 128, 144, 160], o < 176) ∧
      (∀ o ∈ roundKeyReads [160, 144, 128, 112, 96, 80, 64, 48, 32, 16, 0], o < 176) := by
  decide

/-- C17: `AESEncrypt` and `AESDecrypt` have no failure path on well-formed input.
For every 16-byte block and every 176-byte expanded key (tables of 256 bytes
each), the run with every subscript checked succeeds and returns what the plain
functions return, so every state index is in [0,15] and every table index in
[0,255]; the expanded key is read through the round keys at base offsets
0, 16, ..., 160 (decryption: 160, 144, ..., 0), 16 bytes each, so every read of
it is at an offset in [0,175]; and the result has 16 bytes. -/
theorem aes_has_no_failure_path (T : Tables) (b ek : List Nat) (hT : T.Sized)
    (hb : isBlock b) (hek : isExpandedKey ek) :
    EncryptChecked.AESEncrypt T b ek =
        some (Encrypt.AESEncrypt T b ek,
          roundKeyReads [0, 16, 32, 48, 64, 80, 96, 112, 128, 144, 160]) ∧
      DecryptChecked.AESDecrypt T b ek =
        some (Decrypt.AESDecrypt T b ek,
          roundKeyReads [160, 144, 128, 112, 96, 80, 64, 48, 32, 16, 0]) ∧
      roundKeyReads [0, 16, 32, 48, 64, 80, 96, 112, 128, 144, 160] = List.range 176 ∧
      (∀ o ∈ roundKeyReads [0, 16, 32, 48, 64, 80, 96, 112, 128, 144, 160], o < 176) ∧
      (∀ o ∈ roundKeyReads [160, 144, 128, 112, 96, 80, 64, 48, 32, 16, 0], o < 176) ∧
      (Encrypt.AESEncrypt T b ek).length = 16 ∧
      (Decrypt.AESDecrypt T b ek).length = 16 :=
  ⟨checked_aesEncrypt T hT b ek hb hek, checked_aesDecrypt T hT b ek hb hek,
    roundKeyReads_in_range.1, roundKeyReads_in_range.2.1, roundKeyReads_in_range.2.2,
    copy16_fresh_length _, copy16_fresh_length _⟩

set_option maxRecDepth 100000 in
theorem aes_has_no_failure_path_witness :
    stdTables.Sized ∧ isBlock katPlain ∧ isExpandedKey sampleExpandedKey ∧
      EncryptChecked.AESEncrypt stdTables katPlain sampleExpandedKey =
        some (Encrypt.AESEncrypt stdTables katPlain sampleExpandedKey,
          roundKeyReads [0, 16, 32, 48, 64, 80, 96, 112, 128, 144, 160]) ∧
      DecryptChecked.AESDecrypt stdTables katPlain sampleExpandedKey =
        some (Decrypt.AESDecrypt stdTables katPlain sampleExpandedKey,
          roundKeyReads [160, 144, 128, 112, 96, 80, 64, 48, 32, 16, 0]) ∧
      roundKeyReads [0, 16, 32, 48, 64, 80, 96, 112, 128, 144, 160] = List.range 176 ∧
      (∀ o ∈ roundKeyReads [0, 16, 32, 48, 64, 80, 96, 112, 128, 144, 160], o < 176) ∧
      (∀ o ∈ roundKeyReads [160, 144, 128, 112, 96, 80, 64, 48, 32, 16, 0], o < 176) ∧
      (Encrypt.AESEncrypt stdTables katPlain sampleExpandedKey).length = 16 ∧
      (Decrypt.AESDecrypt stdTables katPlain sampleExpandedKey).length = 16 :=
  ⟨sized_of_valid stdTables stdTables_valid, by decide, by decide!,
    aes_has_no_failure_path stdTables katPlain sampleExpandedKey
      (sized_of_valid stdTables stdTables_valid) (by decide) (by decide!)⟩

/-! ## Encryption undoes decryption -/

theorem encrypt_round_decrypt_round (T : Tables) (hT : T.Valid) (st k : List Nat)
    (h : isBlock st) (hk : ∀ i, k.getD i 0 < 256) :
    Encrypt.Round T (Decrypt.Round T st k) k = st := by
  have h1 : isBlock (Encrypt.AddRoundKey st k) := addRoundKey_isBlock st k h hk
  have h2 := invMixColumns_isBlock T hT.mul9_table hT.mul11_table hT.mul13_table
    hT.mul14_table _ h1.1
  have h3 := invShiftRows_isBlock _ h2
  unfold Encrypt.Round Decrypt.Round
  rw [decrypt_addRoundKey_eq, subBytes_invSubBytes T hT.s_inv_s _ h3,
    shiftRows_invShiftRows _ h2.1, mixColumns_invMixColumns T hT _ h1,
    addRoundKey_twice _ _ h.1]

theorem decrypt_initialRound_isBlock (T : Tables) (hT : T.Valid) (st k : List Nat)
    (h : st.length = 16) : isBlock (Decrypt.InitialRound T st k) :=
  invSubBytes_isBlock T hT.inv_s_table _ (invShiftRows_length _ (addRoundKey_length st k h))

theorem encrypt_finalRound_decrypt_initialRound (T : Tables) (hT : T.Valid) (st k : List Nat)
    (h : isBlock st) (hk : ∀ i, k.getD i 0 < 256) :
    Encrypt.FinalRound T (Decrypt.InitialRound T st k) k = st := by
  have h1 : isBlock (Encrypt.AddRoundKey st k) := addRoundKey_isBlock st k h hk
  have h2 := invShiftRows_isBlock _ h1
  unfold Encrypt.FinalRound Decrypt.InitialRound
  rw [decrypt_addRoundKey_eq, subBytes_invSubBytes T hT.s_inv_s _ h2,
    shiftRows_invShiftRows _ h1.1, addRoundKey_twice _ _ h.1]

theorem rounds_redo (T : Tables) (hT : T.Valid) (ks : List (List Nat))
    (hks : ∀ k ∈ ks, ∀ i, k.getD i 0 < 256) :
    ∀ st, isBlock st →
      isBlock (ks.reverse.foldl (Decrypt.Round T) st) ∧
        ks.foldl (Encrypt.Round T) (ks.reverse.foldl (Decrypt.Round T) st) = st := by
  induction ks with
  | nil => intro st h; exact ⟨h, rfl⟩
  | cons k ks ih =>
    intro st h
    have hk := hks k (List.mem_cons_self k ks)
    obtain ⟨i1, i2⟩ := ih (fun k' hk' => hks k' (List.mem_cons_of_mem k hk')) st h
    simp only [List.reverse_cons, List.foldl_append, List.foldl_cons, List.foldl_nil]
    refine ⟨decrypt_round_isBlock_sized T (sized_of_valid T hT) _ k i1.1, ?_⟩
    rw [encrypt_round_decrypt_round T hT _ k i1 hk, i2]

theorem aesDecrypt_isBlock (T : Tables) (hT : T.Valid) (c ek : List Nat)
    (hek : ∀ x ∈ ek, x < 256) : isBlock (Decrypt.AESDecrypt T c ek) := by
  have hl : (Decrypt.AESDecrypt T c ek).length = 16 := copy16_fresh_length _
  refine ⟨hl, ?_⟩
  have hks : ∀ k ∈ (List.range 9).map (fun i => ek.drop (16 * (i + 1))),
      ∀ i, k.getD i 0 < 256 := by
    intro k hk i
    obtain ⟨n, _, rfl⟩ := List.mem_map.1 hk
    exact drop_getD_lt_of_bytes ek hek _ i
  have h1 := decrypt_initialRound_isBlock T hT (copy16 fresh16 c) (ek.drop 160)
    (copy16_fresh_length c)
  obtain ⟨h9, _⟩ := rounds_redo T hT _ hks _ h1
  have h0 : isBlock (Encrypt.AddRoundKey _ ek) :=
    addRoundKey_isBlock _ ek h9 (getD_lt_of_bytes ek hek)
  unfold Decrypt.AESDecrypt
  simp only [decrypt_loop_eq]
  rw [decrypt_addRoundKey_eq, copy16_fresh _ h0.1]
  exact h0.2

theorem aesEncrypt_isBlock (T : Tables) (hT : T.Valid) (b ek : List Nat)
    (hb : isBlock b) (hek : ∀ x ∈ ek, x < 256) : isBlock (Encrypt.AESEncrypt T b ek) := by
  have hks : ∀ k ∈ (List.range 9).map (fun i => ek.drop (16 * (i + 1))),
      ∀ i, k.getD i 0 < 256 := by
    intro k hk i
    obtain ⟨n, _, rfl⟩ := List.mem_map.1 hk
    exact drop_getD_lt_of_bytes ek hek _ i
  have h0 : isBlock (Encrypt.AddRoundKey b ek) :=
    addRoundKey_isBlock b ek hb (getD_lt_of_bytes ek hek)
  obtain ⟨h9, _⟩ := rounds_undo T hT _ hks _ h0
  have h10 := encrypt_finalRound_isBlock T hT _ (ek.drop 160) h9
    (drop_getD_lt_of_bytes ek hek 160)
  unfold Encrypt.AESEncrypt
  simp only [encrypt_loop_eq]
  rw [copy16_fresh b hb.1, copy16_fresh _ h10.1]
  exact h10

theorem aesEncrypt_aesDecrypt (T : Tables) (hT : T.Valid) (c ek : List Nat)
    (hc : isBlock c) (hek : ∀ x ∈ ek, x < 256) :
    Encrypt.AESEncrypt T (Decrypt.AESDecrypt T c ek) ek = c := by
  have hks : ∀ k ∈ (List.range 9).map (fun i => ek.drop (16 * (i + 1))),
      ∀ i, k.getD i 0 < 256 := by
    intro k hk i
    obtain ⟨n, _, rfl⟩ := List.mem_map.1 hk
    exact drop_getD_lt_of_bytes ek hek _ i
  have h1 := decrypt_initialRound_isBlock T hT c (ek.drop 160) hc.1
  obtain ⟨h9, hu⟩ := rounds_redo T hT _ hks _ h1
  have h0 : isBlock (Encrypt.AddRoundKey _ ek) :=
    addRoundKey_isBlock _ ek h9 (getD_lt_of_bytes ek hek)
  unfold Encrypt.AESEncrypt Decrypt.AESDecrypt
  simp only [encrypt_loop_eq, decrypt_loop_eq]
  rw [copy16_fresh c hc.1, decrypt_addRoundKey_eq, copy16_fresh _ h0.1, copy16_fresh _ h0.1,
    addRoundKey_twice _ _ h9.1, hu,
    encrypt_finalRound_decrypt_initialRound T hT c _ hc (drop_getD_lt_of_bytes ek hek 160),
    copy16_fresh c hc.1]

/-- C21: encryption undoes decryption.  With lookup tables as the specification
defines them, for every 16-byte block `c` and every 176-byte expanded key `ek`,
`AESEncrypt(AESDecrypt(c, ek), ek) = c`; the decryption of a block is a block,
and `AESEncrypt` with the key `ek` fixed is a bijection of the 16-byte blocks
onto themselves. -/
theorem aesEncrypt_undoes_aesDecrypt (T : Tables) (c ek : List Nat) (hT : T.Valid)
    (hc : isBlock c) (hek : isExpandedKey ek) :
    Encrypt.AESEncrypt T (Decrypt.AESDecrypt T c ek) ek = c ∧
      isBlock (Decrypt.AESDecrypt T c ek) ∧
      Set.BijOn (fun b => Encrypt.AESEncrypt T b ek) (setOf isBlock) (setOf isBlock) := by
  refine ⟨aesEncrypt_aesDecrypt T hT c ek hc hek.2, aesDecrypt_isBlock T hT c ek hek.2, ?_⟩
  have hl : Set.LeftInvOn (fun b => Decrypt.AESDecrypt T b ek)
      (fun b => Encrypt.AESEncrypt T b ek) (setOf isBlock) :=
    fun b hb => aesDecrypt_aesEncrypt T hT b ek hb hek.2
  have hr : Set.RightInvOn (fun b => Decrypt.AESDecrypt T b ek)
      (fun b => Encrypt.AESEncrypt T b ek) (setOf isBlock) :=
    fun b hb => aesEncrypt_aesDecrypt T hT b ek hb hek.2
  have me : Set.MapsTo (fun b => Encrypt.AESEncrypt T b ek) (setOf isBlock)
      (setOf isBlock) :=
    fun b hb => aesEncrypt_isBlock T hT b ek hb hek.2
  have md : Set.MapsTo (fun b => Decrypt.AESDecrypt T b ek) (setOf isBlock)
      (setOf isBlock) :=
    fun b _ => aesDecrypt_isBlock T hT b ek hek.2
  exact Set.InvOn.bijOn ⟨hl, hr⟩ me md

set_option maxRecDepth 100000 in
theorem aesEncrypt_undoes_aesDecrypt_witness :
    stdTables.Valid ∧ isBlock katCipher ∧ isExpandedKey sampleExpandedKey ∧
      Encrypt.AESEncrypt stdTables (Decrypt.AESDecrypt stdTables katCipher sampleExpandedKey)
          sampleExpandedKey = katCipher ∧
      isBlock (Decrypt.AESDecrypt stdTables katCipher sampleExpandedKey) ∧
      Set.BijOn (fun b => Encrypt.AESEncrypt stdTables b sampleExpandedKey)
        (setOf isBlock) (setOf isBlock) :=
  ⟨stdTables_valid, by decide, by decide!,
    aesEncrypt_undoes_aesDecrypt stdTables katCipher sampleExpandedKey stdTables_valid
      (by decide) (by decide!)⟩
